import Mathlib

/-!
# The in-memory PE loader of `collab-vm-agent-loader/MemoryModule.c`

A shallow embedding of `MemoryModule.c` and theorems about it.

## How the C program is represented

* **Memory.** One flat, byte-addressed address space `Mem = Nat → Nat`; a cell
  is read modulo 256.  The input buffer and the image region live in the same
  address space, as they do in the process.  Multi-byte fields are little
  endian (`rdN`, `wrN`).  Addresses are natural numbers: pointer arithmetic is
  exact (C leaves pointer overflow undefined), except that a negative offset
  larger than the pointer wraps modulo the pointer width, as in the build
  (`ptrAddLong`); access violations are not represented, every address can be
  read and written.
* **Integers.** `WORD`/`DWORD`/`ULONGLONG` values are naturals reduced modulo
  `2^16`, `2^32`, `2^64` where the C arithmetic wraps.  `POINTER_TYPE` is 4 or 8
  bytes according to `Win32.win64` (the `_WIN64` build switch).
* **The operating system and the host.** Every Win32 call and every host
  callback is logged, in call order, in `Machine.trace`.  What such a call
  returns is not determined by the C file: it is given by an oracle
  (`Win32`, `Callbacks`) that may depend on the whole history of calls.
  `SetLastError` is logged as an event; `lastError` reads the thread's current
  value back from the log.
* **The module record.** `MEMORYMODULE` is a Lean structure (it lives on the
  process heap, not in the image).  The three callbacks stored in the record
  are the `Callbacks` argument, which stays fixed during a load.  The heap
  block `modules` points to is carried as the list `moduleArr`.
* **Loops.** Loops whose trip count is bounded by the types involved take a
  sufficient constant amount of fuel; loops that need not terminate on every
  image (relocation blocks, import descriptors, thunk arrays) take a fuel
  argument and return `none` when it runs out.

* **Ghost results.** Where a statement is about which entries a loop has
  processed or which bytes a stage has written, the loop is repeated with an
  additional result (`relocEntriesLog`, `copySectionsWrites`,
  `importLoopWrites`, ...); theorems such as `PerformBaseRelocationLog_fst` and
  the frame lemmas tie these to the functions they follow.

Record layouts and constants of `<winnt.h>` / `<windows.h>` are the ones of the
Windows SDK.
-/

namespace MemoryModule

/-! ## Byte memory -/

/-- Flat byte-addressed memory. -/
abbrev Mem := Nat → Nat

/-- Little-endian read of `n` bytes at address `a`. -/
def rdN : Nat → Mem → Nat → Nat
  | 0, _, _ => 0
  | n + 1, m, a => m a % 256 + 256 * rdN n m (a + 1)

/-- Little-endian write of the low `n` bytes of `v` at address `a`. -/
def wrN (n : Nat) (m : Mem) (a v : Nat) : Mem :=
  fun x => if a ≤ x ∧ x < a + n then v / 256 ^ (x - a) % 256 else m x

/-- Read a `WORD`. -/
def rd16 (m : Mem) (a : Nat) : Nat := rdN 2 m a

/-- Read a `DWORD`. -/
def rd32 (m : Mem) (a : Nat) : Nat := rdN 4 m a

/-- Read a `ULONGLONG`. -/
def rd64 (m : Mem) (a : Nat) : Nat := rdN 8 m a

/-- Write a `DWORD`. -/
def wr32 (m : Mem) (a v : Nat) : Mem := wrN 4 m a v

/-- Write a `ULONGLONG`. -/
def wr64 (m : Mem) (a v : Nat) : Mem := wrN 8 m a v

/-- C `memcpy(dest, src, n)`: the source bytes are those before the call. -/
def memcpy (m : Mem) (dest src n : Nat) : Mem :=
  fun x => if dest ≤ x ∧ x < dest + n then m (src + (x - dest)) else m x

/-- C `memset(dest, c, n)`. -/
def memset (m : Mem) (dest c n : Nat) : Mem :=
  fun x => if dest ≤ x ∧ x < dest + n then c % 256 else m x

/-! ## Events, oracles and machine state -/

/-- A call that leaves the loader: a host callback, the image's entry point or
a Win32 API call, with its arguments and (where there is one) its result. -/
inductive Event where
  | loadLibrary (name userdata ret : Nat)
  | getProcAddress (handle name userdata ret : Nat)
  | freeLibrary (handle userdata : Nat)
  | dllEntry (addr arg : Nat)
  | virtualAlloc (addr size kind protect ret : Nat)
  | virtualFree (addr size kind : Nat)
  | virtualProtect (addr size protect : Nat)
  | heapAlloc (size ret : Nat)
  | heapReAlloc (ptr size ret : Nat)
  | heapFree (ptr : Nat)
  | setLastError (code : Nat)
  deriving DecidableEq

/-- The operating system as seen by the loader: the build's pointer width and
the results of the Win32 calls whose result the loader uses.  Results may
depend on the calls made so far.  `IsBadReadPtr` only depends on the page
protections, which no call made while imports are bound changes. -/
structure Win32 where
  win64 : Bool
  virtualAlloc : List Event → Nat → Nat → Nat → Nat → Nat
  heapAlloc : List Event → Nat → Nat
  heapReAlloc : List Event → Nat → Nat → Nat
  isBadReadPtr : Nat → Nat → Bool

/-- The host's `CustomLoadLibraryFunc` and `CustomGetProcAddressFunc`: what they
return, given the calls made so far, the memory they can read, and their
arguments.  (`CustomFreeLibraryFunc` returns nothing.) -/
structure Callbacks where
  loadLibrary : List Event → Mem → Nat → Nat → Nat
  getProcAddress : List Event → Mem → Nat → Nat → Nat → Nat

/-- Memory and the log of calls made so far (oldest first). -/
structure Machine where
  mem : Mem
  trace : List Event

/-- Append one event to the log. -/
def Machine.log (s : Machine) (e : Event) : Machine :=
  { s with trace := s.trace ++ [e] }

/-- Replace the memory. -/
def Machine.setMem (s : Machine) (m : Mem) : Machine :=
  { s with mem := m }

/-- The thread's last-error value after the logged calls, when one was set. -/
def lastError (t : List Event) : Option Nat :=
  t.foldl (fun acc e => match e with
    | Event.setLastError c => some c
    | _ => acc) none

/-- The structure `MEMORYMODULE` (lines 52-62).  `moduleArr` is the content of
the heap block `modules` points to; the three callback fields are the
`Callbacks` argument of the functions below. -/
structure MEMORYMODULE where
  headers : Nat
  codeBase : Nat
  modules : Nat
  moduleArr : List Nat
  numModules : Nat
  initialized : Nat
  userdata : Nat

/-! ## Constants and record layouts of the Windows SDK -/

/-- Size of a pointer, `sizeof(POINTER_TYPE)`. -/
def ptrBytes (os : Win32) : Nat := if os.win64 then 8 else 4

/-- Number of values of a pointer-sized integer. -/
def ptrMod (os : Win32) : Nat := 256 ^ ptrBytes os

/-- Read a `POINTER_TYPE`. -/
def rdPtr (os : Win32) (m : Mem) (a : Nat) : Nat := rdN (ptrBytes os) m a

/-- Write a `POINTER_TYPE`. -/
def wrPtr (os : Win32) (m : Mem) (a v : Nat) : Mem := wrN (ptrBytes os) m a v

def IMAGE_DOS_SIGNATURE : Nat := 0x5A4D
def IMAGE_NT_SIGNATURE : Nat := 0x00004550
def ERROR_OUTOFMEMORY : Nat := 14
def ERROR_MOD_NOT_FOUND : Nat := 126
def ERROR_PROC_NOT_FOUND : Nat := 127
def ERROR_BAD_EXE_FORMAT : Nat := 193
def MEM_COMMIT : Nat := 0x1000
def MEM_RESERVE : Nat := 0x2000
def MEM_DECOMMIT : Nat := 0x4000
def MEM_RELEASE : Nat := 0x8000
def PAGE_NOACCESS : Nat := 0x01
def PAGE_READONLY : Nat := 0x02
def PAGE_READWRITE : Nat := 0x04
def PAGE_WRITECOPY : Nat := 0x08
def PAGE_EXECUTE : Nat := 0x10
def PAGE_EXECUTE_READ : Nat := 0x20
def PAGE_EXECUTE_READWRITE : Nat := 0x40
def PAGE_EXECUTE_WRITECOPY : Nat := 0x80
def PAGE_NOCACHE : Nat := 0x200
def IMAGE_SCN_CNT_INITIALIZED_DATA : Nat := 0x00000040
def IMAGE_SCN_CNT_UNINITIALIZED_DATA : Nat := 0x00000080
def IMAGE_SCN_MEM_DISCARDABLE : Nat := 0x02000000
def IMAGE_SCN_MEM_NOT_CACHED : Nat := 0x04000000
def IMAGE_SCN_MEM_EXECUTE : Nat := 0x20000000
def IMAGE_SCN_MEM_READ : Nat := 0x40000000
def IMAGE_SCN_MEM_WRITE : Nat := 0x80000000
def IMAGE_DIRECTORY_ENTRY_IMPORT : Nat := 1
def IMAGE_DIRECTORY_ENTRY_BASERELOC : Nat := 5
def IMAGE_DIRECTORY_ENTRY_TLS : Nat := 9
def IMAGE_REL_BASED_ABSOLUTE : Nat := 0
def IMAGE_REL_BASED_HIGHLOW : Nat := 3
def IMAGE_REL_BASED_DIR64 : Nat := 10

/-- The constant `sizeof(IMAGE_BASE_RELOCATION)` (lines 45-48). -/
def IMAGE_SIZEOF_BASE_RELOCATION : Nat := 8

/-- The constant `sizeof(IMAGE_IMPORT_DESCRIPTOR)`. -/
def sizeofImportDescriptor : Nat := 20

/-- The constant `sizeof(IMAGE_SECTION_HEADER)`. -/
def sizeofSectionHeader : Nat := 40

/-- The constant `sizeof(MEMORYMODULE)`: nine pointer-sized or `int` fields. -/
def sizeofMemoryModule (os : Win32) : Nat := if os.win64 then 64 else 36

/-- Offset of `e_lfanew` in `IMAGE_DOS_HEADER`. -/
def off_e_lfanew : Nat := 60

/-- Offset of `FileHeader.NumberOfSections` in `IMAGE_NT_HEADERS`. -/
def off_NumberOfSections : Nat := 6

/-- Offset of `FileHeader.SizeOfOptionalHeader` in `IMAGE_NT_HEADERS`. -/
def off_SizeOfOptionalHeader : Nat := 20

/-- Offset of `OptionalHeader` in `IMAGE_NT_HEADERS`. -/
def off_OptionalHeader : Nat := 24

/-- Offset of `OptionalHeader.SizeOfInitializedData` in `IMAGE_NT_HEADERS`. -/
def off_SizeOfInitializedData : Nat := 32

/-- Offset of `OptionalHeader.SizeOfUninitializedData` in `IMAGE_NT_HEADERS`. -/
def off_SizeOfUninitializedData : Nat := 36

/-- Offset of `OptionalHeader.AddressOfEntryPoint` in `IMAGE_NT_HEADERS`. -/
def off_AddressOfEntryPoint : Nat := 40

/-- Offset of `OptionalHeader.ImageBase`: a `DWORD` after `BaseOfData` in the
32-bit header, a `ULONGLONG` in the place of `BaseOfData` in the 64-bit one. -/
def off_ImageBase (os : Win32) : Nat := if os.win64 then 48 else 52

/-- Offset of `OptionalHeader.SectionAlignment` in `IMAGE_NT_HEADERS`. -/
def off_SectionAlignment : Nat := 56

/-- Offset of `OptionalHeader.SizeOfImage` in `IMAGE_NT_HEADERS`. -/
def off_SizeOfImage : Nat := 80

/-- Offset of `OptionalHeader.SizeOfHeaders` in `IMAGE_NT_HEADERS`. -/
def off_SizeOfHeaders : Nat := 84

/-- Offset of `OptionalHeader.DataDirectory` in `IMAGE_NT_HEADERS`. -/
def off_DataDirectory (os : Win32) : Nat := if os.win64 then 136 else 120

/-- The address `GET_HEADER_DICTIONARY(module, idx)` (line 67); the entry holds
`VirtualAddress` at offset 0 and `Size` at offset 4. -/
def GET_HEADER_DICTIONARY (os : Win32) (module : MEMORYMODULE) (idx : Nat) : Nat :=
  module.headers + off_DataDirectory os + 8 * idx

/-- The address `IMAGE_FIRST_SECTION(headers)` in memory `m`. -/
def IMAGE_FIRST_SECTION (m : Mem) (headers : Nat) : Nat :=
  headers + off_OptionalHeader + rd16 m (headers + off_SizeOfOptionalHeader)

/-- The constant `IMAGE_ORDINAL_FLAG` of the build. -/
def IMAGE_ORDINAL_FLAG (os : Win32) : Nat := if os.win64 then 2 ^ 63 else 2 ^ 31

/-- The test `IMAGE_SNAP_BY_ORDINAL(t)`. -/
def IMAGE_SNAP_BY_ORDINAL (os : Win32) (t : Nat) : Bool :=
  t &&& IMAGE_ORDINAL_FLAG os != 0

/-- The value `IMAGE_ORDINAL(t)`. -/
def IMAGE_ORDINAL (t : Nat) : Nat := t &&& 0xffff

/-- The pointer `&p[(LONG)v]`: `p` plus a signed 32-bit offset given as its
`DWORD` bit pattern `v`.  The sum is exact unless the offset is negative and
larger than `p`; then it is the pointer the build computes, which wraps
modulo the pointer width. -/
def ptrAddLong (os : Win32) (p v : Nat) : Nat :=
  if v < 2 ^ 31 then p + v
  else if 2 ^ 32 ≤ p + v then p + v - 2 ^ 32
  else p + v + ptrMod os - 2 ^ 32

/-- Offset of `Misc.PhysicalAddress` in `IMAGE_SECTION_HEADER`. -/
def off_PhysicalAddress : Nat := 8

/-- Offset of `VirtualAddress` in `IMAGE_SECTION_HEADER`. -/
def off_VirtualAddress : Nat := 12

/-- Offset of `SizeOfRawData` in `IMAGE_SECTION_HEADER`. -/
def off_SizeOfRawData : Nat := 16

/-- Offset of `PointerToRawData` in `IMAGE_SECTION_HEADER`. -/
def off_PointerToRawData : Nat := 20

/-- Offset of `Characteristics` in `IMAGE_SECTION_HEADER`. -/
def off_Characteristics : Nat := 36

/-- Offset of `Name` in `IMAGE_IMPORT_DESCRIPTOR` (`OriginalFirstThunk` is at
offset 0). -/
def off_Name : Nat := 12

/-- Offset of `FirstThunk` in `IMAGE_IMPORT_DESCRIPTOR`. -/
def off_FirstThunk : Nat := 16

/-- Offset of `Name` in `IMAGE_IMPORT_BY_NAME`, after the `WORD Hint`. -/
def off_ImportByName_Name : Nat := 2

/-! ## Calls into the operating system and the host

A pointer-typed result is reduced to the pointer width of the build. -/

/-- The call `VirtualAlloc(addr, size, kind, protect)`: result and log. -/
def callVirtualAlloc (os : Win32) (addr size kind protect : Nat) (s : Machine) :
    Nat × Machine :=
  let ret := os.virtualAlloc s.trace addr size kind protect % ptrMod os
  (ret, s.log (Event.virtualAlloc addr size kind protect ret))

/-- The call `HeapAlloc(GetProcessHeap(), 0, size)`. -/
def callHeapAlloc (os : Win32) (size : Nat) (s : Machine) : Nat × Machine :=
  let ret := os.heapAlloc s.trace size % ptrMod os
  (ret, s.log (Event.heapAlloc size ret))

/-- The call `HeapReAlloc(GetProcessHeap(), 0, ptr, size)`. -/
def callHeapReAlloc (os : Win32) (ptr size : Nat) (s : Machine) : Nat × Machine :=
  let ret := os.heapReAlloc s.trace ptr size % ptrMod os
  (ret, s.log (Event.heapReAlloc ptr size ret))

/-- The call `module->loadLibrary(name, userdata)`. -/
def callLoadLibrary (os : Win32) (cb : Callbacks) (name userdata : Nat) (s : Machine) :
    Nat × Machine :=
  let ret := cb.loadLibrary s.trace s.mem name userdata % ptrMod os
  (ret, s.log (Event.loadLibrary name userdata ret))

/-- The call `module->getProcAddress(handle, name, userdata)`. -/
def callGetProcAddress (os : Win32) (cb : Callbacks) (handle name userdata : Nat)
    (s : Machine) : Nat × Machine :=
  let ret := cb.getProcAddress s.trace s.mem handle name userdata % ptrMod os
  (ret, s.log (Event.getProcAddress handle name userdata ret))

/-! ## `CopySections` (lines 85-119) -/

/-- The body of the loop of `CopySections` for the section header at `sec`
(lines 93-117). -/
def copySection (os : Win32) (data old_headers : Nat) (module : MEMORYMODULE)
    (sec : Nat) (s : Machine) : Machine :=
  if rd32 s.mem (sec + off_SizeOfRawData) = 0 then
    -- `int size`: a value of 2^31 or more is negative
    let size := rd32 s.mem (old_headers + off_SectionAlignment)
    if 0 < size ∧ size < 2 ^ 31 then
      let r := callVirtualAlloc os (module.codeBase + rd32 s.mem (sec + off_VirtualAddress))
        size MEM_COMMIT PAGE_READWRITE s
      let dest := r.1
      let s1 := r.2.setMem (wr32 r.2.mem (sec + off_PhysicalAddress) (dest % 2 ^ 32))
      s1.setMem (memset s1.mem dest 0 size)
    else s
  else
    let r := callVirtualAlloc os (module.codeBase + rd32 s.mem (sec + off_VirtualAddress))
      (rd32 s.mem (sec + off_SizeOfRawData)) MEM_COMMIT PAGE_READWRITE s
    let dest := r.1
    let s1 := r.2.setMem (memcpy r.2.mem dest
      (data + rd32 r.2.mem (sec + off_PointerToRawData))
      (rd32 r.2.mem (sec + off_SizeOfRawData)))
    s1.setMem (wr32 s1.mem (sec + off_PhysicalAddress) (dest % 2 ^ 32))

/-- The loop of `CopySections` (line 92): the bound `NumberOfSections` is read
again before every trip. -/
def copySectionsLoop (os : Win32) (data old_headers : Nat) (module : MEMORYMODULE) :
    Nat → Nat → Nat → Machine → Machine
  | 0, _, _, s => s
  | fuel + 1, i, sec, s =>
    if i < rd16 s.mem (module.headers + off_NumberOfSections) then
      copySectionsLoop os data old_headers module fuel (i + 1) (sec + sizeofSectionHeader)
        (copySection os data old_headers module sec s)
    else s

/-- `CopySections(data, old_headers, module)`.  The counter is compared with a
16-bit field, so the loop makes at most 65535 trips. -/
def CopySections (os : Win32) (data old_headers : Nat) (module : MEMORYMODULE)
    (s : Machine) : Machine :=
  copySectionsLoop os data old_headers module 65536 0
    (IMAGE_FIRST_SECTION s.mem module.headers) s

/-! ## `FinalizeSections` (lines 121-186) -/

/-- The table `ProtectionFlags[executable][readable][writeable]` (lines 122-132). -/
def ProtectionFlags (executable readable writeable : Bool) : Nat :=
  match executable, readable, writeable with
  | false, false, false => PAGE_NOACCESS
  | false, false, true => PAGE_WRITECOPY
  | false, true, false => PAGE_READONLY
  | false, true, true => PAGE_READWRITE
  | true, false, false => PAGE_EXECUTE
  | true, false, true => PAGE_EXECUTE_WRITECOPY
  | true, true, false => PAGE_EXECUTE_READ
  | true, true, true => PAGE_EXECUTE_READWRITE

/-- The value `imageOffset` (lines 139-143). -/
def imageOffset (os : Win32) (module : MEMORYMODULE) (m : Mem) : Nat :=
  if os.win64 then rd64 m (module.headers + off_ImageBase os) &&& 0xffffffff00000000 else 0

/-- The protection computed for a section with `Characteristics = ch`
(lines 148-150 and 159-162). -/
def sectionProtect (ch : Nat) : Nat :=
  let executable := ch &&& IMAGE_SCN_MEM_EXECUTE != 0
  let readable := ch &&& IMAGE_SCN_MEM_READ != 0
  let writeable := ch &&& IMAGE_SCN_MEM_WRITE != 0
  let protect := ProtectionFlags executable readable writeable
  if ch &&& IMAGE_SCN_MEM_NOT_CACHED ≠ 0 then protect ||| PAGE_NOCACHE else protect

/-- The size of the region to protect (lines 165-172). -/
def sectionProtectSize (module : MEMORYMODULE) (m : Mem) (sec : Nat) : Nat :=
  let ch := rd32 m (sec + off_Characteristics)
  let size := rd32 m (sec + off_SizeOfRawData)
  if size = 0 then
    if ch &&& IMAGE_SCN_CNT_INITIALIZED_DATA ≠ 0 then
      rd32 m (module.headers + off_SizeOfInitializedData)
    else if ch &&& IMAGE_SCN_CNT_UNINITIALIZED_DATA ≠ 0 then
      rd32 m (module.headers + off_SizeOfUninitializedData)
    else size
  else size

/-- The body of the loop of `FinalizeSections` for the section header at `sec`
(lines 147-181). -/
def finalizeSection (module : MEMORYMODULE) (imgOff sec : Nat) (s : Machine) : Machine :=
  let ch := rd32 s.mem (sec + off_Characteristics)
  if ch &&& IMAGE_SCN_MEM_DISCARDABLE ≠ 0 then
    s.log (Event.virtualFree (rd32 s.mem (sec + off_PhysicalAddress) ||| imgOff)
      (rd32 s.mem (sec + off_SizeOfRawData)) MEM_DECOMMIT)
  else
    let size := sectionProtectSize module s.mem sec
    if size > 0 then
      s.log (Event.virtualProtect (rd32 s.mem (sec + off_PhysicalAddress) ||| imgOff)
        size (sectionProtect ch))
    else s

/-- The loop of `FinalizeSections` (line 146). -/
def finalizeSectionsLoop (module : MEMORYMODULE) (imgOff : Nat) :
    Nat → Nat → Nat → Machine → Machine
  | 0, _, _, s => s
  | fuel + 1, i, sec, s =>
    if i < rd16 s.mem (module.headers + off_NumberOfSections) then
      finalizeSectionsLoop module imgOff fuel (i + 1) (sec + sizeofSectionHeader)
        (finalizeSection module imgOff sec s)
    else s

/-- `FinalizeSections(module)`; at most 65535 trips, as in `CopySections`. -/
def FinalizeSections (os : Win32) (module : MEMORYMODULE) (s : Machine) : Machine :=
  finalizeSectionsLoop module (imageOffset os module s.mem) 65536 0
    (IMAGE_FIRST_SECTION s.mem module.headers) s

/-! ## `PerformBaseRelocation` (lines 206-259) -/

/-- The body of the inner loop (lines 226-252) for the entry at `relInfo`:
`dest` is the page address of the block, `delta` the `SIZE_T` location delta. -/
def applyRelocation (os : Win32) (dest delta relInfo : Nat) (s : Machine) : Machine :=
  let type := rd16 s.mem relInfo >>> 12
  let offset := rd16 s.mem relInfo &&& 0xfff
  if type = IMAGE_REL_BASED_ABSOLUTE then s
  else if type = IMAGE_REL_BASED_HIGHLOW then
    s.setMem (wr32 s.mem (dest + offset) ((rd32 s.mem (dest + offset) + delta % 2 ^ 32) % 2 ^ 32))
  else if os.win64 = true ∧ type = IMAGE_REL_BASED_DIR64 then
    s.setMem (wr64 s.mem (dest + offset) ((rd64 s.mem (dest + offset) + delta % 2 ^ 64) % 2 ^ 64))
  else s

/-- The number `(relocation->SizeOfBlock - IMAGE_SIZEOF_BASE_RELOCATION) / 2`
(line 218).  `IMAGE_SIZEOF_BASE_RELOCATION` is `sizeof(...)` (lines 45-48), so
the subtraction is done in `size_t`. -/
def relocEntryCount (os : Win32) (m : Mem) (relocation : Nat) : Nat :=
  (rd32 m (relocation + 4) + ptrMod os - IMAGE_SIZEOF_BASE_RELOCATION) % ptrMod os / 2

/-- The inner loop (line 218) over the entries of the block at `relocation`;
the counter `i` is a `DWORD`. -/
def relocEntries (os : Win32) (relocation dest delta : Nat) :
    Nat → Nat → Nat → Machine → Option Machine
  | 0, _, _, _ => none
  | fuel + 1, i, relInfo, s =>
    if i < relocEntryCount os s.mem relocation then
      relocEntries os relocation dest delta fuel ((i + 1) % 2 ^ 32) (relInfo + 2)
        (applyRelocation os dest delta relInfo s)
    else some s

/-- The outer loop (lines 215-257) over the relocation blocks. -/
def relocBlocks (os : Win32) (module : MEMORYMODULE) (delta : Nat) :
    Nat → Nat → Machine → Option Machine
  | 0, _, _ => none
  | fuel + 1, relocation, s =>
    if rd32 s.mem relocation > 0 then
      match relocEntries os relocation (module.codeBase + rd32 s.mem relocation) delta
          fuel 0 (relocation + IMAGE_SIZEOF_BASE_RELOCATION) s with
      | none => none
      | some s1 => relocBlocks os module delta fuel (relocation + rd32 s1.mem (relocation + 4)) s1
    else some s

/-- `PerformBaseRelocation(module, delta)`. -/
def PerformBaseRelocation (os : Win32) (module : MEMORYMODULE) (delta : Nat) (fuel : Nat)
    (s : Machine) : Option Machine :=
  let directory := GET_HEADER_DICTIONARY os module IMAGE_DIRECTORY_ENTRY_BASERELOC
  if rd32 s.mem (directory + 4) > 0 then
    relocBlocks os module delta fuel (module.codeBase + rd32 s.mem directory) s
  else some s

/-! ## `BuildImportTable` (lines 261-327) -/

/-- The second argument of `getProcAddress` for the name-table entry `t`
(lines 306-311): the ordinal, or the address of `thunkData->Name`. -/
def thunkKey (os : Win32) (codeBase t : Nat) : Nat :=
  if IMAGE_SNAP_BY_ORDINAL os t then IMAGE_ORDINAL t
  else codeBase + t + off_ImportByName_Name

/-- The assignment to `*funcRef` for the name-table entry `t` (lines 306-311). -/
def bindThunk (os : Win32) (cb : Callbacks) (module : MEMORYMODULE) (handle t funcRef : Nat)
    (s : Machine) : Machine :=
  let r := callGetProcAddress os cb handle (thunkKey os module.codeBase t) module.userdata s
  r.2.setMem (wrPtr os r.2.mem funcRef r.1)

/-- The loop over the thunks of one descriptor (lines 305-316).  The result is
the value of `result` when the loop is left. -/
def bindThunks (os : Win32) (cb : Callbacks) (module : MEMORYMODULE) (handle : Nat) :
    Nat → Nat → Nat → Machine → Option (Bool × Machine)
  | 0, _, _, _ => none
  | fuel + 1, thunkRef, funcRef, s =>
    if rdPtr os s.mem thunkRef = 0 then some (true, s)
    else
      let s1 := bindThunk os cb module handle (rdPtr os s.mem thunkRef) funcRef s
      if rdPtr os s1.mem funcRef = 0 then some (false, s1)
      else bindThunks os cb module handle fuel (thunkRef + ptrBytes os) (funcRef + ptrBytes os) s1

/-- The heap block of `n` handles obtained from a block with content `arr`:
the old content is kept as far as it fits (a fresh block is the case
`arr = []`); slots not yet written read as 0. -/
def resizeArr (arr : List Nat) (n : Nat) : List Nat :=
  (arr ++ List.replicate n 0).take n

/-- Lines 282-286: grow the handle array to `numModules + 1` slots. -/
def growModules (os : Win32) (module : MEMORYMODULE) (s : Machine) : Nat × Machine :=
  if module.modules = 0 then
    callHeapAlloc os ((module.numModules + 1) * ptrBytes os) s
  else
    callHeapReAlloc os module.modules ((module.numModules + 1) * ptrBytes os) s

/-- Lines 294-296: `modules = tmp; modules[numModules++] = handle`. -/
def appendModule (module : MEMORYMODULE) (tmp handle : Nat) : MEMORYMODULE :=
  { module with
    modules := tmp
    moduleArr := (resizeArr module.moduleArr (module.numModules + 1)).set module.numModules handle
    numModules := module.numModules + 1 }

/-- The body of the loop over the import descriptors (lines 272-322) for the
descriptor at `importDesc`.  The result is the value of `result` at the end of
the body: `false` when the body leaves the loop with `break`. -/
def importDescriptor (os : Win32) (cb : Callbacks) (fuel importDesc : Nat)
    (module : MEMORYMODULE) (s : Machine) : Option (Bool × MEMORYMODULE × Machine) :=
  let l := callLoadLibrary os cb (module.codeBase + rd32 s.mem (importDesc + off_Name))
    module.userdata s
  let handle := l.1
  if handle = 0 then
    some (false, module, l.2.log (Event.setLastError ERROR_MOD_NOT_FOUND))
  else
    let g := growModules os module l.2
    if g.1 = 0 then
      some (false, module,
        (g.2.log (Event.freeLibrary handle module.userdata)).log
          (Event.setLastError ERROR_OUTOFMEMORY))
    else
      let module1 := appendModule module g.1 handle
      let s2 := g.2
      let funcRef := module.codeBase + rd32 s2.mem (importDesc + off_FirstThunk)
      let thunkRef :=
        if rd32 s2.mem importDesc ≠ 0 then module.codeBase + rd32 s2.mem importDesc
        else module.codeBase + rd32 s2.mem (importDesc + off_FirstThunk)
      match bindThunks os cb module1 handle fuel thunkRef funcRef s2 with
      | none => none
      | some (false, s3) =>
        some (false, module1,
          (s3.log (Event.freeLibrary handle module.userdata)).log
            (Event.setLastError ERROR_PROC_NOT_FOUND))
      | some (true, s3) => some (true, module1, s3)

/-- The loop over the import descriptors (lines 271-323), entered with
`result = 1`.  The result is the value of `result` when the loop is left. -/
def importLoop (os : Win32) (cb : Callbacks) :
    Nat → Nat → MEMORYMODULE → Machine → Option (Bool × MEMORYMODULE × Machine)
  | 0, _, _, _ => none
  | fuel + 1, importDesc, module, s =>
    if os.isBadReadPtr importDesc sizeofImportDescriptor = true then some (true, module, s)
    else if rd32 s.mem (importDesc + off_Name) = 0 then some (true, module, s)
    else
      match importDescriptor os cb fuel importDesc module s with
      | none => none
      | some (false, module1, s1) => some (false, module1, s1)
      | some (true, module1, s1) =>
        importLoop os cb fuel (importDesc + sizeofImportDescriptor) module1 s1

/-- `BuildImportTable(module)`: the returned `int` (`true` for 1), the module
record and the machine afterwards. -/
def BuildImportTable (os : Win32) (cb : Callbacks) (fuel : Nat) (module : MEMORYMODULE)
    (s : Machine) : Option (Bool × MEMORYMODULE × Machine) :=
  let directory := GET_HEADER_DICTIONARY os module IMAGE_DIRECTORY_ENTRY_IMPORT
  if rd32 s.mem (directory + 4) > 0 then
    importLoop os cb fuel (module.codeBase + rd32 s.mem directory) module s
  else some (true, module, s)

/-! ## `MemoryFreeLibrary` (lines 474-506) -/

/-- The calls made by the loop of lines 489-493, in order. -/
def freeModules (module : MEMORYMODULE) : List Event :=
  (List.range module.numModules).filterMap fun i =>
    if module.moduleArr.getD i 0 ≠ 0 then
      some (Event.freeLibrary (module.moduleArr.getD i 0) module.userdata)
    else none

/-- `MemoryFreeLibrary(mod)`, where `module` is the record `mod` points to. -/
def MemoryFreeLibrary (mod : Nat) (module : MEMORYMODULE) (s : Machine) : Machine :=
  if mod ≠ 0 then
    let s1 : Machine :=
      if module.modules ≠ 0 then
        { s with trace := s.trace ++ freeModules module ++ [Event.heapFree module.modules] }
      else s
    let s2 : Machine :=
      if module.codeBase ≠ 0 then s1.log (Event.virtualFree module.codeBase 0 MEM_RELEASE)
      else s1
    s2.log (Event.heapFree mod)
  else s

/-! ## `MemoryLoadLibraryEx` (lines 356-472) -/

/-- Lines 385-400: reserve the image region, at the preferred base or, failing
that, anywhere.  The result is `code`, 0 when both attempts fail. -/
def reserveImage (os : Win32) (old_header : Nat) (s : Machine) : Nat × Machine :=
  let r := callVirtualAlloc os (rdPtr os s.mem (old_header + off_ImageBase os))
    (rd32 s.mem (old_header + off_SizeOfImage)) (MEM_RESERVE ||| MEM_COMMIT) PAGE_READWRITE s
  if r.1 = 0 then
    callVirtualAlloc os 0 (rd32 r.2.mem (old_header + off_SizeOfImage))
      (MEM_RESERVE ||| MEM_COMMIT) PAGE_READWRITE r.2
  else r

/-- Lines 409-429: fill in the record, commit and copy the headers and store
the actual base in the copied `ImageBase`. -/
def copyHeaders (os : Win32) (data old_header code userdata : Nat) (s : Machine) :
    MEMORYMODULE × Machine :=
  let r := callVirtualAlloc os code (rd32 s.mem (old_header + off_SizeOfHeaders))
    MEM_COMMIT PAGE_READWRITE s
  let headers := r.1
  let s1 := r.2.setMem (memcpy r.2.mem headers data (rd32 r.2.mem (old_header + off_SizeOfHeaders)))
  let module : MEMORYMODULE :=
    { headers := ptrAddLong os headers (rd32 s1.mem (data + off_e_lfanew))
      codeBase := code
      modules := 0
      moduleArr := []
      numModules := 0
      initialized := 0
      userdata := userdata }
  (module, s1.setMem (wrPtr os s1.mem (module.headers + off_ImageBase os) code))

/-- Lines 431-438: copy the sections and relocate when the image is not at
its preferred base. -/
def placeImage (os : Win32) (fuel data old_header : Nat) (module : MEMORYMODULE)
    (s : Machine) : Option Machine :=
  let s1 := CopySections os data old_header module s
  let locationDelta :=
    (module.codeBase + ptrMod os - rdPtr os s1.mem (old_header + off_ImageBase os)) % ptrMod os
  if locationDelta ≠ 0 then PerformBaseRelocation os module locationDelta fuel s1
  else some s1

/-- Lines 445-464: finalize the sections and call the entry point. -/
def finalizeAndEnter (os : Win32) (module : MEMORYMODULE) (userdata : Nat) (s : Machine) :
    Machine :=
  let s1 := FinalizeSections os module s
  if rd32 s1.mem (module.headers + off_AddressOfEntryPoint) ≠ 0 then
    s1.log (Event.dllEntry
      (module.codeBase + rd32 s1.mem (module.headers + off_AddressOfEntryPoint)) userdata)
  else s1

/-- Lines 370-441, everything up to and including the call of
`BuildImportTable`.  `Sum.inl s`: the function has returned `NULL` at line 373,
379, 398 or 406, leaving the machine in state `s`.  `Sum.inr (result, r,
module, s)`: the record was allocated at `result` and `BuildImportTable` has
returned `r`. -/
def loadAndBind (os : Win32) (cb : Callbacks) (fuel data userdata : Nat) (s : Machine) :
    Option (Machine ⊕ (Nat × Bool × MEMORYMODULE × Machine)) :=
  if rd16 s.mem data ≠ IMAGE_DOS_SIGNATURE then
    some (Sum.inl (s.log (Event.setLastError ERROR_BAD_EXE_FORMAT)))
  else
    let old_header := ptrAddLong os data (rd32 s.mem (data + off_e_lfanew))
    if rd32 s.mem old_header ≠ IMAGE_NT_SIGNATURE then
      some (Sum.inl (s.log (Event.setLastError ERROR_BAD_EXE_FORMAT)))
    else
      let c := reserveImage os old_header s
      let code := c.1
      if code = 0 then
        some (Sum.inl (c.2.log (Event.setLastError ERROR_OUTOFMEMORY)))
      else
        let h := callHeapAlloc os (sizeofMemoryModule os) c.2
        let result := h.1
        if result = 0 then
          some (Sum.inl ((h.2.log (Event.setLastError ERROR_OUTOFMEMORY)).log
            (Event.virtualFree code 0 MEM_RELEASE)))
        else
          let m := copyHeaders os data old_header code userdata h.2
          match placeImage os fuel data old_header m.1 m.2 with
          | none => none
          | some s1 =>
            match BuildImportTable os cb fuel m.1 s1 with
            | none => none
            | some (r, module, s2) => some (Sum.inr (result, r, module, s2))

/-- `MemoryLoadLibraryEx(data, loadLibrary, getProcAddress, freeLibrary,
userdata)`: the returned `HMEMORYMODULE` (0 for `NULL`) and the machine
afterwards.  Line 466 (`return (HMEMORYMODULE)result;`) is commented out in the
source, so after the entry point control falls through to `error:`. -/
def MemoryLoadLibraryEx (os : Win32) (cb : Callbacks) (fuel data userdata : Nat)
    (s : Machine) : Option (Nat × Machine) :=
  match loadAndBind os cb fuel data userdata s with
  | none => none
  | some (Sum.inl s1) => some (0, s1)
  | some (Sum.inr (result, false, module, s2)) =>
    some (0, MemoryFreeLibrary result module s2)
  | some (Sum.inr (result, true, module, s2)) =>
    some (0, MemoryFreeLibrary result module (finalizeAndEnter os module userdata s2))

/-! ## Vocabulary for statements about the log -/

/-- A `VirtualAlloc` call that only commits pages (`MEM_COMMIT`). -/
def Event.isCommit : Event → Bool
  | Event.virtualAlloc _ _ kind _ _ => kind == MEM_COMMIT
  | _ => false

/-- A call `FinalizeSections` makes: a `VirtualFree` that decommits, or a
`VirtualProtect`. -/
def Event.isFinalize : Event → Bool
  | Event.virtualFree _ _ kind => kind == MEM_DECOMMIT
  | Event.virtualProtect _ _ _ => true
  | _ => false

/-- A call of the image's entry point. -/
def Event.isEntry : Event → Bool
  | Event.dllEntry _ _ => true
  | _ => false

/-- A call of the host's `loadLibrary` or `getProcAddress`. -/
def Event.isImportCall : Event → Bool
  | Event.loadLibrary _ _ _ => true
  | Event.getProcAddress _ _ _ _ => true
  | _ => false

/-- A call the import binder makes that succeeded: `loadLibrary` or
`getProcAddress` with a non-null result, `HeapAlloc` or `HeapReAlloc` with a
non-null result. -/
def Event.bound : Event → Bool
  | Event.loadLibrary _ _ ret => ret != 0
  | Event.getProcAddress _ _ _ ret => ret != 0
  | Event.heapAlloc _ ret => ret != 0
  | Event.heapReAlloc _ _ ret => ret != 0
  | _ => false

/-- A call the import binder makes that failed: `loadLibrary` or
`getProcAddress` returned null, or the handle array could not be grown. -/
def Event.failed : Event → Bool
  | Event.loadLibrary _ _ ret => ret == 0
  | Event.getProcAddress _ _ _ ret => ret == 0
  | Event.heapAlloc _ ret => ret == 0
  | Event.heapReAlloc _ _ ret => ret == 0
  | _ => false

/-- The log of `s'` is the log of `s` followed by events that all satisfy `P`. -/
def Extends (P : Event → Prop) (s s' : Machine) : Prop :=
  ∃ evs, s'.trace = s.trace ++ evs ∧ ∀ e ∈ evs, P e

/-- What the import binder logs after its failed call `f` before it returns
(lines 276, 289-290 and 319-320). -/
def failureTail (f : Event) (rest : List Event) : Prop :=
  match f with
  | Event.loadLibrary _ _ _ => rest = [Event.setLastError ERROR_MOD_NOT_FOUND]
  | Event.getProcAddress h _ ud _ =>
    rest = [Event.freeLibrary h ud, Event.setLastError ERROR_PROC_NOT_FOUND]
  | Event.heapAlloc _ _ =>
    ∃ h ud, rest = [Event.freeLibrary h ud, Event.setLastError ERROR_OUTOFMEMORY]
  | Event.heapReAlloc _ _ _ =>
    ∃ h ud, rest = [Event.freeLibrary h ud, Event.setLastError ERROR_OUTOFMEMORY]
  | _ => False

/-- The shape of what the import binder logs when it returns `res`: only
successful calls when it returns 1; otherwise successful calls, one failed
call, and what follows that failure. -/
def ImportLog (res : Bool) (evs : List Event) : Prop :=
  if res = true then ∀ e ∈ evs, e.bound = true
  else ∃ good f rest, evs = good ++ f :: rest ∧ (∀ e ∈ good, e.bound = true) ∧
    f.failed = true ∧ failureTail f rest

/-- The call that grows the handle array of `module` (lines 282-286), with
result `ret`. -/
def growEvent (os : Win32) (module : MEMORYMODULE) (ret : Nat) : Event :=
  if module.modules = 0 then Event.heapAlloc ((module.numModules + 1) * ptrBytes os) ret
  else Event.heapReAlloc module.modules ((module.numModules + 1) * ptrBytes os) ret

/-- A successful `getProcAddress` call on `handle`. -/
def GetProcOk (handle ud : Nat) (e : Event) : Prop :=
  ∃ key ret, ret ≠ 0 ∧ e = Event.getProcAddress handle key ud ret

/-- What one trip through the body of the descriptor loop (lines 272-322)
logs, with the value of `result` and the module record afterwards: the four
ways through the body. -/
inductive DescLog (os : Win32) (module : MEMORYMODULE) :
    Bool → MEMORYMODULE → List Event → Prop
  | modNotFound (name : Nat) :
    DescLog os module false module
      [Event.loadLibrary name module.userdata 0, Event.setLastError ERROR_MOD_NOT_FOUND]
  | outOfMemory (name h : Nat) (hh : h ≠ 0) :
    DescLog os module false module
      [Event.loadLibrary name module.userdata h, growEvent os module 0,
        Event.freeLibrary h module.userdata, Event.setLastError ERROR_OUTOFMEMORY]
  | procNotFound (name h g : Nat) (hh : h ≠ 0) (hg : g ≠ 0) (syms : List Event)
      (hs : ∀ e ∈ syms, GetProcOk h module.userdata e) (key : Nat) :
    DescLog os module false (appendModule module g h)
      (Event.loadLibrary name module.userdata h :: growEvent os module g ::
        (syms ++ [Event.getProcAddress h key module.userdata 0,
          Event.freeLibrary h module.userdata, Event.setLastError ERROR_PROC_NOT_FOUND]))
  | bound (name h g : Nat) (hh : h ≠ 0) (hg : g ≠ 0) (syms : List Event)
      (hs : ∀ e ∈ syms, GetProcOk h module.userdata e) :
    DescLog os module true (appendModule module g h)
      (Event.loadLibrary name module.userdata h :: growEvent os module g :: syms)

/-! ## What the loader owns -/

/-- What the loader owns according to a log: the bases of the regions it has
reserved and not released, and the heap blocks it has allocated and not freed
(the most recent first). -/
structure Ledger where
  regions : List Nat
  blocks : List Nat
  deriving DecidableEq

/-- The effect of one logged call on the ledger: a successful reserving
`VirtualAlloc` adds a region and a `VirtualFree` with `MEM_RELEASE` removes
one; a successful `HeapAlloc` adds a block, a successful `HeapReAlloc` replaces
one and a `HeapFree` removes one.  `none` when the call releases something the
ledger does not hold. -/
def Ledger.step (l : Ledger) : Event → Option Ledger
  | Event.virtualAlloc _ _ kind _ ret =>
    if kind &&& MEM_RESERVE ≠ 0 ∧ ret ≠ 0 then some { l with regions := ret :: l.regions }
    else some l
  | Event.virtualFree addr _ kind =>
    if kind = MEM_RELEASE then
      if addr ∈ l.regions then some { l with regions := l.regions.erase addr } else none
    else some l
  | Event.heapAlloc _ ret =>
    if ret ≠ 0 then some { l with blocks := ret :: l.blocks } else some l
  | Event.heapReAlloc ptr _ ret =>
    if ret ≠ 0 then
      if ptr ∈ l.blocks then some { l with blocks := ret :: l.blocks.erase ptr } else none
    else some l
  | Event.heapFree ptr =>
    if ptr ∈ l.blocks then some { l with blocks := l.blocks.erase ptr } else none
  | _ => some l

/-- The ledger after a sequence of logged calls. -/
def Ledger.run : Ledger → List Event → Option Ledger
  | l, [] => some l
  | l, e :: evs =>
    match l.step e with
    | none => none
    | some l1 => Ledger.run l1 evs

/-- The heap blocks held for a module record on top of `rest`: its handle
array, when it has one. -/
def blocksOf (module : MEMORYMODULE) (rest : List Nat) : List Nat :=
  if module.modules = 0 then rest else module.modules :: rest

/-- What `reserveImage` logs when it returns `code`: one `VirtualAlloc` that
returned `code`, or one that returned `NULL` followed by one that returned
`code`. -/
def ReserveLog (code : Nat) (evs : List Event) : Prop :=
  (code ≠ 0 ∧ ∃ a sz, evs = [Event.virtualAlloc a sz (MEM_RESERVE ||| MEM_COMMIT) PAGE_READWRITE code]) ∨
  ∃ a sz sz2, evs = [Event.virtualAlloc a sz (MEM_RESERVE ||| MEM_COMMIT) PAGE_READWRITE 0,
    Event.virtualAlloc 0 sz2 (MEM_RESERVE ||| MEM_COMMIT) PAGE_READWRITE code]

/-- Both signature checks of lines 371 and 377 pass for the buffer at `data`. -/
def signaturesValid (os : Win32) (m : Mem) (data : Nat) : Prop :=
  rd16 m data = IMAGE_DOS_SIGNATURE ∧
    rd32 m (ptrAddLong os data (rd32 m (data + off_e_lfanew))) = IMAGE_NT_SIGNATURE

instance (os : Win32) (m : Mem) (data : Nat) : Decidable (signaturesValid os m data) := by
  unfold signaturesValid; infer_instance

/-- The calls `MemoryFreeLibrary(mod)` makes for a record with `mod ≠ NULL`
(lines 487-504). -/
def teardownLog (mod : Nat) (module : MEMORYMODULE) : List Event :=
  (if module.modules ≠ 0 then freeModules module ++ [Event.heapFree module.modules] else []) ++
  (if module.codeBase ≠ 0 then [Event.virtualFree module.codeBase 0 MEM_RELEASE] else []) ++
  [Event.heapFree mod]

/-- Neither a call of the entry point nor `SetLastError(ERROR_BAD_EXE_FORMAT)`. -/
def Event.quiet (e : Event) : Prop :=
  e.isEntry = false ∧ e ≠ Event.setLastError ERROR_BAD_EXE_FORMAT

/-- How often `loadLibrary` returned the handle `h` in a log. -/
def loadsOf (h : Nat) (t : List Event) : Nat :=
  t.countP fun e => match e with
    | Event.loadLibrary _ _ ret => ret == h
    | _ => false

/-- How often `freeLibrary` was called on the handle `h` in a log. -/
def freesOf (h : Nat) (t : List Event) : Nat :=
  t.countP fun e => match e with
    | Event.freeLibrary h1 _ => h1 == h
    | _ => false

/-! ## Concrete images

Small 32-bit images, laid out in the input buffer at address `0x1000`, used to
evaluate the loader. -/

/-- Memory that is zero except for the listed little-endian fields
`(address, size in bytes, value)`. -/
def fieldsMem (fs : List (Nat × Nat × Nat)) : Mem :=
  fs.foldl (fun m f => wrN f.2.1 m f.1 f.2.2) (fun _ => 0)

/-- A 32-bit system on which every allocation succeeds: `VirtualAlloc` grants
the address asked for (`0x10000000` when none is asked for), the heap hands
out fresh blocks and reallocates in place, and every pointer is readable. -/
def sampleOS : Win32 :=
  { win64 := false
    virtualAlloc := fun _ addr _ _ _ => if addr = 0 then 0x10000000 else addr
    heapAlloc := fun t _ => 0x500000 + 0x100 * t.length
    heapReAlloc := fun _ p _ => p
    isBadReadPtr := fun _ _ => false }

/-- A host whose `loadLibrary` returns the handle `0x7000` and whose
`getProcAddress` resolves the ordinal 17 to `byOrdinal` and every other key to
`byName`. -/
def sampleHost (byName byOrdinal : Nat) : Callbacks :=
  { loadLibrary := fun _ _ _ _ => 0x7000
    getProcAddress := fun _ _ _ key _ => if key = 17 then byOrdinal else byName }

/-- The header fields of the sample images: signatures, `e_lfanew = 0x40`, no
sections, entry point `0x200`, preferred base `0x400000`, `SizeOfImage =
0x2000`, `SizeOfHeaders = 0x200`, and an import directory at RVA `0x150`. -/
def sampleHeader : List (Nat × Nat × Nat) :=
  [(0x1000, 2, 0x5A4D), (0x103C, 4, 0x40),
   (0x1040, 4, 0x4550), (0x1046, 2, 0), (0x1054, 2, 224),
   (0x1068, 4, 0x200), (0x1074, 4, 0x400000), (0x1078, 4, 0x1000),
   (0x1090, 4, 0x2000), (0x1094, 4, 0x200),
   (0x10C0, 4, 0x150), (0x10C4, 4, 40)]

/-- An image that imports two symbols from one library: the name at RVA
`0x1B0` and the ordinal 17.  Descriptor at RVA `0x150` (name table `0x180`,
library name `0x190`, address table `0x1A0`), followed by a zero descriptor. -/
def sampleImage : Mem :=
  fieldsMem (sampleHeader ++
    [(0x1150, 4, 0x180), (0x115C, 4, 0x190), (0x1160, 4, 0x1A0),
     (0x1180, 4, 0x1B0), (0x1184, 4, 0x80000011),
     (0x11A0, 4, 0x1B0), (0x11A4, 4, 0x80000011)])

/-- A buffer at `0x1000` with the `MZ` magic whose `e_lfanew` is `0xFFFFE000`,
the offset `-0x2000`: line 376 computes the NT header pointer `0x1000 -
0x2000`, which is `0xFFFFF000` in a 32-bit build, and the `PE\0\0` signature
stands there. -/
def wrappedHeaderBuffer : Mem :=
  fieldsMem [(0x1000, 2, 0x5A4D), (0x103C, 4, 0xFFFFE000), (0xFFFFF000, 4, 0x4550)]

/-- The dependency list of a module record: `modules[0 .. numModules)`, empty
when `modules` is `NULL`. -/
def dependencies (module : MEMORYMODULE) : List Nat :=
  if module.modules = 0 then []
  else (List.range module.numModules).map fun i => module.moduleArr.getD i 0

/-- The calls by which `MemoryFreeLibrary(mod)` releases the storage of a
record: the handle array, the image region and the record itself (lines 496,
501 and 504). -/
def releaseLog (mod : Nat) (module : MEMORYMODULE) : List Event :=
  (if module.modules ≠ 0 then [Event.heapFree module.modules] else []) ++
  (if module.codeBase ≠ 0 then [Event.virtualFree module.codeBase 0 MEM_RELEASE] else []) ++
  [Event.heapFree mod]

/-- The record `BuildImportTable` is given by `MemoryLoadLibraryEx` for an
image mapped at `codeBase` whose NT headers are at `headers`: no handle array
yet. -/
def freshModule (headers codeBase userdata : Nat) : MEMORYMODULE :=
  { headers := headers
    codeBase := codeBase
    modules := 0
    moduleArr := []
    numModules := 0
    initialized := 0
    userdata := userdata }

/-! ## The import tables of an image, read from memory -/

/-- What an import descriptor says: its `OriginalFirstThunk`, `Name` and
`FirstThunk` fields, and the entries of its name table before the first zero
entry. -/
structure ImportEntry where
  oft : Nat
  name : Nat
  ft : Nat
  thunks : List Nat
  deriving DecidableEq

/-- The RVA of the name table of a descriptor: `OriginalFirstThunk`, or
`FirstThunk` when that is zero (lines 297-304). -/
def ImportEntry.nameTable (e : ImportEntry) : Nat :=
  if e.oft ≠ 0 then e.oft else e.ft

/-- The pointer array at address `a` in `m` holds the non-zero values `ts`
followed by a zero entry. -/
def ThunkTable (os : Win32) (m : Mem) : Nat → List Nat → Prop
  | a, [] => rdPtr os m a = 0
  | a, t :: ts => rdPtr os m a = t ∧ t ≠ 0 ∧ ThunkTable os m (a + ptrBytes os) ts

instance (os : Win32) (m : Mem) : ∀ (a : Nat) (ts : List Nat), Decidable (ThunkTable os m a ts)
  | a, [] => inferInstanceAs (Decidable (rdPtr os m a = 0))
  | a, t :: ts =>
    have : Decidable (ThunkTable os m (a + ptrBytes os) ts) := instDecidableThunkTable os m _ ts
    inferInstanceAs (Decidable (rdPtr os m a = t ∧ t ≠ 0 ∧ ThunkTable os m (a + ptrBytes os) ts))

/-- The descriptor array at address `d` in `m`, for an image mapped at
`codeBase`, consists of the descriptors `es`, each reported readable by
`IsBadReadPtr` and with a non-zero `Name`, followed by a descriptor that is
reported unreadable or has `Name = 0` (the loop condition of line 271). -/
def Describes (os : Win32) (m : Mem) (codeBase : Nat) : Nat → List ImportEntry → Prop
  | d, [] => os.isBadReadPtr d sizeofImportDescriptor = true ∨ rd32 m (d + off_Name) = 0
  | d, e :: es =>
    os.isBadReadPtr d sizeofImportDescriptor = false ∧
    rd32 m (d + off_Name) = e.name ∧ e.name ≠ 0 ∧
    rd32 m d = e.oft ∧ rd32 m (d + off_FirstThunk) = e.ft ∧
    ThunkTable os m (codeBase + e.nameTable) e.thunks ∧
    Describes os m codeBase (d + sizeofImportDescriptor) es

instance (os : Win32) (m : Mem) (codeBase : Nat) :
    ∀ (d : Nat) (es : List ImportEntry), Decidable (Describes os m codeBase d es)
  | _, [] => inferInstanceAs (Decidable (_ ∨ _))
  | d, _ :: es =>
    have : Decidable (Describes os m codeBase (d + sizeofImportDescriptor) es) :=
      instDecidableDescribes os m codeBase _ es
    inferInstanceAs (Decidable (_ ∧ _ ∧ _ ∧ _ ∧ _ ∧ _ ∧ _))

/-- The import descriptors `es` that `BuildImportTable` finds for `module` in
memory `m`: those of the array the import directory points to, none when the
`Size` of the directory is 0 (line 269). -/
def ImportTable (os : Win32) (m : Mem) (module : MEMORYMODULE) (es : List ImportEntry) : Prop :=
  if rd32 m (GET_HEADER_DICTIONARY os module IMAGE_DIRECTORY_ENTRY_IMPORT + 4) > 0 then
    Describes os m module.codeBase
      (module.codeBase + rd32 m (GET_HEADER_DICTIONARY os module IMAGE_DIRECTORY_ENTRY_IMPORT)) es
  else es = []

instance (os : Win32) (m : Mem) (module : MEMORYMODULE) (es : List ImportEntry) :
    Decidable (ImportTable os m module es) := by
  unfold ImportTable; infer_instance

/-- The byte ranges `[a, a + n)` and `[b, b + k)` do not overlap. -/
def Apart (a n b k : Nat) : Prop :=
  n = 0 ∨ k = 0 ∨ a + n ≤ b ∨ b + k ≤ a

instance (a n b k : Nat) : Decidable (Apart a n b k) := by
  unfold Apart; infer_instance

/-- Start of the address table of a descriptor in an image mapped at `codeBase`. -/
def ImportEntry.iat (e : ImportEntry) (codeBase : Nat) : Nat := codeBase + e.ft

/-- Size in bytes of the address-table slots the binder writes for a
descriptor: one per name-table entry. -/
def ImportEntry.iatSize (os : Win32) (e : ImportEntry) : Nat := ptrBytes os * e.thunks.length

/-- Start of the name table of a descriptor in an image mapped at `codeBase`. -/
def ImportEntry.nt (e : ImportEntry) (codeBase : Nat) : Nat := codeBase + e.nameTable

/-- Size in bytes of the name table of a descriptor, its zero entry included. -/
def ImportEntry.ntSize (os : Win32) (e : ImportEntry) : Nat :=
  ptrBytes os * (e.thunks.length + 1)

/-- The layout assumption on the descriptors `es` of the array at `d`: for each
descriptor, its name table and its address table are the same array or do not
overlap, and the address-table slots written for it overlap neither the
descriptors that follow it (the terminating one included) nor the name table or
the address table of a descriptor that follows it. -/
def Layout (os : Win32) (codeBase : Nat) : Nat → List ImportEntry → Prop
  | _, [] => True
  | d, e :: es =>
    (e.nameTable = e.ft ∨
      Apart (e.iat codeBase) (e.iatSize os) (e.nt codeBase) (e.ntSize os)) ∧
    Apart (e.iat codeBase) (e.iatSize os) (d + sizeofImportDescriptor)
      (sizeofImportDescriptor * (es.length + 1)) ∧
    (∀ e1 ∈ es, Apart (e.iat codeBase) (e.iatSize os) (e1.nt codeBase) (e1.ntSize os) ∧
      Apart (e.iat codeBase) (e.iatSize os) (e1.iat codeBase) (e1.iatSize os)) ∧
    Layout os codeBase (d + sizeofImportDescriptor) es

instance (os : Win32) (codeBase : Nat) :
    ∀ (d : Nat) (es : List ImportEntry), Decidable (Layout os codeBase d es)
  | _, [] => inferInstanceAs (Decidable True)
  | d, _ :: es =>
    have : Decidable (Layout os codeBase (d + sizeofImportDescriptor) es) :=
      instDecidableLayout os codeBase _ es
    inferInstanceAs (Decidable (_ ∧ _ ∧ _ ∧ _))

/-- The layout assumption for the import directory of `module` in memory `m`. -/
def ImportLayout (os : Win32) (m : Mem) (module : MEMORYMODULE) (es : List ImportEntry) : Prop :=
  Layout os module.codeBase
    (module.codeBase + rd32 m (GET_HEADER_DICTIONARY os module IMAGE_DIRECTORY_ENTRY_IMPORT)) es

instance (os : Win32) (m : Mem) (module : MEMORYMODULE) (es : List ImportEntry) :
    Decidable (ImportLayout os m module es) := by
  unfold ImportLayout; infer_instance

/-- No slot of the address table at `funcRef` is laid over a name-table entry
that is read after the slot is written: for every `i < n`, slot `i` overlaps
none of the `n - i` entries that follow entry `i` of the name table at
`thunkRef` (its zero entry included).  It holds in particular when the two
tables are the same array. -/
def SlotsClear (os : Win32) (funcRef thunkRef n : Nat) : Prop :=
  ∀ i, i < n → Apart (funcRef + ptrBytes os * i) (ptrBytes os)
    (thunkRef + ptrBytes os * (i + 1)) (ptrBytes os * (n - i))

instance (os : Win32) (funcRef thunkRef n : Nat) : Decidable (SlotsClear os funcRef thunkRef n) := by
  unfold SlotsClear; infer_instance

/-- The layout assumption under which the binder reads what the image says:
for each descriptor of the array at `d`, no address-table slot written for it
overlaps a name-table entry of the same descriptor that is read later, a
descriptor that follows it (the terminating one included), or the name table
of a descriptor that follows it.  Address tables may overlap one another. -/
def ReadLayout (os : Win32) (codeBase : Nat) : Nat → List ImportEntry → Prop
  | _, [] => True
  | d, e :: es =>
    SlotsClear os (e.iat codeBase) (e.nt codeBase) e.thunks.length ∧
    Apart (e.iat codeBase) (e.iatSize os) (d + sizeofImportDescriptor)
      (sizeofImportDescriptor * (es.length + 1)) ∧
    (∀ e1 ∈ es, Apart (e.iat codeBase) (e.iatSize os) (e1.nt codeBase) (e1.ntSize os)) ∧
    ReadLayout os codeBase (d + sizeofImportDescriptor) es

instance (os : Win32) (codeBase : Nat) :
    ∀ (d : Nat) (es : List ImportEntry), Decidable (ReadLayout os codeBase d es)
  | _, [] => inferInstanceAs (Decidable True)
  | d, _ :: es =>
    have : Decidable (ReadLayout os codeBase (d + sizeofImportDescriptor) es) :=
      instDecidableReadLayout os codeBase _ es
    inferInstanceAs (Decidable (_ ∧ _ ∧ _ ∧ _))

/-- The assumption `ReadLayout` for the import directory of `module` in memory `m`. -/
def ImportReadLayout (os : Win32) (m : Mem) (module : MEMORYMODULE) (es : List ImportEntry) :
    Prop :=
  ReadLayout os module.codeBase
    (module.codeBase + rd32 m (GET_HEADER_DICTIONARY os module IMAGE_DIRECTORY_ENTRY_IMPORT)) es

instance (os : Win32) (m : Mem) (module : MEMORYMODULE) (es : List ImportEntry) :
    Decidable (ImportReadLayout os m module es) := by
  unfold ImportReadLayout; infer_instance

/-- A descriptor as bound by the binder: the handle `loadLibrary` returned for
it and the addresses `getProcAddress` returned for its thunks, in order. -/
structure Binding where
  entry : ImportEntry
  handle : Nat
  addrs : List Nat
  deriving DecidableEq

/-- The host calls made for one bound descriptor: `loadLibrary` on its name,
then `getProcAddress` for each thunk in order. -/
def Binding.calls (os : Win32) (codeBase userdata : Nat) (b : Binding) : List Event :=
  Event.loadLibrary (codeBase + b.entry.name) userdata b.handle ::
    List.zipWith (fun t r => Event.getProcAddress b.handle (thunkKey os codeBase t) userdata r)
      b.entry.thunks b.addrs

/-- The host calls made for a list of bound descriptors, in order. -/
def boundCalls (os : Win32) (codeBase userdata : Nat) : List Binding → List Event
  | [] => []
  | b :: bs => b.calls os codeBase userdata ++ boundCalls os codeBase userdata bs

/-- Memory after the values `rs` were stored in consecutive pointer slots from
address `a` on. -/
def writeSlots (os : Win32) : Mem → Nat → List Nat → Mem
  | m, _, [] => m
  | m, a, r :: rs => writeSlots os (wrPtr os m a r) (a + ptrBytes os) rs

/-- Memory after the address tables of the bound descriptors were filled in. -/
def writeBindings (os : Win32) (codeBase : Nat) : Mem → List Binding → Mem
  | m, [] => m
  | m, b :: bs => writeBindings os codeBase (writeSlots os m (b.entry.iat codeBase) b.addrs) bs

/-- A call of the host's `loadLibrary`. -/
def Event.isLoad : Event → Bool
  | Event.loadLibrary _ _ _ => true
  | _ => false

/-- The sample system, except that `IsBadReadPtr` reports a range unreadable
exactly when it reaches beyond the address `limit`. -/
def limitedOS (limit : Nat) : Win32 :=
  { sampleOS with isBadReadPtr := fun a n => decide (limit < a + n) }

/-- A host that tells its calls apart: `loadLibrary(name)` returns `0x70000 +
name` and `getProcAddress(handle, key)` returns `0x80000 + key`. -/
def echoHost : Callbacks :=
  { loadLibrary := fun _ _ name _ => 0x70000 + name
    getProcAddress := fun _ _ _ key _ => 0x80000 + key }

/-- The tables of an image that imports one symbol by name from each of two
libraries: descriptors at RVA `0x150` and `0x164` followed by a zero
descriptor; name tables at `0x180` and `0x1B0`; the second address table at
`0x1C0`. -/
def twoLibTables : List (Nat × Nat × Nat) :=
  [(0x1150, 4, 0x180), (0x115C, 4, 0x190),
   (0x1164, 4, 0x1B0), (0x1170, 4, 0x194), (0x1174, 4, 0x1C0),
   (0x1180, 4, 0x1D0), (0x11B0, 4, 0x1E0), (0x11C0, 4, 0x1E0)]

/-- A well-formed image with two import descriptors; the first address table
is at RVA `0x1A0`. -/
def twoLibImage : Mem :=
  fieldsMem (sampleHeader ++ twoLibTables ++ [(0x1160, 4, 0x1A0), (0x11A0, 4, 0x1D0)])

/-- The image `twoLibImage`, except that both descriptors name the same
address table, at RVA `0x1A0`. -/
def sharedIatImage : Mem :=
  fieldsMem (sampleHeader ++ twoLibTables ++
    [(0x1160, 4, 0x1A0), (0x11A0, 4, 0x1D0), (0x1174, 4, 0x1A0)])

/-- The image `twoLibImage`, except that the address table of the first
descriptor is at RVA `0x170`, on the `Name` field of the second descriptor. -/
def clobberImage : Mem :=
  fieldsMem (sampleHeader ++ twoLibTables ++ [(0x1160, 4, 0x170)])

/-- What the two descriptors of `twoLibImage` say. -/
def twoLibEntries : List ImportEntry :=
  [{ oft := 0x180, name := 0x190, ft := 0x1A0, thunks := [0x1D0] },
   { oft := 0x1B0, name := 0x194, ft := 0x1C0, thunks := [0x1E0] }]

/-- What the two descriptors of `sharedIatImage` say. -/
def sharedIatEntries : List ImportEntry :=
  [{ oft := 0x180, name := 0x190, ft := 0x1A0, thunks := [0x1D0] },
   { oft := 0x1B0, name := 0x194, ft := 0x1A0, thunks := [0x1E0] }]

/-! ## Vocabulary for the order of teardown -/

/-- The handles the `loadLibrary` callback returned in a log, oldest first. -/
def loadReturns (t : List Event) : List Nat :=
  t.filterMap fun e => match e with
    | Event.loadLibrary _ _ ret => some ret
    | _ => none

/-- The handles the `freeLibrary` callback was called on in a log, oldest
first. -/
def freedHandles (t : List Event) : List Nat :=
  t.filterMap fun e => match e with
    | Event.freeLibrary h _ => some h
    | _ => none

/-! ## Vocabulary for the protection of sections -/

/-- The protection the claim's table gives for the access bits of the
characteristics `ch`, without the cache flag. -/
def accessProtect (ch : Nat) : Nat :=
  if ch &&& IMAGE_SCN_MEM_EXECUTE = 0 then
    if ch &&& IMAGE_SCN_MEM_READ = 0 then
      if ch &&& IMAGE_SCN_MEM_WRITE = 0 then PAGE_NOACCESS else PAGE_WRITECOPY
    else
      if ch &&& IMAGE_SCN_MEM_WRITE = 0 then PAGE_READONLY else PAGE_READWRITE
  else
    if ch &&& IMAGE_SCN_MEM_READ = 0 then
      if ch &&& IMAGE_SCN_MEM_WRITE = 0 then PAGE_EXECUTE else PAGE_EXECUTE_WRITECOPY
    else
      if ch &&& IMAGE_SCN_MEM_WRITE = 0 then PAGE_EXECUTE_READ else PAGE_EXECUTE_READWRITE

/-- The protection of the claim for a section with the characteristics `ch`:
the entry of its table for the access bits, ORed with `PAGE_NOCACHE` exactly
when `IMAGE_SCN_MEM_NOT_CACHED` is set. -/
def claimedProtect (ch : Nat) : Nat :=
  if ch &&& IMAGE_SCN_MEM_NOT_CACHED ≠ 0 then accessProtect ch ||| PAGE_NOCACHE
  else accessProtect ch

/-- The calls of the claim for the section header at `sec` in the memory `m`:
for a discardable section the decommitting `VirtualFree` alone; for any other
section one `VirtualProtect` with the protection `claimedProtect` of its
characteristics, over the size of lines 165-172, and no call when that size
is 0. -/
def sectionCalls (module : MEMORYMODULE) (imgOff : Nat) (m : Mem) (sec : Nat) : List Event :=
  if rd32 m (sec + off_Characteristics) &&& IMAGE_SCN_MEM_DISCARDABLE ≠ 0 then
    [Event.virtualFree (rd32 m (sec + off_PhysicalAddress) ||| imgOff)
      (rd32 m (sec + off_SizeOfRawData)) MEM_DECOMMIT]
  else if 0 < sectionProtectSize module m sec then
    [Event.virtualProtect (rd32 m (sec + off_PhysicalAddress) ||| imgOff)
      (sectionProtectSize module m sec) (claimedProtect (rd32 m (sec + off_Characteristics)))]
  else []

/-- The calls of the claim for all the sections of `module`, in the order of
the section headers: header `i` is at `IMAGE_FIRST_SECTION + 40 * i`, for `i`
below `NumberOfSections`. -/
def finalizeCalls (os : Win32) (module : MEMORYMODULE) (m : Mem) : List Event :=
  ((List.range (rd16 m (module.headers + off_NumberOfSections))).map fun i =>
    sectionCalls module (imageOffset os module m) m
      (IMAGE_FIRST_SECTION m module.headers + sizeofSectionHeader * i)).flatten

/-! ## Vocabulary for base relocation -/

/-- The word that the entry `e` of a block with page address `dest` patches:
its address and its size in bytes (lines 234-248); `none` for an entry that is
skipped. -/
def entryTarget (os : Win32) (dest e : Nat) : Option (Nat × Nat) :=
  if e >>> 12 = IMAGE_REL_BASED_HIGHLOW then some (dest + (e &&& 0xfff), 4)
  else if os.win64 = true ∧ e >>> 12 = IMAGE_REL_BASED_DIR64 then
    some (dest + (e &&& 0xfff), 8)
  else none

/-- The memory `m` after `d` has been added to the little-endian `n`-byte word
at `a`, modulo `256 ^ n`. -/
def patchN (n : Nat) (m : Mem) (a d : Nat) : Mem :=
  wrN n m a ((rdN n m a + d) % 256 ^ n)

/-- What the entry `e` of a block with page address `dest` does to memory,
according to the claim: the word it names has `delta` added, and an entry that
names none changes nothing. -/
def patchEntry (os : Win32) (dest delta e : Nat) (m : Mem) : Mem :=
  match entryTarget os dest e with
  | some t => patchN t.2 m t.1 delta
  | none => m

/-- One trip through the outer loop of `PerformBaseRelocation`: the address of
the block, its page address `codeBase + VirtualAddress`, and the entries the
inner loop has processed, each with its address and the value read there. -/
structure RelocVisit where
  block : Nat
  dest : Nat
  entries : List (Nat × Nat)
  deriving DecidableEq

/-- The inner loop `relocEntries`, which in addition returns the entries it
has processed, in order. -/
def relocEntriesLog (os : Win32) (relocation dest delta : Nat) :
    Nat → Nat → Nat → Machine → Option (Machine × List (Nat × Nat))
  | 0, _, _, _ => none
  | fuel + 1, i, relInfo, s =>
    if i < relocEntryCount os s.mem relocation then
      (relocEntriesLog os relocation dest delta fuel ((i + 1) % 2 ^ 32) (relInfo + 2)
        (applyRelocation os dest delta relInfo s)).map
        fun r => (r.1, (relInfo, rd16 s.mem relInfo) :: r.2)
    else some (s, [])

/-- The outer loop `relocBlocks`, which in addition returns its visits, in
order. -/
def relocBlocksLog (os : Win32) (module : MEMORYMODULE) (delta : Nat) :
    Nat → Nat → Machine → Option (Machine × List RelocVisit)
  | 0, _, _ => none
  | fuel + 1, relocation, s =>
    if rd32 s.mem relocation > 0 then
      match relocEntriesLog os relocation (module.codeBase + rd32 s.mem relocation) delta fuel 0
          (relocation + IMAGE_SIZEOF_BASE_RELOCATION) s with
      | none => none
      | some r1 =>
        (relocBlocksLog os module delta fuel (relocation + rd32 r1.1.mem (relocation + 4))
          r1.1).map
          fun r => (r.1, { block := relocation
                           dest := module.codeBase + rd32 s.mem relocation
                           entries := r1.2 } :: r.2)
    else some (s, [])

/-- The function `PerformBaseRelocation`, which in addition returns the visits
of its outer loop. -/
def PerformBaseRelocationLog (os : Win32) (module : MEMORYMODULE) (delta fuel : Nat)
    (s : Machine) : Option (Machine × List RelocVisit) :=
  let directory := GET_HEADER_DICTIONARY os module IMAGE_DIRECTORY_ENTRY_BASERELOC
  if rd32 s.mem (directory + 4) > 0 then
    relocBlocksLog os module delta fuel (module.codeBase + rd32 s.mem directory) s
  else some (s, [])

/-- The words patched in a visit. -/
def RelocVisit.targets (os : Win32) (v : RelocVisit) : List (Nat × Nat) :=
  v.entries.filterMap fun en => entryTarget os v.dest en.2

/-- The byte at `x` belongs to none of the words patched in the visits `log`. -/
def Uncovered (os : Win32) (log : List RelocVisit) (x : Nat) : Prop :=
  ∀ v ∈ log, ∀ t ∈ v.targets os, x < t.1 ∨ t.1 + t.2 ≤ x

/-- The memory after the entries of the visits `log` have been applied to `m`
one after the other. -/
def replay (os : Win32) (delta : Nat) (log : List RelocVisit) (m : Mem) : Mem :=
  log.foldl (fun m v => v.entries.foldl (fun m en => patchEntry os v.dest delta en.2 m) m) m

/-- The sample header with one relocation block: the relocation directory is
at RVA `0x300` with `Size = 12`; the block has `VirtualAddress = 0x400`,
`SizeOfBlock = 12` and the entries `0x3008` (`HIGHLOW` at offset 8) and `0`
(`ABSOLUTE`); the word at RVA `0x408` is `0x00401234`.  A block with
`VirtualAddress = 0` follows. -/
def relocImage : Mem :=
  fieldsMem (sampleHeader ++
    [(0x10E0, 4, 0x300), (0x10E4, 4, 12),
     (0x1300, 4, 0x400), (0x1304, 4, 12), (0x1308, 2, 0x3008), (0x130A, 2, 0),
     (0x1408, 4, 0x00401234)])

/-- A relocation block as it stands in an image: `VirtualAddress`,
`SizeOfBlock` and the 16-bit entries. -/
structure RelocBlock where
  va : Nat
  size : Nat
  entries : List Nat
  deriving DecidableEq

/-- The 16-bit values `es` are stored in `m` from the address `a` on. -/
def EntryTable (m : Mem) : Nat → List Nat → Prop
  | _, [] => True
  | a, e :: es => rd16 m a = e ∧ EntryTable m (a + 2) es

instance (m : Mem) : ∀ (a : Nat) (es : List Nat), Decidable (EntryTable m a es)
  | _, [] => inferInstanceAs (Decidable True)
  | a, _ :: es =>
    have : Decidable (EntryTable m (a + 2) es) := instDecidableEntryTable m _ es
    inferInstanceAs (Decidable (_ ∧ _))

/-- From the address `r` on, `m` holds the blocks `bs`, each with a non-zero
`VirtualAddress`, a `SizeOfBlock` of at least 8 and `(SizeOfBlock - 8) / 2`
entries, each block beginning `SizeOfBlock` bytes after the one before, and
after them a block whose `VirtualAddress` is 0. -/
def RelocBlocks (m : Mem) : Nat → List RelocBlock → Prop
  | r, [] => rd32 m r = 0
  | r, b :: bs =>
    rd32 m r = b.va ∧ b.va ≠ 0 ∧ rd32 m (r + 4) = b.size ∧ 8 ≤ b.size ∧
    b.entries.length = (b.size - 8) / 2 ∧ EntryTable m (r + 8) b.entries ∧
    RelocBlocks m (r + b.size) bs

instance (m : Mem) : ∀ (r : Nat) (bs : List RelocBlock), Decidable (RelocBlocks m r bs)
  | r, [] => inferInstanceAs (Decidable (rd32 m r = 0))
  | r, b :: bs =>
    have : Decidable (RelocBlocks m (r + b.size) bs) := instDecidableRelocBlocks m _ bs
    inferInstanceAs (Decidable (_ ∧ _ ∧ _ ∧ _ ∧ _ ∧ _ ∧ _))

/-- The number of bytes the blocks `bs` occupy. -/
def totalSize : List RelocBlock → Nat
  | [] => 0
  | b :: bs => b.size + totalSize bs

/-- The address of the first relocation block of `module` (line 213). -/
def relocBase (os : Win32) (m : Mem) (module : MEMORYMODULE) : Nat :=
  module.codeBase + rd32 m (GET_HEADER_DICTIONARY os module IMAGE_DIRECTORY_ENTRY_BASERELOC)

/-- The relocation blocks `bs` that `PerformBaseRelocation` finds for `module`
in the memory `m`: those that precede the first block with `VirtualAddress = 0`,
none when the `Size` of the directory is 0 (line 212). -/
def RelocTable (os : Win32) (m : Mem) (module : MEMORYMODULE) (bs : List RelocBlock) : Prop :=
  if rd32 m (GET_HEADER_DICTIONARY os module IMAGE_DIRECTORY_ENTRY_BASERELOC + 4) > 0 then
    RelocBlocks m (relocBase os m module) bs
  else bs = []

instance (os : Win32) (m : Mem) (module : MEMORYMODULE) (bs : List RelocBlock) :
    Decidable (RelocTable os m module bs) := by
  unfold RelocTable; infer_instance

/-- The words the entries of the block `b` name, in order. -/
def blockTargets (os : Win32) (codeBase : Nat) (b : RelocBlock) : List (Nat × Nat) :=
  b.entries.filterMap (entryTarget os (codeBase + b.va))

/-- The words the entries of the blocks `bs` name, in order. -/
def relocTargets (os : Win32) (codeBase : Nat) : List RelocBlock → List (Nat × Nat)
  | [] => []
  | b :: bs => blockTargets os codeBase b ++ relocTargets os codeBase bs

/-- No word named by an entry overlaps the relocation blocks or the
`VirtualAddress` field that ends them. -/
def RelocApart (os : Win32) (m : Mem) (module : MEMORYMODULE) (bs : List RelocBlock) : Prop :=
  ∀ t ∈ relocTargets os module.codeBase bs,
    t.1 + t.2 ≤ relocBase os m module ∨ relocBase os m module + totalSize bs + 4 ≤ t.1

instance (os : Win32) (m : Mem) (module : MEMORYMODULE) (bs : List RelocBlock) :
    Decidable (RelocApart os m module bs) := by
  unfold RelocApart; infer_instance

/-- The memory after the entries of the block `b` have been applied to `m`. -/
def patchBlock (os : Win32) (codeBase delta : Nat) (b : RelocBlock) (m : Mem) : Mem :=
  b.entries.foldl (fun m e => patchEntry os (codeBase + b.va) delta e m) m

/-- The memory after the entries of the blocks `bs` have been applied to `m`,
block after block. -/
def patchBlocks (os : Win32) (codeBase delta : Nat) (bs : List RelocBlock) (m : Mem) : Mem :=
  bs.foldl (fun m b => patchBlock os codeBase delta b m) m

/-- The entries `es` stored from the address `a` on, each with its address. -/
def entryLog : Nat → List Nat → List (Nat × Nat)
  | _, [] => []
  | a, e :: es => (a, e) :: entryLog (a + 2) es

/-- The visits that process the blocks `bs`, stored from `r` on, in order and
each with all its entries. -/
def visitsOf (codeBase : Nat) : Nat → List RelocBlock → List RelocVisit
  | _, [] => []
  | r, b :: bs =>
    { block := r, dest := codeBase + b.va, entries := entryLog (r + 8) b.entries } ::
      visitsOf codeBase (r + b.size) bs

/-- A number of loop trips that suffices for the blocks `bs`. -/
def relocFuel : List RelocBlock → Nat
  | [] => 1
  | b :: bs => b.entries.length + 1 + relocFuel bs

/-- A relocation directory (RVA `0x300`, `Size = 12`) whose first block has
`VirtualAddress = 0x400` and `SizeOfBlock = 0`; every other byte is zero. -/
def stuckImage : Mem :=
  fieldsMem [(0x10E0, 4, 0x300), (0x10E4, 4, 12), (0x1300, 4, 0x400)]

/-- The block of `relocImage`. -/
def relocImageBlocks : List RelocBlock :=
  [{ va := 0x400, size := 12, entries := [0x3008, 0] }]

/-- The image `relocImage` with a second block right behind the declared end
of the relocation directory (`Size = 12`): at RVA `0x30C`, with `VirtualAddress
= 0x400`, `SizeOfBlock = 10` and the entry `0x3010`; the word at RVA `0x410` is
`0x00405678`. -/
def overrunImage : Mem :=
  fieldsMem (sampleHeader ++
    [(0x10E0, 4, 0x300), (0x10E4, 4, 12),
     (0x1300, 4, 0x400), (0x1304, 4, 12), (0x1308, 2, 0x3008), (0x130A, 2, 0),
     (0x130C, 4, 0x400), (0x1310, 4, 10), (0x1314, 2, 0x3010),
     (0x1408, 4, 0x00401234), (0x1410, 4, 0x00405678)])

/-- The relocation directory field `Size` of `module` in `m`. -/
def relocSize (os : Win32) (m : Mem) (module : MEMORYMODULE) : Nat :=
  rd32 m (GET_HEADER_DICTIONARY os module IMAGE_DIRECTORY_ENTRY_BASERELOC + 4)

/-- The byte at `x` belongs to one of the words `ts`. -/
def InTargets (ts : List (Nat × Nat)) (x : Nat) : Prop :=
  ∃ t ∈ ts, t.1 ≤ x ∧ x < t.1 + t.2

/-- The image `relocImage` with another declared `Size` of the relocation
directory (`0x7777`), and with a `SizeOfBlock` of `0xFFFF` and the entries
`0x3008`, `0x3008` in the block whose `VirtualAddress` is 0. -/
def relocVariant : Mem :=
  wrN 4 (wrN 4 (wrN 4 relocImage 0x10E4 0x7777) 0x1310 0xFFFF) 0x1314 0x30083008

/-- The sample header with a relocation directory at RVA `0x300` (`Size =
20`) that patches itself.  The first block (`VirtualAddress = 0x300`,
`SizeOfBlock = 10`) has the one entry `0x300A`: `HIGHLOW` at offset `0xA`,
which is the word at RVA `0x30A`, the `VirtualAddress` field of the block that
follows.  That field is 0 in the image; the block has `SizeOfBlock = 10` and
the entry `0x3008`.  The word at RVA `0x10008` is `0x00401234`. -/
def selfPatchImage : Mem :=
  fieldsMem (sampleHeader ++
    [(0x10E0, 4, 0x300), (0x10E4, 4, 20),
     (0x1300, 4, 0x300), (0x1304, 4, 10), (0x1308, 2, 0x300A),
     (0x130E, 4, 10), (0x1312, 2, 0x3008),
     (0x11008, 4, 0x00401234)])

/-- The image `selfPatchImage` with the entry `0` (`ABSOLUTE`) instead of
`0x3008` in the block whose `VirtualAddress` is 0. -/
def selfPatchVariant : Mem :=
  wrN 2 selfPatchImage 0x1312 0

/-- The memory after `d` has been added to each of the words `ts`, one after
the other. -/
def patchTargets (d : Nat) (ts : List (Nat × Nat)) (m : Mem) : Mem :=
  ts.foldl (fun m t => patchN t.2 m t.1 d) m

/-- Any two of the words `ts` are the same word or do not overlap. -/
def TargetsCompatible (ts : List (Nat × Nat)) : Prop :=
  ∀ t ∈ ts, ∀ u ∈ ts, t = u ∨ t.1 + t.2 ≤ u.1 ∨ u.1 + u.2 ≤ t.1

instance (ts : List (Nat × Nat)) : Decidable (TargetsCompatible ts) := by
  unfold TargetsCompatible; infer_instance

/-- No word named by an entry overlaps the entry of the relocation directory
in the data directory of the header (the fields `VirtualAddress` and `Size`
read in lines 211-213). -/
def RelocHeaderApart (os : Win32) (module : MEMORYMODULE) (bs : List RelocBlock) : Prop :=
  ∀ t ∈ relocTargets os module.codeBase bs,
    t.1 + t.2 ≤ GET_HEADER_DICTIONARY os module IMAGE_DIRECTORY_ENTRY_BASERELOC ∨
    GET_HEADER_DICTIONARY os module IMAGE_DIRECTORY_ENTRY_BASERELOC + 8 ≤ t.1

instance (os : Win32) (module : MEMORYMODULE) (bs : List RelocBlock) :
    Decidable (RelocHeaderApart os module bs) := by
  unfold RelocHeaderApart; infer_instance

/-- A relocation directory with one block (`VirtualAddress = 0x400`,
`SizeOfBlock = 12`) whose two `HIGHLOW` entries name the words at the offsets 0
and 2, which overlap in two bytes; every other byte is zero. -/
def overlapImage : Mem :=
  fieldsMem [(0x10E0, 4, 0x300), (0x10E4, 4, 12),
    (0x1300, 4, 0x400), (0x1304, 4, 12), (0x1308, 2, 0x3000), (0x130A, 2, 0x3002)]

/-- The block of `overlapImage`. -/
def overlapBlocks : List RelocBlock :=
  [{ va := 0x400, size := 12, entries := [0x3000, 0x3002] }]

/-- A relocation directory with one block (`VirtualAddress = 0x80`,
`SizeOfBlock = 10`) whose `HIGHLOW` entry names the word at RVA `0xE0`, which
is the field `VirtualAddress` of the relocation directory in the header. -/
def headerPatchImage : Mem :=
  fieldsMem [(0x10E0, 4, 0x300), (0x10E4, 4, 10),
    (0x1300, 4, 0x80), (0x1304, 4, 10), (0x1308, 2, 0x3060)]

/-- The block of `headerPatchImage`. -/
def headerPatchBlocks : List RelocBlock :=
  [{ va := 0x80, size := 10, entries := [0x3060] }]

/-- The sample system as a 64-bit host. -/
def sampleOS64 : Win32 :=
  { sampleOS with win64 := true }

/-- A 64-bit image in the buffer at `0x1000`: `e_lfanew = 0x40`, one section,
`SizeOfOptionalHeader = 240`, no entry point, preferred base `0xFFFF0000`,
`SectionAlignment = 0x1000`, `SizeOfImage = 0x20000`, `SizeOfHeaders = 0x200`,
no imports and no relocations.  The section header (at `0x1148`) has
`VirtualAddress = 0x10000`, `SizeOfRawData = 0x10`, `PointerToRawData = 0x300` and
the characteristics code, executable, readable. -/
def wideImage : Mem :=
  fieldsMem
    [(0x1000, 2, 0x5A4D), (0x103C, 4, 0x40),
     (0x1040, 4, 0x4550), (0x1046, 2, 1), (0x1054, 2, 240),
     (0x1070, 8, 0xFFFF0000), (0x1078, 4, 0x1000),
     (0x1090, 4, 0x20000), (0x1094, 4, 0x200),
     (0x1154, 4, 0x10000), (0x1158, 4, 0x10), (0x115C, 4, 0x300), (0x116C, 4, 0x60000020)]

/-! ## Vocabulary for `CopySections` -/

/-- What `CopySections` reads of a section header: `VirtualAddress`,
`SizeOfRawData` and `PointerToRawData`. -/
structure SectionEntry where
  va : Nat
  rawSize : Nat
  rawPtr : Nat
  deriving DecidableEq

/-- The section headers stored in `m` from the address `sec` on say `es`. -/
def SectionTable (m : Mem) : Nat → List SectionEntry → Prop
  | _, [] => True
  | sec, e :: es =>
    rd32 m (sec + off_VirtualAddress) = e.va ∧ rd32 m (sec + off_SizeOfRawData) = e.rawSize ∧
    rd32 m (sec + off_PointerToRawData) = e.rawPtr ∧
    SectionTable m (sec + sizeofSectionHeader) es

instance (m : Mem) : ∀ (sec : Nat) (es : List SectionEntry), Decidable (SectionTable m sec es)
  | _, [] => inferInstanceAs (Decidable True)
  | sec, _ :: es =>
    have : Decidable (SectionTable m (sec + sizeofSectionHeader) es) :=
      instDecidableSectionTable m _ es
    inferInstanceAs (Decidable (_ ∧ _ ∧ _ ∧ _))

/-- The number of bytes `CopySections` commits and fills for a section when
`SectionAlignment` is `align`: `SizeOfRawData`, or `align` for a section without
raw data, or nothing when `align`, taken as an `int`, is not positive. -/
def SectionEntry.size (align : Nat) (e : SectionEntry) : Nat :=
  if e.rawSize = 0 then (if 0 < align ∧ align < 2 ^ 31 then align else 0) else e.rawSize

/-- The byte ranges `CopySections` writes for the sections `es` whose headers
are stored from `sec` on: for each section its data and the field
`Misc.PhysicalAddress` of its header. -/
def sectionWrites (codeBase align : Nat) : Nat → List SectionEntry → List (Nat × Nat)
  | _, [] => []
  | sec, e :: es =>
    (codeBase + e.va, e.size align) ::
      (sec + off_PhysicalAddress, if e.size align = 0 then 0 else 4) ::
        sectionWrites codeBase align (sec + sizeofSectionHeader) es

/-- The byte ranges `CopySections` reads for the sections `es` whose headers
are stored from `sec` on: the three fields of each header and the raw data in
the input buffer. -/
def sectionReads (data : Nat) : Nat → List SectionEntry → List (Nat × Nat)
  | _, [] => []
  | sec, e :: es =>
    (sec + off_VirtualAddress, 12) :: (data + e.rawPtr, e.rawSize) ::
      sectionReads data (sec + sizeofSectionHeader) es

/-- The layout assumption for `CopySections`: what is written for a section
overlaps neither the field `NumberOfSections` (at `nfield`), nor the field
`SectionAlignment` of the input (at `afield`), nor what is read or written for
a later section; and the data of a section does not overlap the field
`Misc.PhysicalAddress` of its own header. -/
def SectionLayout (codeBase data align nfield afield : Nat) :
    Nat → List SectionEntry → Prop
  | _, [] => True
  | sec, e :: es =>
    (∀ w ∈ sectionWrites codeBase align sec [e],
      Apart w.1 w.2 nfield 2 ∧ Apart w.1 w.2 afield 4 ∧
      (∀ r ∈ sectionReads data (sec + sizeofSectionHeader) es, Apart w.1 w.2 r.1 r.2) ∧
      (∀ v ∈ sectionWrites codeBase align (sec + sizeofSectionHeader) es,
        Apart w.1 w.2 v.1 v.2)) ∧
    Apart (codeBase + e.va) (e.size align) (sec + off_PhysicalAddress) 4 ∧
    SectionLayout codeBase data align nfield afield (sec + sizeofSectionHeader) es

instance (codeBase data align nfield afield : Nat) :
    ∀ (sec : Nat) (es : List SectionEntry),
      Decidable (SectionLayout codeBase data align nfield afield sec es)
  | _, [] => inferInstanceAs (Decidable True)
  | sec, _ :: es =>
    have : Decidable (SectionLayout codeBase data align nfield afield
        (sec + sizeofSectionHeader) es) :=
      instDecidableSectionLayout codeBase data align nfield afield _ es
    inferInstanceAs (Decidable (_ ∧ _ ∧ _))

/-- What the claim says `CopySections` does for one section, to the memory
`m`: raw data is copied from the input and an empty section is filled with
`align` zero bytes, at `codeBase + VirtualAddress`, whose low 32 bits are stored
in `Misc.PhysicalAddress`. -/
def writeSection (codeBase data align sec : Nat) (e : SectionEntry) (m : Mem) : Mem :=
  if e.rawSize = 0 then
    if 0 < align ∧ align < 2 ^ 31 then
      memset (wr32 m (sec + off_PhysicalAddress) ((codeBase + e.va) % 2 ^ 32))
        (codeBase + e.va) 0 align
    else m
  else
    wr32 (memcpy m (codeBase + e.va) (data + e.rawPtr) e.rawSize)
      (sec + off_PhysicalAddress) ((codeBase + e.va) % 2 ^ 32)

/-- The state of the sections `es`, whose headers are stored from `sec` on, in
the memory `m1` after `CopySections` has run on the memory `m0`: the raw data
of the input, or `align` zero bytes, stand at `codeBase + VirtualAddress`, and
the low 32 bits of this address are in `Misc.PhysicalAddress`. -/
def Copied (codeBase data align : Nat) (m0 m1 : Mem) : Nat → List SectionEntry → Prop
  | _, [] => True
  | sec, e :: es =>
    (e.rawSize ≠ 0 → ∀ j, j < e.rawSize → m1 (codeBase + e.va + j) = m0 (data + e.rawPtr + j)) ∧
    (e.rawSize = 0 → 0 < align ∧ align < 2 ^ 31 →
      ∀ j, j < align → m1 (codeBase + e.va + j) = 0) ∧
    (e.size align ≠ 0 → rd32 m1 (sec + off_PhysicalAddress) = (codeBase + e.va) % 2 ^ 32) ∧
    Copied codeBase data align m0 m1 (sec + sizeofSectionHeader) es

/-- A system like `sampleOS`, except that `VirtualAlloc` returns the base of
the page (of `0x1000` bytes) that holds the address asked for, as Windows does
when committing. -/
def pageOS : Win32 :=
  { sampleOS with
    virtualAlloc := fun _ addr _ _ _ => if addr = 0 then 0x10000000 else addr - addr % 0x1000 }

/-- The header fields of a 32-bit image in the buffer at `0x1000` with
`count` sections and `SectionAlignment = align`: `e_lfanew = 0x40`,
`SizeOfOptionalHeader = 224` (the first section header is at `0x1138`),
preferred base `0x400000`, `SizeOfImage = 0x3000`, `SizeOfHeaders = 0x200`; the
eight bytes `0x1122334455667788` stand at the file offset `0x300`. -/
def sectionHeader (count align : Nat) : List (Nat × Nat × Nat) :=
  [(0x1000, 2, 0x5A4D), (0x103C, 4, 0x40),
   (0x1040, 4, 0x4550), (0x1046, 2, count), (0x1054, 2, 224),
   (0x1074, 4, 0x400000), (0x1078, 4, align),
   (0x1090, 4, 0x3000), (0x1094, 4, 0x200),
   (0x1300, 8, 0x1122334455667788)]

/-- An image with two sections: the first (`VirtualAddress = 0x1000`) has 8
bytes of raw data at the file offset `0x300`, the second (`VirtualAddress =
0x2000`) has none; the field `Misc` of the headers holds `8` and `0x100`. -/
def twoSecImage : Mem :=
  fieldsMem (sectionHeader 2 0x1000 ++
    [(0x1140, 4, 8), (0x1144, 4, 0x1000), (0x1148, 4, 8), (0x114C, 4, 0x300),
     (0x115C, 4, 0x60000020),
     (0x1168, 4, 0x100), (0x116C, 4, 0x2000), (0x1184, 4, 0xC0000080)])

/-- What the section headers of `twoSecImage` say. -/
def twoSecEntries : List SectionEntry :=
  [{ va := 0x1000, rawSize := 8, rawPtr := 0x300 }, { va := 0x2000, rawSize := 0, rawPtr := 0 }]

/-- An image with `SectionAlignment = 0x200` and one section of 8 bytes of raw
data whose `VirtualAddress`, `0x1200`, is not a multiple of the page size. -/
def unalignedImage : Mem :=
  fieldsMem (sectionHeader 1 0x200 ++
    [(0x1140, 4, 8), (0x1144, 4, 0x1200), (0x1148, 4, 8), (0x114C, 4, 0x300),
     (0x115C, 4, 0x60000020)])

/-- An image with `SectionAlignment = 0x80000000` and one section without raw
data (`VirtualAddress = 0x1000`), whose field `Misc` holds `0x1234`. -/
def hugeAlignImage : Mem :=
  fieldsMem (sectionHeader 1 0x80000000 ++
    [(0x1140, 4, 0x1234), (0x1144, 4, 0x1000), (0x115C, 4, 0xC0000080)])

/-- The state in which `MemoryLoadLibraryEx` calls `CopySections` for an image
in the buffer at `0x1000` (NT headers at `0x1040`) that is mapped at `0x400000`:
the module record and the machine after the headers have been copied. -/
def afterHeaders (os : Win32) (image : Mem) : MEMORYMODULE × Machine :=
  copyHeaders os 0x1000 0x1040 0x400000 0 ⟨image, []⟩

/-- An image with four sections and `SizeOfUninitializedData = 0x300`: code
(executable, readable; 8 bytes of raw data), uninitialised data that is
readable, writable and not cached (no raw data), a discardable section of 8
bytes, and a readable section without raw data and without content flags. -/
def fourSecImage : Mem :=
  fieldsMem (sectionHeader 4 0x1000 ++
    [(0x1064, 4, 0x300), (0x1090, 4, 0x5000),
     (0x1144, 4, 0x1000), (0x1148, 4, 8), (0x114C, 4, 0x300), (0x115C, 4, 0x60000020),
     (0x116C, 4, 0x2000), (0x1184, 4, 0xC4000080),
     (0x1194, 4, 0x3000), (0x1198, 4, 8), (0x119C, 4, 0x300), (0x11AC, 4, 0x42000040),
     (0x11BC, 4, 0x4000), (0x11D4, 4, 0x40000000)])

/-- The state in which `MemoryLoadLibraryEx` calls `FinalizeSections` for
`fourSecImage`: after the headers and the sections have been copied (the image
has no import and no relocation directory). -/
def beforeFinalize : Machine :=
  CopySections sampleOS 0x1000 0x1040 (afterHeaders sampleOS fourSecImage).1
    (afterHeaders sampleOS fourSecImage).2

/-! ## What the loader writes between the header copy and the entry point -/

/-- The byte ranges the loop body of `CopySections` writes for the section
header at `sec` in the state `s`. -/
def copySectionWrites (os : Win32) (old_headers : Nat) (module : MEMORYMODULE)
    (sec : Nat) (s : Machine) : List (Nat × Nat) :=
  if rd32 s.mem (sec + off_SizeOfRawData) = 0 then
    if 0 < rd32 s.mem (old_headers + off_SectionAlignment) ∧
        rd32 s.mem (old_headers + off_SectionAlignment) < 2 ^ 31 then
      [(sec + off_PhysicalAddress, 4),
       ((callVirtualAlloc os (module.codeBase + rd32 s.mem (sec + off_VirtualAddress))
          (rd32 s.mem (old_headers + off_SectionAlignment)) MEM_COMMIT PAGE_READWRITE s).1,
        rd32 s.mem (old_headers + off_SectionAlignment))]
    else []
  else
    [((callVirtualAlloc os (module.codeBase + rd32 s.mem (sec + off_VirtualAddress))
        (rd32 s.mem (sec + off_SizeOfRawData)) MEM_COMMIT PAGE_READWRITE s).1,
      rd32 s.mem (sec + off_SizeOfRawData)),
     (sec + off_PhysicalAddress, 4)]

/-- The byte ranges the loop of `CopySections` writes, in order. -/
def copySectionsWrites (os : Win32) (data old_headers : Nat) (module : MEMORYMODULE) :
    Nat → Nat → Nat → Machine → List (Nat × Nat)
  | 0, _, _, _ => []
  | fuel + 1, i, sec, s =>
    if i < rd16 s.mem (module.headers + off_NumberOfSections) then
      copySectionWrites os old_headers module sec s ++
        copySectionsWrites os data old_headers module fuel (i + 1) (sec + sizeofSectionHeader)
          (copySection os data old_headers module sec s)
    else []

/-- The address-table slots the loop over the thunks of one descriptor writes,
in order. -/
def bindThunksWrites (os : Win32) (cb : Callbacks) (module : MEMORYMODULE) (handle : Nat) :
    Nat → Nat → Nat → Machine → List (Nat × Nat)
  | 0, _, _, _ => []
  | fuel + 1, thunkRef, funcRef, s =>
    if rdPtr os s.mem thunkRef = 0 then []
    else
      (funcRef, ptrBytes os) ::
        if rdPtr os (bindThunk os cb module handle (rdPtr os s.mem thunkRef) funcRef s).mem
            funcRef = 0 then []
        else
          bindThunksWrites os cb module handle fuel (thunkRef + ptrBytes os)
            (funcRef + ptrBytes os)
            (bindThunk os cb module handle (rdPtr os s.mem thunkRef) funcRef s)

/-- The address-table slots the loop body of `BuildImportTable` writes for the
descriptor at `importDesc`. -/
def importDescriptorWrites (os : Win32) (cb : Callbacks) (fuel importDesc : Nat)
    (module : MEMORYMODULE) (s : Machine) : List (Nat × Nat) :=
  let l := callLoadLibrary os cb (module.codeBase + rd32 s.mem (importDesc + off_Name))
    module.userdata s
  if l.1 = 0 then []
  else
    let g := growModules os module l.2
    if g.1 = 0 then []
    else
      bindThunksWrites os cb (appendModule module g.1 l.1) l.1 fuel
        (if rd32 g.2.mem importDesc ≠ 0 then module.codeBase + rd32 g.2.mem importDesc
          else module.codeBase + rd32 g.2.mem (importDesc + off_FirstThunk))
        (module.codeBase + rd32 g.2.mem (importDesc + off_FirstThunk)) g.2

/-- The address-table slots the loop over the import descriptors writes. -/
def importLoopWrites (os : Win32) (cb : Callbacks) :
    Nat → Nat → MEMORYMODULE → Machine → List (Nat × Nat)
  | 0, _, _, _ => []
  | fuel + 1, importDesc, module, s =>
    if os.isBadReadPtr importDesc sizeofImportDescriptor = true then []
    else if rd32 s.mem (importDesc + off_Name) = 0 then []
    else
      importDescriptorWrites os cb fuel importDesc module s ++
        match importDescriptor os cb fuel importDesc module s with
        | some (true, module1, s1) =>
          importLoopWrites os cb fuel (importDesc + sizeofImportDescriptor) module1 s1
        | _ => []

/-- The address-table slots `BuildImportTable` writes. -/
def BuildImportTableWrites (os : Win32) (cb : Callbacks) (fuel : Nat) (module : MEMORYMODULE)
    (s : Machine) : List (Nat × Nat) :=
  if rd32 s.mem (GET_HEADER_DICTIONARY os module IMAGE_DIRECTORY_ENTRY_IMPORT + 4) > 0 then
    importLoopWrites os cb fuel
      (module.codeBase +
        rd32 s.mem (GET_HEADER_DICTIONARY os module IMAGE_DIRECTORY_ENTRY_IMPORT)) module s
  else []

/-- The words `PerformBaseRelocation` patches. -/
def relocationWrites (os : Win32) (module : MEMORYMODULE) (delta fuel : Nat) (s : Machine) :
    List (Nat × Nat) :=
  match PerformBaseRelocationLog os module delta fuel s with
  | some r => (r.2.map (RelocVisit.targets os)).flatten
  | none => []

/-- Every byte range the loader writes after the header copy and before the
entry point is called, when it continues in the state `s` with the record
`module` (lines 431-441): the writes of `CopySections`, the words patched by
`PerformBaseRelocation` when the image is not at its preferred base, and the
address-table slots of `BuildImportTable`. -/
def loaderWrites (os : Win32) (cb : Callbacks) (fuel data old_header : Nat)
    (module : MEMORYMODULE) (s : Machine) : List (Nat × Nat) :=
  copySectionsWrites os data old_header module 65536 0
      (IMAGE_FIRST_SECTION s.mem module.headers) s ++
    (if (module.codeBase + ptrMod os -
          rdPtr os (CopySections os data old_header module s).mem
            (old_header + off_ImageBase os)) % ptrMod os ≠ 0 then
        relocationWrites os module
          ((module.codeBase + ptrMod os -
            rdPtr os (CopySections os data old_header module s).mem
              (old_header + off_ImageBase os)) % ptrMod os) fuel
          (CopySections os data old_header module s)
      else []) ++
    match placeImage os fuel data old_header module s with
    | some s1 => BuildImportTableWrites os cb fuel module s1
    | none => []

/-- The address of the field `OptionalHeader.ImageBase` of the copied
headers. -/
def imageBaseField (os : Win32) (module : MEMORYMODULE) : Nat :=
  module.headers + off_ImageBase os

/-- The sample image, except that the address table of its import descriptor
is at RVA `0x74`, on the field `ImageBase` of the NT headers (`e_lfanew + 52`),
and that it imports one symbol by name. -/
def iatOnBaseImage : Mem :=
  fieldsMem (sampleHeader ++
    [(0x1150, 4, 0x180), (0x115C, 4, 0x190), (0x1160, 4, 0x74), (0x1180, 4, 0x1B0)])

/-! # Theorems -/

/-! ## Basic facts about the machine state -/

@[simp] theorem Machine.log_mem (s : Machine) (e : Event) : (s.log e).mem = s.mem := rfl

@[simp] theorem Machine.log_trace (s : Machine) (e : Event) :
    (s.log e).trace = s.trace ++ [e] := rfl

@[simp] theorem Machine.setMem_mem (s : Machine) (m : Mem) : (s.setMem m).mem = m := rfl

@[simp] theorem Machine.setMem_trace (s : Machine) (m : Mem) :
    (s.setMem m).trace = s.trace := rfl

theorem ptrBytes_pos (os : Win32) : 0 < ptrBytes os := by
  unfold ptrBytes; split <;> decide

theorem ptrMod_pos (os : Win32) : 0 < ptrMod os := by
  unfold ptrMod; positivity

/-! ## Reading and writing memory -/

theorem wrN_outside (n : Nat) (m : Mem) (a v x : Nat) (h : x < a ∨ a + n ≤ x) :
    wrN n m a v x = m x := by
  unfold wrN
  rw [if_neg]
  omega

theorem wrN_inside (n : Nat) (m : Mem) (a v x : Nat) (h1 : a ≤ x) (h2 : x < a + n) :
    wrN n m a v x = v / 256 ^ (x - a) % 256 := by
  unfold wrN
  rw [if_pos ⟨h1, h2⟩]

/-- A read only depends on the bytes it covers. -/
theorem rdN_congr (n : Nat) (m1 m2 : Mem) (a : Nat)
    (h : ∀ x, a ≤ x → x < a + n → m1 x = m2 x) : rdN n m1 a = rdN n m2 a := by
  induction n generalizing a with
  | zero => rfl
  | succ k ih =>
    simp only [rdN]
    rw [h a (le_refl _) (by omega), ih (a + 1) (fun x hx1 hx2 => h x (by omega) (by omega))]

theorem rdN_lt (n : Nat) (m : Mem) (a : Nat) : rdN n m a < 256 ^ n := by
  induction n generalizing a with
  | zero => simp [rdN]
  | succ k ih =>
    simp only [rdN]
    have h1 := ih (a + 1)
    have h2 : m a % 256 < 256 := Nat.mod_lt _ (by decide)
    rw [pow_succ]
    omega

/-- Reading part of what was just written. -/
theorem rdN_wrN_part (k n : Nat) (m : Mem) (a v j : Nat) (h : j + k ≤ n) :
    rdN k (wrN n m a v) (a + j) = v / 256 ^ j % 256 ^ k := by
  induction k generalizing j with
  | zero => simp [rdN, Nat.mod_one]
  | succ i ih =>
    simp only [rdN]
    rw [wrN_inside n m a v (a + j) (by omega) (by omega)]
    have := ih (j + 1) (by omega)
    rw [show a + j + 1 = a + (j + 1) by omega, this]
    rw [show a + j - a = j by omega]
    rw [pow_succ 256 j, ← Nat.div_div_eq_div_mul]
    generalize v / 256 ^ j = w
    rw [pow_succ, Nat.mul_comm (256 ^ i) 256, Nat.mod_mul, Nat.mod_mod]

/-- Reading back a value just written gives its low `n` bytes. -/
theorem rdN_wrN_same (n : Nat) (m : Mem) (a v : Nat) :
    rdN n (wrN n m a v) a = v % 256 ^ n := by
  have := rdN_wrN_part n n m a v 0 (by omega)
  simpa using this

/-- A write does not change what a read of a disjoint range returns. -/
theorem rdN_wrN_disjoint (k n : Nat) (m : Mem) (a v b : Nat) (h : b + k ≤ a ∨ a + n ≤ b) :
    rdN k (wrN n m a v) b = rdN k m b := by
  apply rdN_congr
  intro x hx1 hx2
  exact wrN_outside n m a v x (by omega)

/-! ## Log extensions -/

theorem Extends.refl (P : Event → Prop) (s : Machine) : Extends P s s :=
  ⟨[], by simp, by simp⟩

theorem Extends.of_trace_eq {P : Event → Prop} {s s' : Machine} (h : s'.trace = s.trace) :
    Extends P s s' :=
  ⟨[], by simp [h], by simp⟩

theorem Extends.trans {P : Event → Prop} {s1 s2 s3 : Machine}
    (h1 : Extends P s1 s2) (h2 : Extends P s2 s3) : Extends P s1 s3 := by
  obtain ⟨e1, t1, p1⟩ := h1
  obtain ⟨e2, t2, p2⟩ := h2
  refine ⟨e1 ++ e2, by rw [t2, t1, List.append_assoc], ?_⟩
  intro e he
  rcases List.mem_append.mp he with h | h
  · exact p1 e h
  · exact p2 e h

theorem Extends.mono {P Q : Event → Prop} {s s' : Machine} (h : Extends P s s')
    (hPQ : ∀ e, P e → Q e) : Extends Q s s' := by
  obtain ⟨e1, t1, p1⟩ := h
  exact ⟨e1, t1, fun e he => hPQ e (p1 e he)⟩

theorem Extends.log {P : Event → Prop} (s : Machine) (e : Event) (h : P e) :
    Extends P s (s.log e) :=
  ⟨[e], rfl, by simpa using h⟩

theorem Extends.setMem {P : Event → Prop} {s s' : Machine} (h : Extends P s s') (m : Mem) :
    Extends P s (s'.setMem m) := h

/-! ## What each stage adds to the log -/

theorem copySection_extends (os : Win32) (data old_headers : Nat) (module : MEMORYMODULE)
    (sec : Nat) (s : Machine) :
    Extends (fun e => e.isCommit = true) s (copySection os data old_headers module sec s) := by
  unfold copySection
  split
  · dsimp only
    split
    · exact ⟨[_], rfl, by simp [Event.isCommit]⟩
    · exact Extends.refl _ _
  · exact ⟨[_], rfl, by simp [Event.isCommit]⟩

theorem copySectionsLoop_extends (os : Win32) (data old_headers : Nat) (module : MEMORYMODULE)
    (fuel i sec : Nat) (s : Machine) :
    Extends (fun e => e.isCommit = true) s
      (copySectionsLoop os data old_headers module fuel i sec s) := by
  induction fuel generalizing i sec s with
  | zero => exact Extends.refl _ _
  | succ n ih =>
    simp only [copySectionsLoop]
    split
    · exact (copySection_extends os data old_headers module sec s).trans (ih _ _ _)
    · exact Extends.refl _ _

theorem CopySections_extends (os : Win32) (data old_headers : Nat) (module : MEMORYMODULE)
    (s : Machine) :
    Extends (fun e => e.isCommit = true) s (CopySections os data old_headers module s) :=
  copySectionsLoop_extends os data old_headers module _ _ _ s

theorem finalizeSection_mem (module : MEMORYMODULE) (imgOff sec : Nat) (s : Machine) :
    (finalizeSection module imgOff sec s).mem = s.mem := by
  unfold finalizeSection
  dsimp only
  split
  · rfl
  · split <;> rfl

theorem finalizeSection_extends (module : MEMORYMODULE) (imgOff sec : Nat) (s : Machine) :
    Extends (fun e => e.isFinalize = true) s (finalizeSection module imgOff sec s) := by
  unfold finalizeSection
  dsimp only
  split
  · exact Extends.log _ _ (by simp [Event.isFinalize])
  · split
    · exact Extends.log _ _ (by simp [Event.isFinalize])
    · exact Extends.refl _ _

theorem finalizeSectionsLoop_mem (module : MEMORYMODULE) (imgOff fuel i sec : Nat) (s : Machine) :
    (finalizeSectionsLoop module imgOff fuel i sec s).mem = s.mem := by
  induction fuel generalizing i sec s with
  | zero => rfl
  | succ n ih =>
    simp only [finalizeSectionsLoop]
    split
    · rw [ih, finalizeSection_mem]
    · rfl

theorem finalizeSectionsLoop_extends (module : MEMORYMODULE) (imgOff fuel i sec : Nat)
    (s : Machine) :
    Extends (fun e => e.isFinalize = true) s (finalizeSectionsLoop module imgOff fuel i sec s) := by
  induction fuel generalizing i sec s with
  | zero => exact Extends.refl _ _
  | succ n ih =>
    simp only [finalizeSectionsLoop]
    split
    · exact (finalizeSection_extends module imgOff sec s).trans (ih _ _ _)
    · exact Extends.refl _ _

/-- `FinalizeSections` does not write to memory. -/
theorem FinalizeSections_mem (os : Win32) (module : MEMORYMODULE) (s : Machine) :
    (FinalizeSections os module s).mem = s.mem :=
  finalizeSectionsLoop_mem module _ _ _ _ s

theorem FinalizeSections_extends (os : Win32) (module : MEMORYMODULE) (s : Machine) :
    Extends (fun e => e.isFinalize = true) s (FinalizeSections os module s) :=
  finalizeSectionsLoop_extends module _ _ _ _ s

theorem applyRelocation_trace (os : Win32) (dest delta relInfo : Nat) (s : Machine) :
    (applyRelocation os dest delta relInfo s).trace = s.trace := by
  unfold applyRelocation
  simp only
  split
  · rfl
  · split
    · rfl
    · split <;> rfl

theorem relocEntries_trace (os : Win32) (relocation dest delta fuel i relInfo : Nat)
    (s s' : Machine) (h : relocEntries os relocation dest delta fuel i relInfo s = some s') :
    s'.trace = s.trace := by
  induction fuel generalizing i relInfo s with
  | zero => simp [relocEntries] at h
  | succ n ih =>
    simp only [relocEntries] at h
    split at h
    · rw [ih _ _ _ h, applyRelocation_trace]
    · cases h; rfl

theorem relocBlocks_trace (os : Win32) (module : MEMORYMODULE) (delta fuel relocation : Nat)
    (s s' : Machine) (h : relocBlocks os module delta fuel relocation s = some s') :
    s'.trace = s.trace := by
  induction fuel generalizing relocation s with
  | zero => simp [relocBlocks] at h
  | succ n ih =>
    simp only [relocBlocks] at h
    split at h
    · split at h
      · cases h
      · rename_i s1 h1
        rw [ih _ _ h, relocEntries_trace _ _ _ _ _ _ _ _ _ h1]
    · cases h; rfl

/-- Relocation makes no call that is logged. -/
theorem PerformBaseRelocation_trace (os : Win32) (module : MEMORYMODULE) (delta fuel : Nat)
    (s s' : Machine) (h : PerformBaseRelocation os module delta fuel s = some s') :
    s'.trace = s.trace := by
  unfold PerformBaseRelocation at h
  simp only at h
  split at h
  · exact relocBlocks_trace _ _ _ _ _ _ _ h
  · cases h; rfl

theorem placeImage_extends (os : Win32) (fuel data old_header : Nat) (module : MEMORYMODULE)
    (s s' : Machine) (h : placeImage os fuel data old_header module s = some s') :
    Extends (fun e => e.isCommit = true) s s' := by
  unfold placeImage at h
  simp only at h
  split at h
  · exact (CopySections_extends os data old_header module s).trans
      (Extends.of_trace_eq (PerformBaseRelocation_trace _ _ _ _ _ _ h))
  · cases h
    exact CopySections_extends os data old_header module s

/-! ## The log of the import binder -/

theorem importLog_prepend {res : Bool} {evs pre : List Event} (h : ImportLog res evs)
    (hpre : ∀ e ∈ pre, e.bound = true) : ImportLog res (pre ++ evs) := by
  unfold ImportLog at *
  split
  · rename_i hres
    rw [if_pos hres] at h
    intro e he
    rcases List.mem_append.mp he with h1 | h1
    · exact hpre e h1
    · exact h e h1
  · rename_i hres
    rw [if_neg hres] at h
    obtain ⟨good, f, rest, h1, h2, h3, h4⟩ := h
    refine ⟨pre ++ good, f, rest, by rw [h1, List.append_assoc], ?_, h3, h4⟩
    intro e he
    rcases List.mem_append.mp he with h5 | h5
    · exact hpre e h5
    · exact h2 e h5

/-- The value stored in `*funcRef` reads back as what `getProcAddress` returned. -/
theorem bindThunk_readback (os : Win32) (cb : Callbacks) (module : MEMORYMODULE)
    (handle t funcRef : Nat) (s : Machine) :
    rdPtr os (bindThunk os cb module handle t funcRef s).mem funcRef =
      (callGetProcAddress os cb handle (thunkKey os module.codeBase t) module.userdata s).1 := by
  unfold bindThunk rdPtr wrPtr
  simp only [Machine.setMem_mem]
  rw [rdN_wrN_same]
  unfold callGetProcAddress ptrMod
  simp only [Nat.mod_mod]

theorem bindThunk_trace (os : Win32) (cb : Callbacks) (module : MEMORYMODULE)
    (handle t funcRef : Nat) (s : Machine) :
    (bindThunk os cb module handle t funcRef s).trace =
      s.trace ++ [Event.getProcAddress handle (thunkKey os module.codeBase t) module.userdata
        (callGetProcAddress os cb handle (thunkKey os module.codeBase t) module.userdata s).1] :=
  rfl

theorem bindThunks_log (os : Win32) (cb : Callbacks) (module : MEMORYMODULE) (handle : Nat)
    (fuel thunkRef funcRef : Nat) (s s' : Machine) (res : Bool)
    (h : bindThunks os cb module handle fuel thunkRef funcRef s = some (res, s')) :
    ∃ syms, (∀ e ∈ syms, GetProcOk handle module.userdata e) ∧
      (res = true → s'.trace = s.trace ++ syms) ∧
      (res = false → ∃ key,
        s'.trace = s.trace ++ (syms ++ [Event.getProcAddress handle key module.userdata 0])) := by
  induction fuel generalizing thunkRef funcRef s with
  | zero => simp [bindThunks] at h
  | succ n ih =>
    simp only [bindThunks] at h
    split at h
    · cases h
      exact ⟨[], by simp, by simp, by simp⟩
    · rw [bindThunk_readback] at h
      split at h
      · rename_i hz
        cases h
        refine ⟨[], by simp, by simp,
          fun _ => ⟨thunkKey os module.codeBase (rdPtr os s.mem thunkRef), ?_⟩⟩
        rw [bindThunk_trace, hz]; rfl
      · rename_i hz
        obtain ⟨syms, h1, h2, h3⟩ := ih _ _ _ h
        refine ⟨Event.getProcAddress handle (thunkKey os module.codeBase (rdPtr os s.mem thunkRef))
          module.userdata (callGetProcAddress os cb handle
            (thunkKey os module.codeBase (rdPtr os s.mem thunkRef)) module.userdata s).1 :: syms,
          ?_, ?_, ?_⟩
        · intro e he
          rcases List.mem_cons.mp he with h5 | h5
          · exact ⟨_, _, hz, h5⟩
          · exact h1 e h5
        · intro hres
          rw [h2 hres, bindThunk_trace, List.append_assoc]; rfl
        · intro hres
          obtain ⟨key, h4⟩ := h3 hres
          refine ⟨key, ?_⟩
          rw [h4, bindThunk_trace, List.append_assoc]; rfl

theorem growModules_trace (os : Win32) (module : MEMORYMODULE) (s : Machine) :
    (growModules os module s).2.mem = s.mem ∧
    (growModules os module s).2.trace =
      s.trace ++ [growEvent os module (growModules os module s).1] := by
  unfold growModules growEvent
  split <;> exact ⟨rfl, rfl⟩

@[simp] theorem callLoadLibrary_mem (os : Win32) (cb : Callbacks) (name ud : Nat) (s : Machine) :
    (callLoadLibrary os cb name ud s).2.mem = s.mem := rfl

@[simp] theorem callLoadLibrary_trace (os : Win32) (cb : Callbacks) (name ud : Nat) (s : Machine) :
    (callLoadLibrary os cb name ud s).2.trace =
      s.trace ++ [Event.loadLibrary name ud (callLoadLibrary os cb name ud s).1] := rfl

@[simp] theorem appendModule_userdata (module : MEMORYMODULE) (tmp handle : Nat) :
    (appendModule module tmp handle).userdata = module.userdata := rfl

@[simp] theorem appendModule_codeBase (module : MEMORYMODULE) (tmp handle : Nat) :
    (appendModule module tmp handle).codeBase = module.codeBase := rfl

@[simp] theorem appendModule_headers (module : MEMORYMODULE) (tmp handle : Nat) :
    (appendModule module tmp handle).headers = module.headers := rfl

/-- One trip through the body of the descriptor loop goes one of four ways. -/
theorem importDescriptor_descLog (os : Win32) (cb : Callbacks) (fuel importDesc : Nat)
    (module module' : MEMORYMODULE) (s s' : Machine) (res : Bool)
    (h : importDescriptor os cb fuel importDesc module s = some (res, module', s')) :
    ∃ evs, s'.trace = s.trace ++ evs ∧ DescLog os module res module' evs := by
  unfold importDescriptor at h
  dsimp only at h
  generalize hl : callLoadLibrary os cb (module.codeBase + rd32 s.mem (importDesc + off_Name))
    module.userdata s = l at h
  have hlt : l.2.trace = s.trace ++
      [Event.loadLibrary (module.codeBase + rd32 s.mem (importDesc + off_Name))
        module.userdata l.1] := by
    rw [← hl]; rfl
  split at h
  · rename_i hz
    cases h
    refine ⟨_, ?_, DescLog.modNotFound (module.codeBase + rd32 s.mem (importDesc + off_Name))⟩
    simp [hlt, hz]
  · rename_i hz
    obtain ⟨gm, gt⟩ := growModules_trace os module l.2
    generalize hg0 : growModules os module l.2 = g at h gm gt
    split at h
    · rename_i hg
      cases h
      refine ⟨_, ?_, DescLog.outOfMemory
        (module.codeBase + rd32 s.mem (importDesc + off_Name)) l.1 hz⟩
      simp [gt, hlt, hg]
    · rename_i hg
      split at h
      · cases h
      · rename_i s3 hb
        cases h
        obtain ⟨syms, h1, _, h3⟩ := bindThunks_log _ _ _ _ _ _ _ _ _ _ hb
        obtain ⟨key, h4⟩ := h3 rfl
        have h1 : ∀ e ∈ syms, GetProcOk l.1 module.userdata e := h1
        refine ⟨_, ?_, DescLog.procNotFound
          (module.codeBase + rd32 s.mem (importDesc + off_Name)) l.1 g.1 hz hg syms h1 key⟩
        simp [h4, gt, hlt]
      · rename_i s3 hb
        cases h
        obtain ⟨syms, h1, h2, _⟩ := bindThunks_log _ _ _ _ _ _ _ _ _ _ hb
        have h1 : ∀ e ∈ syms, GetProcOk l.1 module.userdata e := h1
        refine ⟨_, ?_, DescLog.bound
          (module.codeBase + rd32 s.mem (importDesc + off_Name)) l.1 g.1 hz hg syms h1⟩
        simp [h2 rfl, gt, hlt]

theorem getProcOk_bound {h ud : Nat} {e : Event} (he : GetProcOk h ud e) : e.bound = true := by
  obtain ⟨key, ret, h1, h2⟩ := he
  subst h2
  simpa [Event.bound] using h1

theorem growEvent_bound (os : Win32) (module : MEMORYMODULE) (g : Nat) (hg : g ≠ 0) :
    (growEvent os module g).bound = true := by
  unfold growEvent
  split <;> simpa [Event.bound] using hg

theorem growEvent_failed (os : Win32) (module : MEMORYMODULE) :
    (growEvent os module 0).failed = true ∧
    ∀ h ud, failureTail (growEvent os module 0)
      [Event.freeLibrary h ud, Event.setLastError ERROR_OUTOFMEMORY] := by
  unfold growEvent
  split
  · exact ⟨rfl, fun a b => ⟨a, b, rfl⟩⟩
  · exact ⟨rfl, fun a b => ⟨a, b, rfl⟩⟩

theorem descLog_importLog {os : Win32} {module module' : MEMORYMODULE} {res : Bool}
    {evs : List Event} (h : DescLog os module res module' evs) : ImportLog res evs := by
  cases h with
  | modNotFound name =>
    unfold ImportLog
    rw [if_neg (by simp)]
    exact ⟨[], _, _, rfl, by simp, rfl, rfl⟩
  | outOfMemory name h hh =>
    unfold ImportLog
    rw [if_neg (by simp)]
    refine ⟨[Event.loadLibrary name module.userdata h], growEvent os module 0, _, rfl, ?_,
      (growEvent_failed os module).1, (growEvent_failed os module).2 _ _⟩
    intro e he
    simp only [List.mem_singleton] at he
    subst he
    simpa [Event.bound] using hh
  | procNotFound name h g hh hg syms hs key =>
    unfold ImportLog
    rw [if_neg (by simp)]
    refine ⟨Event.loadLibrary name module.userdata h :: growEvent os module g :: syms,
      Event.getProcAddress h key module.userdata 0, _, by simp, ?_, rfl, rfl⟩
    intro e he
    simp only [List.mem_cons] at he
    rcases he with h1 | h1 | h1
    · subst h1; simpa [Event.bound] using hh
    · subst h1; exact growEvent_bound os module g hg
    · exact getProcOk_bound (hs e h1)
  | bound name h g hh hg syms hs =>
    unfold ImportLog
    rw [if_pos rfl]
    intro e he
    simp only [List.mem_cons] at he
    rcases he with h1 | h1 | h1
    · subst h1; simpa [Event.bound] using hh
    · subst h1; exact growEvent_bound os module g hg
    · exact getProcOk_bound (hs e h1)

theorem importDescriptor_log (os : Win32) (cb : Callbacks) (fuel importDesc : Nat)
    (module module' : MEMORYMODULE) (s s' : Machine) (res : Bool)
    (h : importDescriptor os cb fuel importDesc module s = some (res, module', s')) :
    ∃ evs, s'.trace = s.trace ++ evs ∧ ImportLog res evs := by
  obtain ⟨evs, h1, h2⟩ := importDescriptor_descLog _ _ _ _ _ _ _ _ _ h
  exact ⟨evs, h1, descLog_importLog h2⟩

/-- Induction over the trips of the descriptor loop: a relation between the
module record before and after and the events logged that holds for the empty
run, for a run that ends in a failing trip, and is closed under putting a
successful trip in front, holds for every run of the loop. -/
theorem importLoop_induction (os : Win32) (cb : Callbacks)
    (Q : Bool → MEMORYMODULE → MEMORYMODULE → List Event → Prop)
    (hstop : ∀ m, Q true m m [])
    (hfail : ∀ m m1 e1, DescLog os m false m1 e1 → Q false m m1 e1)
    (hstep : ∀ r m m1 m2 e1 e2, DescLog os m true m1 e1 → Q r m1 m2 e2 → Q r m m2 (e1 ++ e2))
    (fuel importDesc : Nat) (module module' : MEMORYMODULE) (s s' : Machine) (res : Bool)
    (h : importLoop os cb fuel importDesc module s = some (res, module', s')) :
    ∃ evs, s'.trace = s.trace ++ evs ∧ Q res module module' evs := by
  induction fuel generalizing importDesc module s with
  | zero => simp [importLoop] at h
  | succ n ih =>
    simp only [importLoop] at h
    split at h
    · cases h
      exact ⟨[], by simp, hstop _⟩
    · split at h
      · cases h
        exact ⟨[], by simp, hstop _⟩
      · split at h
        · cases h
        · rename_i m1 s1 hd
          cases h
          obtain ⟨e1, t1, l1⟩ := importDescriptor_descLog _ _ _ _ _ _ _ _ _ hd
          exact ⟨e1, t1, hfail _ _ _ l1⟩
        · rename_i m1 s1 hd
          obtain ⟨e1, t1, l1⟩ := importDescriptor_descLog _ _ _ _ _ _ _ _ _ hd
          obtain ⟨e2, t2, l2⟩ := ih _ _ _ h
          exact ⟨e1 ++ e2, by rw [t2, t1, List.append_assoc], hstep _ _ _ _ _ _ l1 l2⟩

/-- The same induction for `BuildImportTable`. -/
theorem BuildImportTable_induction (os : Win32) (cb : Callbacks)
    (Q : Bool → MEMORYMODULE → MEMORYMODULE → List Event → Prop)
    (hstop : ∀ m, Q true m m [])
    (hfail : ∀ m m1 e1, DescLog os m false m1 e1 → Q false m m1 e1)
    (hstep : ∀ r m m1 m2 e1 e2, DescLog os m true m1 e1 → Q r m1 m2 e2 → Q r m m2 (e1 ++ e2))
    (fuel : Nat) (module module' : MEMORYMODULE) (s s' : Machine) (res : Bool)
    (h : BuildImportTable os cb fuel module s = some (res, module', s')) :
    ∃ evs, s'.trace = s.trace ++ evs ∧ Q res module module' evs := by
  unfold BuildImportTable at h
  dsimp only at h
  split at h
  · exact importLoop_induction os cb Q hstop hfail hstep _ _ _ _ _ _ _ h
  · cases h
    exact ⟨[], by simp, hstop _⟩

/-- The log of `BuildImportTable`: successful calls only when it returns 1;
otherwise successful calls, one failed call and the clean-up of that failure. -/
theorem BuildImportTable_log (os : Win32) (cb : Callbacks) (fuel : Nat)
    (module module' : MEMORYMODULE) (s s' : Machine) (res : Bool)
    (h : BuildImportTable os cb fuel module s = some (res, module', s')) :
    ∃ evs, s'.trace = s.trace ++ evs ∧ ImportLog res evs := by
  refine BuildImportTable_induction os cb (fun r _ _ evs => ImportLog r evs) ?_ ?_ ?_
    _ _ _ _ _ _ h
  · intro m; simp [ImportLog]
  · intro m m1 e1 h1; exact descLog_importLog h1
  · intro r m m1 m2 e1 e2 h1 h2
    exact importLog_prepend h2 (by simpa [ImportLog] using descLog_importLog h1)

/-- The import binder changes neither `codeBase`, `headers` nor `userdata`. -/
theorem BuildImportTable_fields (os : Win32) (cb : Callbacks) (fuel : Nat)
    (module module' : MEMORYMODULE) (s s' : Machine) (res : Bool)
    (h : BuildImportTable os cb fuel module s = some (res, module', s')) :
    module'.codeBase = module.codeBase ∧ module'.headers = module.headers ∧
      module'.userdata = module.userdata := by
  have hstop : ∀ m : MEMORYMODULE, m.codeBase = m.codeBase ∧ m.headers = m.headers ∧
      m.userdata = m.userdata := fun m => ⟨rfl, rfl, rfl⟩
  obtain ⟨_, _, h1⟩ := BuildImportTable_induction os cb
    (fun _ m m' _ => m'.codeBase = m.codeBase ∧ m'.headers = m.headers ∧
      m'.userdata = m.userdata) hstop
    (fun m m1 e1 h1 => by cases h1 <;> exact ⟨rfl, rfl, rfl⟩)
    (fun r m m1 m2 e1 e2 h1 h2 => by cases h1; exact h2) _ _ _ _ _ _ h
  exact h1

/-! ## The ledger of regions and heap blocks -/

@[simp] theorem Ledger.run_nil (l : Ledger) : l.run [] = some l := rfl

theorem Ledger.run_cons (l : Ledger) (e : Event) (evs : List Event) :
    l.run (e :: evs) = (l.step e).bind (fun l1 => l1.run evs) := by
  simp only [Ledger.run]
  cases l.step e <;> rfl

theorem Ledger.run_append (l : Ledger) (a b : List Event) :
    l.run (a ++ b) = (l.run a).bind (fun l1 => l1.run b) := by
  induction a generalizing l with
  | nil => rfl
  | cons e a ih =>
    simp only [List.cons_append, Ledger.run_cons]
    cases l.step e with
    | none => rfl
    | some l1 => simpa using ih l1

/-- A run of calls none of which touches the ledger leaves it as it is. -/
theorem Ledger.run_neutral (l : Ledger) (evs : List Event)
    (h : ∀ e ∈ evs, ∀ l0 : Ledger, l0.step e = some l0) : l.run evs = some l := by
  induction evs with
  | nil => rfl
  | cons e evs ih =>
    rw [Ledger.run_cons, h e (List.mem_cons_self _ _) l]
    exact ih (fun e' he' => h e' (List.mem_cons_of_mem _ he'))

theorem Ledger.step_commit (e : Event) (h : e.isCommit = true) (l : Ledger) :
    l.step e = some l := by
  cases e <;> simp [Event.isCommit] at h
  subst h
  have h0 : MEM_COMMIT &&& MEM_RESERVE = 0 := by decide
  simp [Ledger.step, h0]

theorem Ledger.step_finalize (e : Event) (h : e.isFinalize = true) (l : Ledger) :
    l.step e = some l := by
  cases e <;> simp [Event.isFinalize] at h
  · subst h
    have h0 : MEM_DECOMMIT ≠ MEM_RELEASE := by decide
    simp [Ledger.step, h0]
  · rfl

theorem Ledger.step_getProcOk {h ud : Nat} {e : Event} (he : GetProcOk h ud e) (l : Ledger) :
    l.step e = some l := by
  obtain ⟨key, ret, _, h2⟩ := he
  subst h2
  rfl

theorem Ledger.step_growEvent_zero (os : Win32) (module : MEMORYMODULE) (l : Ledger) :
    l.step (growEvent os module 0) = some l := by
  unfold growEvent
  split <;> simp [Ledger.step]

theorem Ledger.step_growEvent (os : Win32) (module : MEMORYMODULE) (g : Nat) (hg : g ≠ 0)
    (l : Ledger) (rest : List Nat) (hl : l.blocks = blocksOf module rest) (h : Nat) :
    ∃ l1, l.step (growEvent os module g) = some l1 ∧ l1.regions = l.regions ∧
      l1.blocks = blocksOf (appendModule module g h) rest := by
  unfold growEvent
  unfold blocksOf at hl
  have hb : blocksOf (appendModule module g h) rest = g :: rest := by
    unfold blocksOf appendModule
    simp [hg]
  split
  · rename_i hm
    rw [if_pos hm] at hl
    refine ⟨{ l with blocks := g :: l.blocks }, by simp [Ledger.step, hg], rfl, ?_⟩
    rw [hb, ← hl]
  · rename_i hm
    rw [if_neg hm] at hl
    refine ⟨{ l with blocks := g :: l.blocks.erase module.modules },
      by simp [Ledger.step, hg, hl], rfl, ?_⟩
    rw [hb, hl]
    simp

/-- The effect of one trip through the body of the descriptor loop on the
ledger: the handle array of the record is exchanged, nothing else. -/
theorem descLog_ledger {os : Win32} {module module' : MEMORYMODULE} {res : Bool}
    {evs : List Event} (h : DescLog os module res module' evs) (l : Ledger) (rest : List Nat)
    (hl : l.blocks = blocksOf module rest) :
    ∃ l1, l.run evs = some l1 ∧ l1.regions = l.regions ∧ l1.blocks = blocksOf module' rest := by
  cases h with
  | modNotFound name => exact ⟨l, rfl, rfl, hl⟩
  | outOfMemory name h hh =>
    refine ⟨l, ?_, rfl, hl⟩
    rw [Ledger.run_cons]
    simp only [Ledger.step, Option.some_bind]
    rw [Ledger.run_cons, Ledger.step_growEvent_zero]
    rfl
  | procNotFound name h g hh hg syms hs key =>
    obtain ⟨l1, h1, h2, h3⟩ := Ledger.step_growEvent os module g hg l rest hl h
    refine ⟨l1, ?_, h2, h3⟩
    rw [Ledger.run_cons]
    simp only [Ledger.step, Option.some_bind]
    rw [Ledger.run_cons, h1]
    simp only [Option.some_bind]
    rw [Ledger.run_append, Ledger.run_neutral l1 syms (fun e he => Ledger.step_getProcOk (hs e he))]
    rfl
  | bound name h g hh hg syms hs =>
    obtain ⟨l1, h1, h2, h3⟩ := Ledger.step_growEvent os module g hg l rest hl h
    refine ⟨l1, ?_, h2, h3⟩
    rw [Ledger.run_cons]
    simp only [Ledger.step, Option.some_bind]
    rw [Ledger.run_cons, h1]
    simp only [Option.some_bind]
    exact Ledger.run_neutral l1 syms (fun e he => Ledger.step_getProcOk (hs e he))

/-- The effect of `BuildImportTable` on the ledger. -/
theorem BuildImportTable_ledger (os : Win32) (cb : Callbacks) (fuel : Nat)
    (module module' : MEMORYMODULE) (s s' : Machine) (res : Bool)
    (h : BuildImportTable os cb fuel module s = some (res, module', s')) :
    ∃ evs, s'.trace = s.trace ++ evs ∧ ∀ (l : Ledger) (rest : List Nat),
      l.blocks = blocksOf module rest →
      ∃ l1, l.run evs = some l1 ∧ l1.regions = l.regions ∧ l1.blocks = blocksOf module' rest := by
  refine BuildImportTable_induction os cb (fun _ m m' evs => ∀ (l : Ledger) (rest : List Nat),
      l.blocks = blocksOf m rest →
      ∃ l1, l.run evs = some l1 ∧ l1.regions = l.regions ∧ l1.blocks = blocksOf m' rest)
    ?_ ?_ ?_ _ _ _ _ _ _ h
  · intro m l rest hl
    exact ⟨l, rfl, rfl, hl⟩
  · intro m m1 e1 h1 l rest hl
    exact descLog_ledger h1 l rest hl
  · intro r m m1 m2 e1 e2 h1 h2 l rest hl
    obtain ⟨l1, a1, a2, a3⟩ := descLog_ledger h1 l rest hl
    obtain ⟨l2, b1, b2, b3⟩ := h2 l1 rest a3
    refine ⟨l2, ?_, by rw [b2, a2], b3⟩
    rw [Ledger.run_append, a1]
    exact b1

/-! ## The stages of `MemoryLoadLibraryEx` -/

theorem reserveImage_spec (os : Win32) (old_header : Nat) (s : Machine) :
    (reserveImage os old_header s).2.mem = s.mem ∧
    ∃ R, (reserveImage os old_header s).2.trace = s.trace ++ R ∧
      ReserveLog (reserveImage os old_header s).1 R := by
  unfold reserveImage
  dsimp only
  split
  · rename_i hz
    refine ⟨rfl, [Event.virtualAlloc (rdPtr os s.mem (old_header + off_ImageBase os))
        (rd32 s.mem (old_header + off_SizeOfImage)) (MEM_RESERVE ||| MEM_COMMIT) PAGE_READWRITE 0,
      Event.virtualAlloc 0 (rd32 s.mem (old_header + off_SizeOfImage))
        (MEM_RESERVE ||| MEM_COMMIT) PAGE_READWRITE _], ?_, Or.inr ⟨_, _, _, rfl⟩⟩
    simp only [callVirtualAlloc, Machine.log_trace, Machine.log_mem, List.append_assoc]
    simp only [callVirtualAlloc] at hz
    rw [hz]
    rfl
  · rename_i hz
    exact ⟨rfl, [Event.virtualAlloc (rdPtr os s.mem (old_header + off_ImageBase os))
        (rd32 s.mem (old_header + off_SizeOfImage)) (MEM_RESERVE ||| MEM_COMMIT) PAGE_READWRITE _],
      rfl, Or.inl ⟨hz, _, _, rfl⟩⟩

theorem reserveLog_ledger {code : Nat} {R : List Event} (h : ReserveLog code R) (l : Ledger) :
    l.run R = some (if code = 0 then l else { l with regions := code :: l.regions }) := by
  have hk : (MEM_RESERVE ||| MEM_COMMIT) &&& MEM_RESERVE ≠ 0 := by decide
  rcases h with ⟨hc, a, sz, rfl⟩ | ⟨a, sz, sz2, rfl⟩
  · simp [Ledger.run, Ledger.step, hk, hc]
  · by_cases hc : code = 0
    · simp [Ledger.run, Ledger.step, hc]
    · simp [Ledger.run, Ledger.step, hk, hc]

theorem reserveLog_not_entry {code : Nat} {R : List Event} (h : ReserveLog code R) :
    ∀ e ∈ R, e.isEntry = false ∧ e.isImportCall = false ∧
      e ≠ Event.setLastError ERROR_BAD_EXE_FORMAT := by
  rcases h with ⟨_, a, sz, rfl⟩ | ⟨a, sz, sz2, rfl⟩ <;>
    simp [Event.isEntry, Event.isImportCall]

theorem copyHeaders_spec (os : Win32) (data old_header code userdata : Nat) (s : Machine) :
    (copyHeaders os data old_header code userdata s).1.codeBase = code ∧
    (copyHeaders os data old_header code userdata s).1.modules = 0 ∧
    (copyHeaders os data old_header code userdata s).1.numModules = 0 ∧
    (copyHeaders os data old_header code userdata s).1.moduleArr = [] ∧
    (copyHeaders os data old_header code userdata s).1.userdata = userdata ∧
    ∃ e, e.isCommit = true ∧
      (copyHeaders os data old_header code userdata s).2.trace = s.trace ++ [e] :=
  ⟨rfl, rfl, rfl, rfl, rfl,
    Event.virtualAlloc code (rd32 s.mem (old_header + off_SizeOfHeaders)) MEM_COMMIT
      PAGE_READWRITE (callVirtualAlloc os code (rd32 s.mem (old_header + off_SizeOfHeaders))
        MEM_COMMIT PAGE_READWRITE s).1, rfl, rfl⟩

/-- A load that gets as far as `BuildImportTable`: both signatures are valid,
the region and the record were allocated, and the log so far consists of the
reservation, the allocation of the record and page commits. -/
theorem loadAndBind_inr (os : Win32) (cb : Callbacks) (fuel data userdata : Nat)
    (s s2 : Machine) (result : Nat) (r : Bool) (module : MEMORYMODULE)
    (h : loadAndBind os cb fuel data userdata s = some (Sum.inr (result, r, module, s2))) :
    signaturesValid os s.mem data ∧ result ≠ 0 ∧
    ∃ (m0 : MEMORYMODULE) (s1 : Machine) (R C : List Event),
      m0.codeBase ≠ 0 ∧ m0.modules = 0 ∧ m0.numModules = 0 ∧ m0.moduleArr = [] ∧
      m0.userdata = userdata ∧ ReserveLog m0.codeBase R ∧ (∀ e ∈ C, e.isCommit = true) ∧
      s1.trace = s.trace ++ (R ++ Event.heapAlloc (sizeofMemoryModule os) result :: C) ∧
      BuildImportTable os cb fuel m0 s1 = some (r, module, s2) := by
  unfold loadAndBind at h
  dsimp only at h
  split at h
  · cases h
  · rename_i hdos
    split at h
    · cases h
    · rename_i hnt
      obtain ⟨rm, R, rt, rl⟩ := reserveImage_spec os
        (ptrAddLong os data (rd32 s.mem (data + off_e_lfanew))) s
      generalize reserveImage os (ptrAddLong os data (rd32 s.mem (data + off_e_lfanew))) s = c
        at h rm rt rl
      split at h
      · cases h
      · rename_i hcode
        split at h
        · cases h
        · rename_i hres
          obtain ⟨c1, c2, c3, c4, c5, e, ce, ct⟩ := copyHeaders_spec os data
            (ptrAddLong os data (rd32 s.mem (data + off_e_lfanew))) c.1 userdata
            (callHeapAlloc os (sizeofMemoryModule os) c.2).2
          generalize copyHeaders os data (ptrAddLong os data (rd32 s.mem (data + off_e_lfanew)))
            c.1 userdata (callHeapAlloc os (sizeofMemoryModule os) c.2).2 = m
            at h c1 c2 c3 c4 c5 ct
          split at h
          · cases h
          · rename_i s1 hp
            split at h
            · cases h
            · rename_i r' module' s2' hb
              cases h
              obtain ⟨C, pt, pc⟩ := placeImage_extends _ _ _ _ _ _ _ hp
              refine ⟨⟨not_not.mp hdos, not_not.mp hnt⟩, hres, m.1, s1, R, e :: C,
                by rw [c1]; exact hcode, c2, c3, c4, c5, by rw [c1]; exact rl, ?_, ?_, hb⟩
              · intro e' he'
                rcases List.mem_cons.mp he' with h1 | h1
                · rw [h1]; exact ce
                · exact pc e' h1
              · rw [pt, ct]
                simp only [callHeapAlloc, Machine.log_trace, rt, List.append_assoc]
                rfl

/-- A load that returns before `BuildImportTable` is called went one of three
ways: a bad signature, no region, or no record. -/
theorem loadAndBind_inl (os : Win32) (cb : Callbacks) (fuel data userdata : Nat)
    (s s1 : Machine)
    (h : loadAndBind os cb fuel data userdata s = some (Sum.inl s1)) :
    (¬ signaturesValid os s.mem data ∧ s1.mem = s.mem ∧
      s1.trace = s.trace ++ [Event.setLastError ERROR_BAD_EXE_FORMAT]) ∨
    (signaturesValid os s.mem data ∧ ∃ R, ReserveLog 0 R ∧
      s1.trace = s.trace ++ (R ++ [Event.setLastError ERROR_OUTOFMEMORY])) ∨
    (signaturesValid os s.mem data ∧ ∃ code R, code ≠ 0 ∧ ReserveLog code R ∧
      s1.trace = s.trace ++ (R ++ [Event.heapAlloc (sizeofMemoryModule os) 0,
        Event.setLastError ERROR_OUTOFMEMORY, Event.virtualFree code 0 MEM_RELEASE])) := by
  unfold loadAndBind at h
  dsimp only at h
  split at h
  · rename_i hdos
    cases h
    exact Or.inl ⟨fun hv => hdos hv.1, rfl, rfl⟩
  · rename_i hdos
    split at h
    · rename_i hnt
      cases h
      exact Or.inl ⟨fun hv => hnt hv.2, rfl, rfl⟩
    · rename_i hnt
      have hv : signaturesValid os s.mem data := ⟨not_not.mp hdos, not_not.mp hnt⟩
      obtain ⟨rm, R, rt, rl⟩ := reserveImage_spec os
        (ptrAddLong os data (rd32 s.mem (data + off_e_lfanew))) s
      generalize reserveImage os (ptrAddLong os data (rd32 s.mem (data + off_e_lfanew))) s = c
        at h rm rt rl
      split at h
      · rename_i hcode
        cases h
        refine Or.inr (Or.inl ⟨hv, R, by rw [← hcode]; exact rl, ?_⟩)
        simp [rt]
      · rename_i hcode
        split at h
        · rename_i hres
          cases h
          refine Or.inr (Or.inr ⟨hv, c.1, R, hcode, rl, ?_⟩)
          simp only [callHeapAlloc] at hres
          rw [rt] at hres
          simp only [callHeapAlloc, Machine.log_trace, rt, hres, List.append_assoc]
          rfl
        · split at h
          · cases h
          · split at h
            · cases h
            · cases h

theorem MemoryFreeLibrary_trace (mod : Nat) (module : MEMORYMODULE) (s : Machine)
    (hmod : mod ≠ 0) :
    (MemoryFreeLibrary mod module s).trace = s.trace ++ teardownLog mod module := by
  unfold MemoryFreeLibrary teardownLog
  rw [if_pos hmod]
  by_cases h1 : module.modules = 0 <;> by_cases h2 : module.codeBase = 0 <;>
    simp [h1, h2]

theorem MemoryFreeLibrary_mem (mod : Nat) (module : MEMORYMODULE) (s : Machine) :
    (MemoryFreeLibrary mod module s).mem = s.mem := by
  unfold MemoryFreeLibrary
  by_cases h0 : mod = 0 <;> by_cases h1 : module.modules = 0 <;>
    by_cases h2 : module.codeBase = 0 <;> simp [h0, h1, h2]

theorem finalizeAndEnter_trace (os : Win32) (module : MEMORYMODULE) (userdata : Nat)
    (s : Machine) :
    ∃ F, (∀ e ∈ F, e.isFinalize = true) ∧
      (finalizeAndEnter os module userdata s).trace = s.trace ++ (F ++
        if rd32 s.mem (module.headers + off_AddressOfEntryPoint) ≠ 0 then
          [Event.dllEntry (module.codeBase + rd32 s.mem (module.headers + off_AddressOfEntryPoint))
            userdata]
        else []) := by
  obtain ⟨F, ft, fp⟩ := FinalizeSections_extends os module s
  refine ⟨F, fp, ?_⟩
  unfold finalizeAndEnter
  dsimp only
  rw [FinalizeSections_mem]
  split
  · simp [ft]
  · simp [ft]

/-! ## Events that are neither an entry-point call nor a format error -/

theorem Event.quiet_of_commit {e : Event} (h : e.isCommit = true) :
    e.quiet ∧ e.isImportCall = false := by
  cases e <;> simp [Event.isCommit] at h
  simp [Event.quiet, Event.isEntry, Event.isImportCall]

theorem Event.quiet_of_finalize {e : Event} (h : e.isFinalize = true) :
    e.quiet ∧ e.isImportCall = false := by
  cases e <;> simp [Event.isFinalize] at h <;>
    simp [Event.quiet, Event.isEntry, Event.isImportCall]

theorem Event.quiet_of_bound {e : Event} (h : e.bound = true) : e.quiet := by
  cases e <;> simp [Event.bound] at h <;> simp [Event.quiet, Event.isEntry]

theorem Event.quiet_of_failed {e : Event} (h : e.failed = true) : e.quiet := by
  cases e <;> simp [Event.failed] at h <;> simp [Event.quiet, Event.isEntry]

theorem failureTail_quiet {f : Event} {rest : List Event} (h : failureTail f rest) :
    ∀ e ∈ rest, e.quiet := by
  cases f <;> simp only [failureTail] at h
  · subst h
    simp [Event.quiet, Event.isEntry, ERROR_MOD_NOT_FOUND, ERROR_BAD_EXE_FORMAT]
  · subst h
    simp [Event.quiet, Event.isEntry, ERROR_PROC_NOT_FOUND, ERROR_BAD_EXE_FORMAT]
  · obtain ⟨a, b, rfl⟩ := h
    simp [Event.quiet, Event.isEntry, ERROR_OUTOFMEMORY, ERROR_BAD_EXE_FORMAT]
  · obtain ⟨a, b, rfl⟩ := h
    simp [Event.quiet, Event.isEntry, ERROR_OUTOFMEMORY, ERROR_BAD_EXE_FORMAT]

theorem importLog_quiet {res : Bool} {evs : List Event} (h : ImportLog res evs) :
    ∀ e ∈ evs, e.quiet := by
  unfold ImportLog at h
  split at h
  · exact fun e he => Event.quiet_of_bound (h e he)
  · obtain ⟨good, f, rest, h1, h2, h3, h4⟩ := h
    subst h1
    intro e he
    simp only [List.mem_append, List.mem_cons] at he
    rcases he with h5 | h5 | h5
    · exact Event.quiet_of_bound (h2 e h5)
    · subst h5; exact Event.quiet_of_failed h3
    · exact failureTail_quiet h4 e h5

theorem reserveLog_quiet {code : Nat} {R : List Event} (h : ReserveLog code R) :
    ∀ e ∈ R, e.quiet := by
  rcases h with ⟨_, a, sz, rfl⟩ | ⟨a, sz, sz2, rfl⟩ <;> simp [Event.quiet, Event.isEntry]

theorem teardownLog_quiet (mod : Nat) (module : MEMORYMODULE) :
    ∀ e ∈ teardownLog mod module, e.quiet ∧ e.isImportCall = false := by
  intro e he
  unfold teardownLog freeModules at he
  simp only [List.mem_append, List.mem_singleton] at he
  rcases he with (he | he) | he
  · split at he
    · simp only [List.mem_append, List.mem_filterMap, List.mem_singleton] at he
      rcases he with ⟨i, _, hi⟩ | he
      · split at hi
        · cases hi
          simp [Event.quiet, Event.isEntry, Event.isImportCall]
        · cases hi
      · subst he
        simp [Event.quiet, Event.isEntry, Event.isImportCall]
    · simp at he
  · split at he
    · simp only [List.mem_singleton] at he
      subst he
      simp [Event.quiet, Event.isEntry, Event.isImportCall]
    · simp at he
  · subst he
    simp [Event.quiet, Event.isEntry, Event.isImportCall]

/-- Up to the return of `BuildImportTable` the entry point is not called and
no format error is reported. -/
theorem loadAndBind_inr_quiet (os : Win32) (cb : Callbacks) (fuel data userdata : Nat)
    (s s2 : Machine) (result : Nat) (r : Bool) (module : MEMORYMODULE)
    (h : loadAndBind os cb fuel data userdata s = some (Sum.inr (result, r, module, s2))) :
    ∃ evs, s2.trace = s.trace ++ evs ∧ ∀ e ∈ evs, e.quiet := by
  obtain ⟨_, _, m0, s1, R, C, _, _, _, _, _, hR, hC, ht, hb⟩ :=
    loadAndBind_inr _ _ _ _ _ _ _ _ _ _ h
  obtain ⟨B, bt, bl⟩ := BuildImportTable_log _ _ _ _ _ _ _ _ hb
  refine ⟨(R ++ Event.heapAlloc (sizeofMemoryModule os) result :: C) ++ B, ?_, ?_⟩
  · rw [bt, ht, List.append_assoc]
  · intro e he
    simp only [List.mem_append, List.mem_cons] at he
    rcases he with (he | he | he) | he
    · exact reserveLog_quiet hR e he
    · subst he; simp [Event.quiet, Event.isEntry]
    · exact (Event.quiet_of_commit (hC e he)).1
    · exact importLog_quiet bl e he

theorem loadAndBind_inl_quiet (os : Win32) (cb : Callbacks) (fuel data userdata : Nat)
    (s s1 : Machine)
    (h : loadAndBind os cb fuel data userdata s = some (Sum.inl s1)) :
    ∃ evs, s1.trace = s.trace ++ evs ∧ (∀ e ∈ evs, e.isEntry = false) ∧
      (signaturesValid os s.mem data → ∀ e ∈ evs, e.quiet) := by
  rcases loadAndBind_inl _ _ _ _ _ _ _ h with ⟨h1, _, h3⟩ | ⟨h1, R, h2, h3⟩ | ⟨h1, c, R, _, h2, h3⟩
  · exact ⟨_, h3, by simp [Event.isEntry], fun hv => absurd hv h1⟩
  · have hq : ∀ e ∈ R ++ [Event.setLastError ERROR_OUTOFMEMORY], e.quiet := by
      intro e he
      simp only [List.mem_append, List.mem_singleton] at he
      rcases he with he | he
      · exact reserveLog_quiet h2 e he
      · subst he; simp [Event.quiet, Event.isEntry, ERROR_OUTOFMEMORY, ERROR_BAD_EXE_FORMAT]
    exact ⟨_, h3, fun e he => (hq e he).1, fun _ => hq⟩
  · have hq : ∀ e ∈ R ++ [Event.heapAlloc (sizeofMemoryModule os) 0,
        Event.setLastError ERROR_OUTOFMEMORY, Event.virtualFree c 0 MEM_RELEASE], e.quiet := by
      intro e he
      simp only [List.mem_append, List.mem_cons, List.mem_singleton, List.not_mem_nil,
        or_false] at he
      rcases he with he | he | he | he
      · exact reserveLog_quiet h2 e he
      · subst he; simp [Event.quiet, Event.isEntry]
      · subst he; simp [Event.quiet, Event.isEntry, ERROR_OUTOFMEMORY, ERROR_BAD_EXE_FORMAT]
      · subst he; simp [Event.quiet, Event.isEntry]
    exact ⟨_, h3, fun e he => (hq e he).1, fun _ => hq⟩

/-- Whatever happens, `MemoryLoadLibraryEx` returns `NULL`. -/
theorem MemoryLoadLibraryEx_null (os : Win32) (cb : Callbacks) (fuel data userdata : Nat)
    (s : Machine) (r : Nat × Machine)
    (h : MemoryLoadLibraryEx os cb fuel data userdata s = some r) : r.1 = 0 := by
  unfold MemoryLoadLibraryEx at h
  split at h
  · cases h
  all_goals (cases h; rfl)

/-- C1 (the code is wrong): on the sample image both signatures are valid,
the region and the record (at `0x500100`) are allocated and `BuildImportTable`
returns 1; the entry point is called, and then, line 466 being commented out,
the module is torn down again and `MemoryLoadLibraryEx` returns `NULL`. -/
theorem MemoryLoadLibraryEx_success_returns_null :
    signaturesValid sampleOS sampleImage 0x1000 ∧
    (loadAndBind sampleOS (sampleHost 0x7100 0x7200) 10 0x1000 0xBEEF ⟨sampleImage, []⟩).map
      (fun x => x.elim (fun _ => none) (fun y => some (y.1, y.2.1))) =
        some (some (0x500100, true)) ∧
    (MemoryLoadLibraryEx sampleOS (sampleHost 0x7100 0x7200) 10 0x1000 0xBEEF
      ⟨sampleImage, []⟩).map (fun r => (r.1, r.2.trace)) =
      some (0, [
        Event.virtualAlloc 0x400000 0x2000 (MEM_RESERVE ||| MEM_COMMIT) PAGE_READWRITE 0x400000,
        Event.heapAlloc 36 0x500100,
        Event.virtualAlloc 0x400000 0x200 MEM_COMMIT PAGE_READWRITE 0x400000,
        Event.loadLibrary 0x400190 0xBEEF 0x7000,
        Event.heapAlloc 4 0x500400,
        Event.getProcAddress 0x7000 0x4001B2 0xBEEF 0x7100,
        Event.getProcAddress 0x7000 17 0xBEEF 0x7200,
        Event.dllEntry 0x400200 0xBEEF,
        Event.freeLibrary 0x7000 0xBEEF,
        Event.heapFree 0x500400,
        Event.virtualFree 0x400000 0 MEM_RELEASE,
        Event.heapFree 0x500100]) := by
  decide

/-- C2 (the code is wrong): when `getProcAddress` returns 0 for the second
thunk of the sample image, the handle `0x7000`, returned once by
`loadLibrary`, is passed to `freeLibrary` twice: at line 319 and again by
`MemoryFreeLibrary`, because line 296 had already stored it in `modules`. -/
theorem dependency_freed_twice_on_missing_symbol :
    (MemoryLoadLibraryEx sampleOS (sampleHost 0x7100 0) 10 0x1000 0xBEEF
      ⟨sampleImage, []⟩).map (fun r => (r.1, r.2.trace)) =
      some (0, [
        Event.virtualAlloc 0x400000 0x2000 (MEM_RESERVE ||| MEM_COMMIT) PAGE_READWRITE 0x400000,
        Event.heapAlloc 36 0x500100,
        Event.virtualAlloc 0x400000 0x200 MEM_COMMIT PAGE_READWRITE 0x400000,
        Event.loadLibrary 0x400190 0xBEEF 0x7000,
        Event.heapAlloc 4 0x500400,
        Event.getProcAddress 0x7000 0x4001B2 0xBEEF 0x7100,
        Event.getProcAddress 0x7000 17 0xBEEF 0,
        Event.freeLibrary 0x7000 0xBEEF,
        Event.setLastError ERROR_PROC_NOT_FOUND,
        Event.freeLibrary 0x7000 0xBEEF,
        Event.heapFree 0x500400,
        Event.virtualFree 0x400000 0 MEM_RELEASE,
        Event.heapFree 0x500100]) ∧
    (MemoryLoadLibraryEx sampleOS (sampleHost 0x7100 0) 10 0x1000 0xBEEF
      ⟨sampleImage, []⟩).map (fun r => (loadsOf 0x7000 r.2.trace, freesOf 0x7000 r.2.trace)) =
      some (1, 2) := by
  decide

/-! ## Settled claims about whole runs -/

theorem lastError_append_set (t : List Event) (c : Nat) :
    lastError (t ++ [Event.setLastError c]) = some c := by
  simp [lastError, List.foldl_append]

/-- C3: when the DOS magic or the NT signature is wrong, `MemoryLoadLibraryEx`
returns `NULL` with last error `ERROR_BAD_EXE_FORMAT`; the only call it makes
is that `SetLastError` (nothing is allocated, no callback and no entry point
is called) and memory is unchanged.  When both signatures match, no run calls
`SetLastError(ERROR_BAD_EXE_FORMAT)`.  The NT signature is the `DWORD` at the
pointer line 376 computes, `data` plus the signed `e_lfanew` (`ptrAddLong`,
which wraps like the build when the sum is below address 0). -/
theorem bad_signature_rejected (os : Win32) (cb : Callbacks) (fuel data userdata : Nat)
    (s : Machine) :
    ((rd16 s.mem data ≠ IMAGE_DOS_SIGNATURE ∨
        rd32 s.mem (ptrAddLong os data (rd32 s.mem (data + off_e_lfanew))) ≠ IMAGE_NT_SIGNATURE) →
      ∃ s', MemoryLoadLibraryEx os cb fuel data userdata s = some (0, s') ∧ s'.mem = s.mem ∧
        s'.trace = s.trace ++ [Event.setLastError ERROR_BAD_EXE_FORMAT] ∧
        lastError s'.trace = some ERROR_BAD_EXE_FORMAT) ∧
    ((rd16 s.mem data = IMAGE_DOS_SIGNATURE ∧
        rd32 s.mem (ptrAddLong os data (rd32 s.mem (data + off_e_lfanew))) = IMAGE_NT_SIGNATURE) →
      ∀ out, MemoryLoadLibraryEx os cb fuel data userdata s = some out →
        ∃ evs, out.2.trace = s.trace ++ evs ∧
          Event.setLastError ERROR_BAD_EXE_FORMAT ∉ evs) := by
  constructor
  · intro hbad
    refine ⟨s.log (Event.setLastError ERROR_BAD_EXE_FORMAT), ?_, rfl, rfl,
      lastError_append_set _ _⟩
    unfold MemoryLoadLibraryEx loadAndBind
    by_cases h1 : rd16 s.mem data = IMAGE_DOS_SIGNATURE
    · have h2 : rd32 s.mem (ptrAddLong os data (rd32 s.mem (data + off_e_lfanew))) ≠
          IMAGE_NT_SIGNATURE := by
        rcases hbad with h | h
        · exact absurd h1 h
        · exact h
      simp [h1, h2]
    · simp [h1]
  · intro hv out hrun
    have hv : signaturesValid os s.mem data := hv
    unfold MemoryLoadLibraryEx at hrun
    split at hrun
    · cases hrun
    · rename_i s1 heq
      cases hrun
      obtain ⟨evs, h1, _, h3⟩ := loadAndBind_inl_quiet _ _ _ _ _ _ _ heq
      exact ⟨evs, h1, fun hmem => (h3 hv _ hmem).2 rfl⟩
    · rename_i result module s2 heq
      cases hrun
      obtain ⟨evs, h1, h2⟩ := loadAndBind_inr_quiet _ _ _ _ _ _ _ _ _ _ heq
      obtain ⟨_, hres, _⟩ := loadAndBind_inr _ _ _ _ _ _ _ _ _ _ heq
      refine ⟨evs ++ teardownLog result module, ?_, ?_⟩
      · simp only [MemoryFreeLibrary_trace _ _ _ hres, h1, List.append_assoc]
      · intro hmem
        rcases List.mem_append.mp hmem with h | h
        · exact (h2 _ h).2 rfl
        · exact (teardownLog_quiet _ _ _ h).1.2 rfl
    · rename_i result module s2 heq
      cases hrun
      obtain ⟨evs, h1, h2⟩ := loadAndBind_inr_quiet _ _ _ _ _ _ _ _ _ _ heq
      obtain ⟨_, hres, _⟩ := loadAndBind_inr _ _ _ _ _ _ _ _ _ _ heq
      obtain ⟨F, hF, ft⟩ := finalizeAndEnter_trace os module userdata s2
      refine ⟨evs ++ (F ++ (if rd32 s2.mem (module.headers + off_AddressOfEntryPoint) ≠ 0 then
          [Event.dllEntry (module.codeBase +
            rd32 s2.mem (module.headers + off_AddressOfEntryPoint)) userdata]
        else [])) ++ teardownLog result module, ?_, ?_⟩
      · simp only [MemoryFreeLibrary_trace _ _ _ hres, ft, h1, List.append_assoc]
      · intro hmem
        simp only [List.mem_append] at hmem
        rcases hmem with (h | h | h) | h
        · exact (h2 _ h).2 rfl
        · exact (Event.quiet_of_finalize (hF _ h)).1.2 rfl
        · split at h
          · simp at h
          · simp at h
        · exact (teardownLog_quiet _ _ _ h).1.2 rfl

/-- C3, at concrete inputs: an all-zero buffer is rejected, and the sample
image, whose signatures are valid, is not reported as a bad format; nor is a
buffer whose negative `e_lfanew` makes line 376 read the NT signature at the
wrapped address `0xFFFFF000`, where it is valid. -/
theorem bad_signature_rejected_witness :
    (∃ s', MemoryLoadLibraryEx sampleOS (sampleHost 0x7100 0x7200) 10 0x1000 0xBEEF
        ⟨fun _ => 0, []⟩ = some (0, s') ∧ s'.mem = (fun _ => 0) ∧
        s'.trace = [] ++ [Event.setLastError ERROR_BAD_EXE_FORMAT] ∧
        lastError s'.trace = some ERROR_BAD_EXE_FORMAT) ∧
    (∀ out, MemoryLoadLibraryEx sampleOS (sampleHost 0x7100 0x7200) 10 0x1000 0xBEEF
        ⟨sampleImage, []⟩ = some out →
      ∃ evs, out.2.trace = [] ++ evs ∧ Event.setLastError ERROR_BAD_EXE_FORMAT ∉ evs) ∧
    (ptrAddLong sampleOS 0x1000 (rd32 wrappedHeaderBuffer (0x1000 + off_e_lfanew)) =
        0xFFFFF000 ∧
      ∀ out, MemoryLoadLibraryEx sampleOS (sampleHost 0x7100 0x7200) 10 0x1000 0xBEEF
        ⟨wrappedHeaderBuffer, []⟩ = some out →
      ∃ evs, out.2.trace = [] ++ evs ∧ Event.setLastError ERROR_BAD_EXE_FORMAT ∉ evs) :=
  ⟨(bad_signature_rejected sampleOS (sampleHost 0x7100 0x7200) 10 0x1000 0xBEEF
      ⟨fun _ => 0, []⟩).1 (Or.inl (by decide)),
   (bad_signature_rejected sampleOS (sampleHost 0x7100 0x7200) 10 0x1000 0xBEEF
      ⟨sampleImage, []⟩).2 (by decide),
   by decide,
   (bad_signature_rejected sampleOS (sampleHost 0x7100 0x7200) 10 0x1000 0xBEEF
      ⟨wrappedHeaderBuffer, []⟩).2 (by decide)⟩

/-- C5: in every run of `MemoryLoadLibraryEx` that returns, with `evs` the calls
it logged: if the load got as far as `BuildImportTable` and that returned 1 (so
`FinalizeSections` ran), and the `AddressOfEntryPoint` of the copied headers is
not 0, then `evs` contains exactly one call of the entry point, at `codeBase +
AddressOfEntryPoint` with argument `userdata`, and no `loadLibrary` or
`getProcAddress` call follows it; in every other case (a bad signature, a
failed allocation, `BuildImportTable` returned 0, or `AddressOfEntryPoint` is
0) `evs` contains no call of the entry point. -/
theorem entry_point_called_once (os : Win32) (cb : Callbacks) (fuel data userdata : Nat)
    (s : Machine) (out : Nat × Machine)
    (hrun : MemoryLoadLibraryEx os cb fuel data userdata s = some out) :
    ∃ evs, out.2.trace = s.trace ++ evs ∧
      (∀ result module s2,
        loadAndBind os cb fuel data userdata s = some (Sum.inr (result, true, module, s2)) →
        rd32 s2.mem (module.headers + off_AddressOfEntryPoint) ≠ 0 →
        ∃ pre post,
          evs = pre ++ Event.dllEntry (module.codeBase +
            rd32 s2.mem (module.headers + off_AddressOfEntryPoint)) userdata :: post ∧
          (∀ e ∈ pre, e.isEntry = false) ∧
          (∀ e ∈ post, e.isEntry = false ∧ e.isImportCall = false)) ∧
      ((∀ result module s2,
          loadAndBind os cb fuel data userdata s = some (Sum.inr (result, true, module, s2)) →
          rd32 s2.mem (module.headers + off_AddressOfEntryPoint) = 0) →
        ∀ e ∈ evs, e.isEntry = false) := by
  unfold MemoryLoadLibraryEx at hrun
  split at hrun
  · cases hrun
  · rename_i s1 heq
    cases hrun
    obtain ⟨evs, h1, h2, _⟩ := loadAndBind_inl_quiet _ _ _ _ _ _ _ heq
    refine ⟨evs, h1, ?_, fun _ => h2⟩
    intro result module s2 h
    rw [heq] at h
    cases h
  · rename_i result module s2 heq
    cases hrun
    obtain ⟨evs, h1, h2⟩ := loadAndBind_inr_quiet _ _ _ _ _ _ _ _ _ _ heq
    obtain ⟨_, hres, _⟩ := loadAndBind_inr _ _ _ _ _ _ _ _ _ _ heq
    refine ⟨evs ++ teardownLog result module, ?_, ?_, ?_⟩
    · simp only [MemoryFreeLibrary_trace _ _ _ hres, h1, List.append_assoc]
    · intro result' module' s2' h
      rw [heq] at h
      cases h
    · intro _ e he
      rcases List.mem_append.mp he with h | h
      · exact (h2 _ h).1
      · exact (teardownLog_quiet _ _ _ h).1.1
  · rename_i result module s2 heq
    cases hrun
    obtain ⟨evs, h1, h2⟩ := loadAndBind_inr_quiet _ _ _ _ _ _ _ _ _ _ heq
    obtain ⟨_, hres, _⟩ := loadAndBind_inr _ _ _ _ _ _ _ _ _ _ heq
    obtain ⟨F, hF, ft⟩ := finalizeAndEnter_trace os module userdata s2
    refine ⟨evs ++ (F ++ (if rd32 s2.mem (module.headers + off_AddressOfEntryPoint) ≠ 0 then
        [Event.dllEntry (module.codeBase +
          rd32 s2.mem (module.headers + off_AddressOfEntryPoint)) userdata]
      else [])) ++ teardownLog result module, ?_, ?_, ?_⟩
    · simp only [MemoryFreeLibrary_trace _ _ _ hres, ft, h1, List.append_assoc]
    · intro result' module' s2' h hne
      rw [heq] at h
      cases h
      refine ⟨evs ++ F, teardownLog result module, ?_, ?_, ?_⟩
      · rw [if_pos hne]
        simp only [List.append_assoc, List.singleton_append]
      · intro e he
        rcases List.mem_append.mp he with h | h
        · exact (h2 _ h).1
        · exact (Event.quiet_of_finalize (hF _ h)).1.1
      · intro e he
        exact ⟨(teardownLog_quiet _ _ _ he).1.1, (teardownLog_quiet _ _ _ he).2⟩
    · intro hz e he
      rw [if_neg (not_not.mpr (hz _ _ _ heq))] at he
      simp only [List.append_nil, List.mem_append] at he
      rcases he with (h | h) | h
      · exact (h2 _ h).1
      · exact (Event.quiet_of_finalize (hF _ h)).1.1
      · exact (teardownLog_quiet _ _ _ h).1.1

/-- C5, on the sample image (entry point `0x200`, loaded at `0x400000`). -/
theorem entry_point_called_once_witness :
    ∃ out, MemoryLoadLibraryEx sampleOS (sampleHost 0x7100 0x7200) 10 0x1000 0xBEEF
        ⟨sampleImage, []⟩ = some out ∧
      out.2.trace.filter Event.isEntry = [Event.dllEntry 0x400200 0xBEEF] ∧
      ∃ evs, out.2.trace = [] ++ evs ∧
      (∀ result module s2,
        loadAndBind sampleOS (sampleHost 0x7100 0x7200) 10 0x1000 0xBEEF ⟨sampleImage, []⟩ =
          some (Sum.inr (result, true, module, s2)) →
        rd32 s2.mem (module.headers + off_AddressOfEntryPoint) ≠ 0 →
        ∃ pre post,
          evs = pre ++ Event.dllEntry (module.codeBase +
            rd32 s2.mem (module.headers + off_AddressOfEntryPoint)) 0xBEEF :: post ∧
          (∀ e ∈ pre, e.isEntry = false) ∧
          (∀ e ∈ post, e.isEntry = false ∧ e.isImportCall = false)) ∧
      ((∀ result module s2,
          loadAndBind sampleOS (sampleHost 0x7100 0x7200) 10 0x1000 0xBEEF ⟨sampleImage, []⟩ =
            some (Sum.inr (result, true, module, s2)) →
          rd32 s2.mem (module.headers + off_AddressOfEntryPoint) = 0) →
        ∀ e ∈ evs, e.isEntry = false) := by
  cases hrun : MemoryLoadLibraryEx sampleOS (sampleHost 0x7100 0x7200) 10 0x1000 0xBEEF
      ⟨sampleImage, []⟩ with
  | none =>
    have : (MemoryLoadLibraryEx sampleOS (sampleHost 0x7100 0x7200) 10 0x1000 0xBEEF
      ⟨sampleImage, []⟩).isSome = true := by decide
    rw [hrun] at this
    cases this
  | some out =>
    have ht : (MemoryLoadLibraryEx sampleOS (sampleHost 0x7100 0x7200) 10 0x1000 0xBEEF
      ⟨sampleImage, []⟩).map (fun r => r.2.trace.filter Event.isEntry) =
        some [Event.dllEntry 0x400200 0xBEEF] := by decide
    rw [hrun] at ht
    exact ⟨out, rfl, by simpa using ht,
      entry_point_called_once sampleOS (sampleHost 0x7100 0x7200) 10 0x1000 0xBEEF
        ⟨sampleImage, []⟩ out hrun⟩

theorem freeModules_neutral (module : MEMORYMODULE) :
    ∀ e ∈ freeModules module, ∀ l0 : Ledger, l0.step e = some l0 := by
  intro e he l0
  unfold freeModules at he
  simp only [List.mem_filterMap] at he
  obtain ⟨i, _, hi⟩ := he
  split at hi
  · cases hi; rfl
  · cases hi

/-- Teardown gives back the handle array, the image region and the record. -/
theorem teardownLog_ledger (mod : Nat) (module : MEMORYMODULE) (hcode : module.codeBase ≠ 0)
    (l : Ledger) (regs blks : List Nat) (hr : l.regions = module.codeBase :: regs)
    (hb : l.blocks = blocksOf module (mod :: blks)) :
    l.run (teardownLog mod module) = some ⟨regs, blks⟩ := by
  unfold teardownLog
  rw [if_pos hcode]
  unfold blocksOf at hb
  obtain ⟨lr, lb⟩ := l
  simp only at hr hb
  subst hr
  by_cases hm : module.modules = 0
  · rw [if_pos hm] at hb
    subst hb
    simp [hm, Ledger.run, Ledger.step]
  · rw [if_neg hm] at hb
    subst hb
    rw [if_pos hm, List.append_assoc, List.append_assoc, Ledger.run_append,
      Ledger.run_neutral _ _ (freeModules_neutral module)]
    simp [Ledger.run, Ledger.step]

/-- C6: in every run of `MemoryLoadLibraryEx` that returns (each returns
`NULL`), the calls it logged leave the ledger of reserved regions and live heap
blocks exactly as it was: the region that was reserved, if any, is released
once, the record and the handle array are freed once, and nothing is released
that is not held.  This covers every failing stage: a bad signature, no region,
no record, and every way `BuildImportTable` can fail. -/
theorem failed_load_releases_everything (os : Win32) (cb : Callbacks)
    (fuel data userdata : Nat) (s : Machine) (out : Nat × Machine)
    (hrun : MemoryLoadLibraryEx os cb fuel data userdata s = some out) :
    out.1 = 0 ∧ ∃ evs, out.2.trace = s.trace ++ evs ∧ ∀ l : Ledger, l.run evs = some l := by
  refine ⟨MemoryLoadLibraryEx_null _ _ _ _ _ _ _ hrun, ?_⟩
  have key : ∀ (result : Nat) (r : Bool) (module : MEMORYMODULE) (s2 : Machine),
      loadAndBind os cb fuel data userdata s = some (Sum.inr (result, r, module, s2)) →
      result ≠ 0 ∧ module.codeBase ≠ 0 ∧ ∃ evs, s2.trace = s.trace ++ evs ∧ ∀ l : Ledger,
        ∃ l1, l.run evs = some l1 ∧ l1.regions = module.codeBase :: l.regions ∧
          l1.blocks = blocksOf module (result :: l.blocks) := by
    intro result r module s2 heq
    obtain ⟨_, hres, m0, s1, R, C, hc, hm, _, _, _, hR, hC, ht, hb⟩ :=
      loadAndBind_inr _ _ _ _ _ _ _ _ _ _ heq
    obtain ⟨hf, _, _⟩ := BuildImportTable_fields _ _ _ _ _ _ _ _ hb
    obtain ⟨B, bt, bl⟩ := BuildImportTable_ledger _ _ _ _ _ _ _ _ hb
    refine ⟨hres, by rw [hf]; exact hc, (R ++ Event.heapAlloc (sizeofMemoryModule os) result :: C)
      ++ B, by rw [bt, ht, List.append_assoc], ?_⟩
    intro l
    have h1 : l.run (R ++ Event.heapAlloc (sizeofMemoryModule os) result :: C) =
        some ⟨m0.codeBase :: l.regions, result :: l.blocks⟩ := by
      rw [Ledger.run_append, reserveLog_ledger hR, if_neg hc]
      simp only [Option.some_bind]
      rw [Ledger.run_cons]
      simp only [Ledger.step, if_pos hres, Option.some_bind]
      exact Ledger.run_neutral _ _ (fun e he => Ledger.step_commit e (hC e he))
    obtain ⟨l1, b1, b2, b3⟩ := bl ⟨m0.codeBase :: l.regions, result :: l.blocks⟩
      (result :: l.blocks) (by simp [blocksOf, hm])
    refine ⟨l1, ?_, by rw [b2, hf], b3⟩
    rw [Ledger.run_append, h1]
    exact b1
  unfold MemoryLoadLibraryEx at hrun
  split at hrun
  · cases hrun
  · rename_i s1 heq
    cases hrun
    rcases loadAndBind_inl _ _ _ _ _ _ _ heq with
      ⟨_, _, h3⟩ | ⟨_, R, h2, h3⟩ | ⟨_, c, R, hc, h2, h3⟩
    · exact ⟨_, h3, fun l => rfl⟩
    · refine ⟨_, h3, fun l => ?_⟩
      rw [Ledger.run_append, reserveLog_ledger h2]
      rfl
    · refine ⟨_, h3, fun l => ?_⟩
      rw [Ledger.run_append, reserveLog_ledger h2, if_neg hc]
      simp [Ledger.run, Ledger.step]
  · rename_i result module s2 heq
    cases hrun
    obtain ⟨hres, hcode, evs, h1, h2⟩ := key _ _ _ _ heq
    refine ⟨evs ++ teardownLog result module, ?_, fun l => ?_⟩
    · simp only [MemoryFreeLibrary_trace _ _ _ hres, h1, List.append_assoc]
    · obtain ⟨l1, a1, a2, a3⟩ := h2 l
      rw [Ledger.run_append, a1]
      exact teardownLog_ledger result module hcode l1 _ _ a2 a3
  · rename_i result module s2 heq
    cases hrun
    obtain ⟨hres, hcode, evs, h1, h2⟩ := key _ _ _ _ heq
    obtain ⟨F, hF, ft⟩ := finalizeAndEnter_trace os module userdata s2
    refine ⟨evs ++ ((F ++ (if rd32 s2.mem (module.headers + off_AddressOfEntryPoint) ≠ 0 then
        [Event.dllEntry (module.codeBase +
          rd32 s2.mem (module.headers + off_AddressOfEntryPoint)) userdata]
      else [])) ++ teardownLog result module), ?_, fun l => ?_⟩
    · simp only [MemoryFreeLibrary_trace _ _ _ hres, ft, h1, List.append_assoc]
    · obtain ⟨l1, a1, a2, a3⟩ := h2 l
      rw [Ledger.run_append, a1]
      simp only [Option.some_bind]
      rw [Ledger.run_append, Ledger.run_neutral]
      · exact teardownLog_ledger result module hcode l1 _ _ a2 a3
      · intro e he l0
        rcases List.mem_append.mp he with h | h
        · exact Ledger.step_finalize e (hF e h) l0
        · split at h
          · simp only [List.mem_singleton] at h
            subst h; rfl
          · simp at h

/-- C6, on the sample image when the second import cannot be resolved. -/
theorem failed_load_releases_everything_witness :
    ∃ out, MemoryLoadLibraryEx sampleOS (sampleHost 0x7100 0) 10 0x1000 0xBEEF
        ⟨sampleImage, []⟩ = some out ∧
      lastError out.2.trace = some ERROR_PROC_NOT_FOUND ∧
      out.1 = 0 ∧ ∃ evs, out.2.trace = [] ++ evs ∧ ∀ l : Ledger, l.run evs = some l := by
  cases hrun : MemoryLoadLibraryEx sampleOS (sampleHost 0x7100 0) 10 0x1000 0xBEEF
      ⟨sampleImage, []⟩ with
  | none =>
    have : (MemoryLoadLibraryEx sampleOS (sampleHost 0x7100 0) 10 0x1000 0xBEEF
      ⟨sampleImage, []⟩).isSome = true := by decide
    rw [hrun] at this
    cases this
  | some out =>
    have ht : (MemoryLoadLibraryEx sampleOS (sampleHost 0x7100 0) 10 0x1000 0xBEEF
      ⟨sampleImage, []⟩).map (fun r => lastError r.2.trace) =
        some (some ERROR_PROC_NOT_FOUND) := by decide
    rw [hrun] at ht
    exact ⟨out, rfl, by simpa using ht,
      failed_load_releases_everything sampleOS (sampleHost 0x7100 0) 10 0x1000 0xBEEF
        ⟨sampleImage, []⟩ out hrun⟩

theorem freeModules_eq_map (module : MEMORYMODULE) (hm : module.modules ≠ 0)
    (hnz : ∀ d ∈ dependencies module, d ≠ 0) :
    freeModules module =
      (dependencies module).map fun d => Event.freeLibrary d module.userdata := by
  unfold freeModules dependencies at *
  rw [if_neg hm] at hnz ⊢
  rw [List.map_map]
  generalize List.range module.numModules = idx at hnz ⊢
  induction idx with
  | nil => rfl
  | cons i idx ih =>
    have h0 : module.moduleArr.getD i 0 ≠ 0 := hnz _ (by simp)
    rw [List.filterMap_cons]
    simp only [h0, ne_eq, not_false_eq_true, if_true, List.map_cons, Function.comp]
    congr 1
    exact ih (fun d hd => hnz d (by
      simp only [List.map_cons, List.mem_cons]
      exact Or.inr hd))

/-- C10: `MemoryFreeLibrary` on a record whose dependency list
`modules[0 .. numModules)` holds non-null handles (line 296 only ever stores
such) logs `freeLibrary(d, userdata)` for each `d` of the list, in list order
(the order in which line 296 appended them), and only then releases the handle
array, the image region and the record. -/
theorem MemoryFreeLibrary_frees_in_append_order (mod : Nat) (module : MEMORYMODULE)
    (s : Machine) (hmod : mod ≠ 0) (hnz : ∀ d ∈ dependencies module, d ≠ 0) :
    (MemoryFreeLibrary mod module s).trace =
      s.trace ++ (dependencies module).map (fun d => Event.freeLibrary d module.userdata) ++
        releaseLog mod module := by
  rw [MemoryFreeLibrary_trace _ _ _ hmod]
  unfold teardownLog releaseLog
  by_cases hm : module.modules = 0
  · simp [hm, dependencies]
  · rw [if_pos hm, if_pos hm, freeModules_eq_map module hm hnz]
    simp only [List.append_assoc]

/-- C10, for a record with the dependency list `[0x7000, 0x7004, 0x7008]`. -/
theorem MemoryFreeLibrary_frees_in_append_order_witness :
    (MemoryFreeLibrary 0x500100
      { headers := 0x400040, codeBase := 0x400000, modules := 0x500400,
        moduleArr := [0x7000, 0x7004, 0x7008], numModules := 3, initialized := 0,
        userdata := 0xBEEF } ⟨sampleImage, []⟩).trace =
      [Event.freeLibrary 0x7000 0xBEEF, Event.freeLibrary 0x7004 0xBEEF,
        Event.freeLibrary 0x7008 0xBEEF, Event.heapFree 0x500400,
        Event.virtualFree 0x400000 0 MEM_RELEASE, Event.heapFree 0x500100] :=
  MemoryFreeLibrary_frees_in_append_order 0x500100
    { headers := 0x400040, codeBase := 0x400000, modules := 0x500400,
      moduleArr := [0x7000, 0x7004, 0x7008], numModules := 3, initialized := 0,
      userdata := 0xBEEF } ⟨sampleImage, []⟩ (by decide) (by decide)

/-! ## The failure modes of the import binder -/

theorem Event.not_failed_of_bound {e : Event} (h : e.bound = true) : e.failed = false := by
  cases e <;> simp [Event.bound] at h <;> simp [Event.failed, h]

theorem failureTail_not_failed {f : Event} {rest : List Event} (h : failureTail f rest) :
    ∀ e ∈ rest, e.failed = false := by
  cases f <;> simp only [failureTail] at h
  · subst h; simp [Event.failed]
  · subst h; simp [Event.failed]
  · obtain ⟨a, b, rfl⟩ := h; simp [Event.failed]
  · obtain ⟨a, b, rfl⟩ := h; simp [Event.failed]

/-- In a log that consists of successful calls, one failed call and events that
are no failed calls, a failed call can only be found at one place. -/
theorem first_failure_unique (good rest pre post : List Event) (f x : Event)
    (hgood : ∀ e ∈ good, e.failed = false) (hrest : ∀ e ∈ rest, e.failed = false)
    (hx : x.failed = true) (h : good ++ f :: rest = pre ++ x :: post) :
    pre = good ∧ x = f ∧ post = rest := by
  induction good generalizing pre with
  | nil =>
    cases pre with
    | nil =>
      simp only [List.nil_append, List.cons.injEq] at h
      exact ⟨rfl, h.1.symm, h.2.symm⟩
    | cons p pre =>
      simp only [List.nil_append, List.cons_append, List.cons.injEq] at h
      have : x ∈ rest := by rw [h.2]; simp
      rw [hrest x this] at hx
      cases hx
  | cons g good ih =>
    cases pre with
    | nil =>
      simp only [List.nil_append, List.cons_append, List.cons.injEq] at h
      have : g.failed = false := hgood g (List.mem_cons_self _ _)
      rw [h.1, hx] at this
      cases this
    | cons p pre =>
      simp only [List.cons_append, List.cons.injEq] at h
      obtain ⟨h1, h2, h3⟩ := ih pre (fun e he => hgood e (List.mem_cons_of_mem _ he)) h.2
      exact ⟨by rw [h.1, h1], h2, h3⟩

/-- C4: in every run of `BuildImportTable` that returns, with `evs` the calls
it logged: a `loadLibrary` call that returned `NULL` is followed by
`SetLastError(ERROR_MOD_NOT_FOUND)` and nothing else, and the result is 0; a
`getProcAddress` call that returned 0 is followed by `freeLibrary` on its
handle, `SetLastError(ERROR_PROC_NOT_FOUND)` and nothing else, and the result
is 0 (so no later thunk or descriptor is processed); and the result is 1
exactly when no `loadLibrary`, `getProcAddress`, `HeapAlloc` or `HeapReAlloc`
call returned null. -/
theorem BuildImportTable_failure_modes (os : Win32) (cb : Callbacks) (fuel : Nat)
    (module : MEMORYMODULE) (s : Machine) (out : Bool × MEMORYMODULE × Machine)
    (hrun : BuildImportTable os cb fuel module s = some out) :
    ∃ evs, out.2.2.trace = s.trace ++ evs ∧
      (∀ pre name ud post, evs = pre ++ Event.loadLibrary name ud 0 :: post →
        out.1 = false ∧ post = [Event.setLastError ERROR_MOD_NOT_FOUND] ∧
          lastError out.2.2.trace = some ERROR_MOD_NOT_FOUND) ∧
      (∀ pre handle key ud post, evs = pre ++ Event.getProcAddress handle key ud 0 :: post →
        out.1 = false ∧
          post = [Event.freeLibrary handle ud, Event.setLastError ERROR_PROC_NOT_FOUND] ∧
          lastError out.2.2.trace = some ERROR_PROC_NOT_FOUND) ∧
      (out.1 = true ↔ ∀ e ∈ evs, e.failed = false) := by
  obtain ⟨res, module', s'⟩ := out
  obtain ⟨evs, ht, hl⟩ := BuildImportTable_log _ _ _ _ _ _ _ _ hrun
  refine ⟨evs, ht, ?_⟩
  simp only
  unfold ImportLog at hl
  split at hl
  · rename_i hres
    have hnf : ∀ e ∈ evs, e.failed = false := fun e he => Event.not_failed_of_bound (hl e he)
    refine ⟨?_, ?_, ⟨fun _ => hnf, fun _ => hres⟩⟩
    · intro pre name ud post h
      have := hnf (Event.loadLibrary name ud 0) (by rw [h]; simp)
      simp [Event.failed] at this
    · intro pre handle key ud post h
      have := hnf (Event.getProcAddress handle key ud 0) (by rw [h]; simp)
      simp [Event.failed] at this
  · rename_i hres
    have hres : res = false := by simpa using hres
    obtain ⟨good, f, rest, h1, h2, h3, h4⟩ := hl
    have hgood : ∀ e ∈ good, e.failed = false := fun e he => Event.not_failed_of_bound (h2 e he)
    have hrest := failureTail_not_failed h4
    refine ⟨?_, ?_, ⟨fun h => (by rw [hres] at h; cases h), fun h => ?_⟩⟩
    · intro pre name ud post h
      rw [h1] at h
      obtain ⟨a1, a2, a3⟩ := first_failure_unique good rest pre post f
        (Event.loadLibrary name ud 0) hgood hrest rfl h
      subst a2
      simp only [failureTail] at h4
      refine ⟨hres, by rw [a3, h4], ?_⟩
      rw [ht, h1, h4]
      simp [lastError, List.foldl_append]
    · intro pre handle key ud post h
      rw [h1] at h
      obtain ⟨a1, a2, a3⟩ := first_failure_unique good rest pre post f
        (Event.getProcAddress handle key ud 0) hgood hrest rfl h
      subst a2
      simp only [failureTail] at h4
      refine ⟨hres, by rw [a3, h4], ?_⟩
      rw [ht, h1, h4]
      simp [lastError, List.foldl_append]
    · have := h f (by rw [h1]; simp)
      rw [h3] at this
      cases this

/-- The binder returns as soon as `loadLibrary` returns `NULL`: whatever fuel
is left, the trip through the descriptor loop ends the run with result 0. -/
theorem importLoop_returns_on_null_handle (os : Win32) (cb : Callbacks)
    (fuel importDesc : Nat) (module : MEMORYMODULE) (s : Machine)
    (hread : os.isBadReadPtr importDesc sizeofImportDescriptor = false)
    (hname : rd32 s.mem (importDesc + off_Name) ≠ 0)
    (hnull : (callLoadLibrary os cb (module.codeBase + rd32 s.mem (importDesc + off_Name))
      module.userdata s).1 = 0) :
    importLoop os cb (fuel + 1) importDesc module s =
      some (false, module,
        ((s.log (Event.loadLibrary (module.codeBase + rd32 s.mem (importDesc + off_Name))
          module.userdata 0)).log (Event.setLastError ERROR_MOD_NOT_FOUND))) := by
  simp only [importLoop, hread, hname, importDescriptor, hnull]
  simp [callLoadLibrary, Machine.log] at hnull ⊢
  simp [hnull]

/-- The thunk loop returns as soon as `getProcAddress` returns 0. -/
theorem bindThunks_returns_on_null_symbol (os : Win32) (cb : Callbacks)
    (module : MEMORYMODULE) (handle fuel thunkRef funcRef : Nat) (s : Machine)
    (hthunk : rdPtr os s.mem thunkRef ≠ 0)
    (hnull : (callGetProcAddress os cb handle
      (thunkKey os module.codeBase (rdPtr os s.mem thunkRef)) module.userdata s).1 = 0) :
    bindThunks os cb module handle (fuel + 1) thunkRef funcRef s =
      some (false, bindThunk os cb module handle (rdPtr os s.mem thunkRef) funcRef s) := by
  simp only [bindThunks, hthunk, bindThunk_readback, hnull, if_true, if_false]

/-- C4, on the sample image mapped at `0x1000` when ordinal 17 cannot be
resolved: the binder returns 0 with last error `ERROR_PROC_NOT_FOUND`. -/
theorem BuildImportTable_failure_modes_witness :
    ∃ out, BuildImportTable sampleOS (sampleHost 0x7100 0) 10
        (freshModule 0x1040 0x1000 0xBEEF) ⟨sampleImage, []⟩ = some out ∧
      out.1 = false ∧ lastError out.2.2.trace = some ERROR_PROC_NOT_FOUND ∧
      ∃ evs, out.2.2.trace = [] ++ evs ∧
      (∀ pre name ud post, evs = pre ++ Event.loadLibrary name ud 0 :: post →
        out.1 = false ∧ post = [Event.setLastError ERROR_MOD_NOT_FOUND] ∧
          lastError out.2.2.trace = some ERROR_MOD_NOT_FOUND) ∧
      (∀ pre handle key ud post, evs = pre ++ Event.getProcAddress handle key ud 0 :: post →
        out.1 = false ∧
          post = [Event.freeLibrary handle ud, Event.setLastError ERROR_PROC_NOT_FOUND] ∧
          lastError out.2.2.trace = some ERROR_PROC_NOT_FOUND) ∧
      (out.1 = true ↔ ∀ e ∈ evs, e.failed = false) := by
  cases hrun : BuildImportTable sampleOS (sampleHost 0x7100 0) 10
      (freshModule 0x1040 0x1000 0xBEEF) ⟨sampleImage, []⟩ with
  | none =>
    have : (BuildImportTable sampleOS (sampleHost 0x7100 0) 10
      (freshModule 0x1040 0x1000 0xBEEF) ⟨sampleImage, []⟩).isSome = true := by decide
    rw [hrun] at this
    cases this
  | some out =>
    have ht : (BuildImportTable sampleOS (sampleHost 0x7100 0) 10
      (freshModule 0x1040 0x1000 0xBEEF) ⟨sampleImage, []⟩).map
        (fun r => (r.1, lastError r.2.2.trace)) =
        some (false, some ERROR_PROC_NOT_FOUND) := by decide
    rw [hrun] at ht
    simp only [Option.map_some', Option.some.injEq, Prod.mk.injEq] at ht
    exact ⟨out, rfl, ht.1, ht.2,
      BuildImportTable_failure_modes sampleOS (sampleHost 0x7100 0) 10
        (freshModule 0x1040 0x1000 0xBEEF) ⟨sampleImage, []⟩ out hrun⟩

/-! ## The key passed to `getProcAddress` -/

theorem ptrBytes_cases (os : Win32) : ptrBytes os = 4 ∨ ptrBytes os = 8 := by
  unfold ptrBytes
  cases os.win64 <;> simp

theorem writeSlots_outside (os : Win32) (rs : List Nat) (m : Mem) (a x : Nat)
    (h : x < a ∨ a + ptrBytes os * rs.length ≤ x) : writeSlots os m a rs x = m x := by
  induction rs generalizing m a with
  | nil => rfl
  | cons r rs ih =>
    simp only [writeSlots]
    have hP := ptrBytes_pos os
    simp only [List.length_cons, Nat.mul_succ] at h
    rw [ih _ _ (by omega)]
    exact wrN_outside _ _ _ _ _ (by omega)

/-- Slot `i` of a filled-in table holds the `i`-th value. -/
theorem writeSlots_read (os : Win32) (rs : List Nat) (m : Mem) (a i : Nat) (hi : i < rs.length)
    (hr : ∀ r ∈ rs, r < ptrMod os) :
    rdPtr os (writeSlots os m a rs) (a + ptrBytes os * i) = rs.getD i 0 := by
  induction rs generalizing m a i with
  | nil => simp at hi
  | cons r rs ih =>
    simp only [writeSlots]
    cases i with
    | zero =>
      simp only [Nat.mul_zero, Nat.add_zero, List.getD_cons_zero]
      unfold rdPtr
      rw [rdN_congr _ _ (wrPtr os m a r) a (fun x hx1 hx2 =>
        writeSlots_outside os rs _ _ x (Or.inl hx2))]
      unfold wrPtr
      rw [rdN_wrN_same]
      exact Nat.mod_eq_of_lt (hr r (List.mem_cons_self _ _))
    | succ j =>
      simp only [List.getD_cons_succ]
      rw [show a + ptrBytes os * (j + 1) = (a + ptrBytes os) + ptrBytes os * j by
        rw [Nat.mul_succ]; omega]
      exact ih _ _ _ (by simpa using hi) (fun r1 h1 => hr r1 (List.mem_cons_of_mem _ h1))

theorem ThunkTable_congr (os : Win32) (ts : List Nat) (m m1 : Mem) (a : Nat)
    (h : ∀ x, a ≤ x → x < a + ptrBytes os * (ts.length + 1) → m1 x = m x)
    (ht : ThunkTable os m a ts) : ThunkTable os m1 a ts := by
  induction ts generalizing a with
  | nil =>
    simp only [ThunkTable] at ht ⊢
    rw [← ht]
    unfold rdPtr
    exact rdN_congr _ _ _ _ (fun x h1 h2 => h x h1 (by simpa using h2))
  | cons t ts ih =>
    simp only [ThunkTable] at ht ⊢
    have hP := ptrBytes_pos os
    simp only [List.length_cons, Nat.mul_succ] at h
    refine ⟨?_, ht.2.1, ih _ (fun x h1 h2 => h x (by omega) ?_) ht.2.2⟩
    · rw [← ht.1]
      unfold rdPtr
      exact rdN_congr _ _ _ _ (fun x h1 h2 => h x h1 (by omega))
    · simp only [Nat.mul_succ] at h2
      omega

/-- The first slot lies outside the name-table entries behind the first. -/
theorem SlotsClear_head (os : Win32) (funcRef thunkRef n : Nat)
    (h : SlotsClear os funcRef thunkRef (n + 1)) (x : Nat) (h1 : thunkRef + ptrBytes os ≤ x)
    (h2 : x < thunkRef + ptrBytes os + ptrBytes os * (n + 1)) :
    x < funcRef ∨ funcRef + ptrBytes os ≤ x := by
  have h0 := h 0 (Nat.succ_pos n)
  have hP := ptrBytes_pos os
  simp only [Nat.mul_zero, Nat.add_zero, Nat.zero_add, Nat.mul_one, Nat.sub_zero, Apart] at h0
  omega

theorem SlotsClear_step (os : Win32) (funcRef thunkRef n : Nat)
    (h : SlotsClear os funcRef thunkRef (n + 1)) :
    SlotsClear os (funcRef + ptrBytes os) (thunkRef + ptrBytes os) n := by
  intro i hi
  have hi1 := h (i + 1) (Nat.succ_lt_succ hi)
  rw [Nat.add_sub_add_right] at hi1
  rw [show funcRef + ptrBytes os + ptrBytes os * i = funcRef + ptrBytes os * (i + 1) by
      rw [Nat.mul_succ]; omega,
    show thunkRef + ptrBytes os + ptrBytes os * (i + 1) =
      thunkRef + ptrBytes os * (i + 1 + 1) by rw [Nat.mul_succ (ptrBytes os) (i + 1)]; omega]
  exact hi1

/-- Tables that are the same array, or that do not overlap, satisfy `SlotsClear`. -/
theorem SlotsClear_of_same_or_apart (os : Win32) (funcRef thunkRef n : Nat)
    (h : thunkRef = funcRef ∨
      Apart funcRef (ptrBytes os * n) thunkRef (ptrBytes os * (n + 1))) :
    SlotsClear os funcRef thunkRef n := by
  intro i hi
  have hP := ptrBytes_pos os
  have e1 : ptrBytes os * i + ptrBytes os ≤ ptrBytes os * n := by
    have := Nat.mul_le_mul_left (ptrBytes os) (show i + 1 ≤ n by omega)
    rwa [Nat.mul_succ] at this
  have e2 : ptrBytes os * (n - i) + ptrBytes os * i = ptrBytes os * n := by
    rw [← Nat.mul_add]
    congr 1
    omega
  simp only [Apart, Nat.mul_succ] at h ⊢
  rcases h with h | h
  · subst h
    omega
  · omega

/-- A successful run of the thunk loop over a name table `ts` whose cells are
not overwritten before they are read: one `getProcAddress` call per entry, in
order, each result non-zero and stored in the corresponding slot. -/
theorem bindThunks_static (os : Win32) (cb : Callbacks) (module : MEMORYMODULE) (handle : Nat)
    (ts : List Nat) : ∀ (fuel thunkRef funcRef : Nat) (s s' : Machine),
    ThunkTable os s.mem thunkRef ts → SlotsClear os funcRef thunkRef ts.length →
    bindThunks os cb module handle fuel thunkRef funcRef s = some (true, s') →
    ∃ rs, rs.length = ts.length ∧ (∀ r ∈ rs, r ≠ 0 ∧ r < ptrMod os) ∧
      s'.trace = s.trace ++ List.zipWith (fun t r =>
        Event.getProcAddress handle (thunkKey os module.codeBase t) module.userdata r) ts rs ∧
      s'.mem = writeSlots os s.mem funcRef rs := by
  induction ts with
  | nil =>
    intro fuel thunkRef funcRef s s' hT _ hrun
    cases fuel with
    | zero => simp [bindThunks] at hrun
    | succ n =>
      simp only [ThunkTable] at hT
      simp only [bindThunks, hT, if_true, Option.some.injEq, Prod.mk.injEq, true_and] at hrun
      subst hrun
      exact ⟨[], rfl, by simp, by simp, rfl⟩
  | cons t ts ih =>
    intro fuel thunkRef funcRef s s' hT hself hrun
    cases fuel with
    | zero => simp [bindThunks] at hrun
    | succ n =>
      simp only [ThunkTable] at hT
      obtain ⟨h1, h2, h3⟩ := hT
      have hne : rdPtr os s.mem thunkRef ≠ 0 := by rw [h1]; exact h2
      simp only [bindThunks, hne, if_false, bindThunk_readback] at hrun
      split at hrun
      · cases hrun
      · rename_i hret
        have hP := ptrBytes_pos os
        have hmem : (bindThunk os cb module handle (rdPtr os s.mem thunkRef) funcRef s).mem =
            wrPtr os s.mem funcRef (callGetProcAddress os cb handle
              (thunkKey os module.codeBase (rdPtr os s.mem thunkRef)) module.userdata s).1 := rfl
        have hT1 : ThunkTable os
            (bindThunk os cb module handle (rdPtr os s.mem thunkRef) funcRef s).mem
            (thunkRef + ptrBytes os) ts := by
          refine ThunkTable_congr os ts _ _ _ ?_ h3
          intro x hx1 hx2
          rw [hmem]
          exact wrN_outside _ _ _ _ _ (SlotsClear_head os _ _ _ hself x hx1 hx2)
        have hself1 : SlotsClear os (funcRef + ptrBytes os) (thunkRef + ptrBytes os) ts.length :=
          SlotsClear_step os _ _ _ hself
        obtain ⟨rs, r1, r2, r3, r4⟩ := ih n _ _ _ s' hT1 hself1 hrun
        refine ⟨(callGetProcAddress os cb handle
          (thunkKey os module.codeBase (rdPtr os s.mem thunkRef)) module.userdata s).1 :: rs,
          by simp [r1], ?_, ?_, ?_⟩
        · intro r hr
          rcases List.mem_cons.mp hr with h | h
          · subst h
            exact ⟨hret, Nat.mod_lt _ (ptrMod_pos os)⟩
          · exact r2 r h
        · rw [r3, bindThunk_trace, List.append_assoc, h1]
          rfl
        · rw [r4, hmem]
          rfl

/-! ## A successful run of the binder, described from the initial memory -/

theorem Apart_outside {a n b k x : Nat} (h : Apart a n b k) (h1 : b ≤ x) (h2 : x < b + k) :
    x < a ∨ a + n ≤ x := by
  unfold Apart at h
  omega

theorem Describes_congr (os : Win32) (es : List ImportEntry) (m m1 : Mem) (codeBase d : Nat)
    (hdesc : ∀ x, d ≤ x → x < d + sizeofImportDescriptor * (es.length + 1) → m1 x = m x)
    (hnt : ∀ e ∈ es, ∀ x, e.nt codeBase ≤ x → x < e.nt codeBase + e.ntSize os → m1 x = m x)
    (h : Describes os m codeBase d es) : Describes os m1 codeBase d es := by
  induction es generalizing d with
  | nil =>
    simp only [Describes] at h ⊢
    simp only [List.length_nil, sizeofImportDescriptor] at hdesc
    rcases h with h | h
    · exact Or.inl h
    · refine Or.inr ?_
      rw [← h]
      unfold rd32 off_Name
      exact rdN_congr _ _ _ _ (fun x h1 h2 => hdesc x (by omega) (by omega))
  | cons e es ih =>
    simp only [Describes] at h ⊢
    simp only [List.length_cons, sizeofImportDescriptor] at hdesc
    obtain ⟨h1, h2, h3, h4, h5, h6, h7⟩ := h
    refine ⟨h1, ?_, h3, ?_, ?_, ?_, ?_⟩
    · rw [← h2]
      unfold rd32 off_Name
      exact rdN_congr _ _ _ _ (fun x h1 h2 => hdesc x (by omega) (by omega))
    · rw [← h4]
      unfold rd32
      exact rdN_congr _ _ _ _ (fun x h1 h2 => hdesc x (by omega) (by omega))
    · rw [← h5]
      unfold rd32 off_FirstThunk
      exact rdN_congr _ _ _ _ (fun x h1 h2 => hdesc x (by omega) (by omega))
    · exact ThunkTable_congr os _ _ _ _ (hnt e (List.mem_cons_self _ _)) h6
    · refine ih _ (fun x h1 h2 => hdesc x ?_ ?_)
        (fun e1 he1 => hnt e1 (List.mem_cons_of_mem _ he1)) h7
      · simp only [sizeofImportDescriptor] at h1
        omega
      · simp only [sizeofImportDescriptor] at h1 h2
        omega

theorem appendModule_moduleArr (arr : List Nat) (k h : Nat) (hk : 0 < k) :
    ((arr ++ List.replicate k 0).take (arr.length + 1)).set arr.length h = arr ++ [h] := by
  induction arr with
  | nil =>
    cases k with
    | zero => omega
    | succ j => simp [List.replicate_succ]
  | cons a arr ih =>
    simp only [List.cons_append, List.length_cons, List.take_succ_cons, List.set_cons_succ, ih]

theorem appendModule_spec (module : MEMORYMODULE) (g h : Nat)
    (hlen : module.moduleArr.length = module.numModules) :
    (appendModule module g h).moduleArr = module.moduleArr ++ [h] ∧
    (appendModule module g h).numModules = module.numModules + 1 ∧
    (appendModule module g h).modules = g ∧
    (appendModule module g h).moduleArr.length = (appendModule module g h).numModules := by
  have key : (appendModule module g h).moduleArr = module.moduleArr ++ [h] := by
    unfold appendModule resizeArr
    simp only
    rw [← hlen]
    exact appendModule_moduleArr _ _ _ (by omega)
  refine ⟨key, rfl, rfl, ?_⟩
  rw [key]
  simp [appendModule, hlen]

/-- One successful trip through the body of the descriptor loop for a
descriptor that says `e`. -/
theorem importDescriptor_static (os : Win32) (cb : Callbacks) (fuel d : Nat)
    (module module1 : MEMORYMODULE) (s s1 : Machine) (e : ImportEntry)
    (hname : rd32 s.mem (d + off_Name) = e.name) (hoft : rd32 s.mem d = e.oft)
    (hft : rd32 s.mem (d + off_FirstThunk) = e.ft)
    (hT : ThunkTable os s.mem (module.codeBase + e.nameTable) e.thunks)
    (hself : SlotsClear os (e.iat module.codeBase) (e.nt module.codeBase) e.thunks.length)
    (hrun : importDescriptor os cb fuel d module s = some (true, module1, s1)) :
    ∃ h g rs, h ≠ 0 ∧ g ≠ 0 ∧ rs.length = e.thunks.length ∧
      (∀ r ∈ rs, r ≠ 0 ∧ r < ptrMod os) ∧ module1 = appendModule module g h ∧
      s1.trace = s.trace ++ (Event.loadLibrary (module.codeBase + e.name) module.userdata h ::
        growEvent os module g :: List.zipWith (fun t r =>
          Event.getProcAddress h (thunkKey os module.codeBase t) module.userdata r)
            e.thunks rs) ∧
      s1.mem = writeSlots os s.mem (module.codeBase + e.ft) rs := by
  unfold importDescriptor at hrun
  dsimp only at hrun
  rw [hname] at hrun
  generalize hl : callLoadLibrary os cb (module.codeBase + e.name) module.userdata s = l at hrun
  have hlt : l.2.trace = s.trace ++
      [Event.loadLibrary (module.codeBase + e.name) module.userdata l.1] := by
    rw [← hl]; rfl
  have hlm : l.2.mem = s.mem := by rw [← hl]; rfl
  split at hrun
  · cases hrun
  · rename_i hz
    obtain ⟨gm, gt⟩ := growModules_trace os module l.2
    generalize hg0 : growModules os module l.2 = g at hrun gm gt
    split at hrun
    · cases hrun
    · rename_i hg
      rw [gm, hlm, hoft, hft] at hrun
      have href : (if e.oft ≠ 0 then module.codeBase + e.oft else module.codeBase + e.ft) =
          module.codeBase + e.nameTable := by
        unfold ImportEntry.nameTable
        split <;> rfl
      rw [href] at hrun
      split at hrun
      · cases hrun
      · cases hrun
      · rename_i s3 hb
        cases hrun
        have hT2 : ThunkTable os g.2.mem (module.codeBase + e.nameTable) e.thunks := by
          rw [gm, hlm]; exact hT
        have hself2 : SlotsClear os (module.codeBase + e.ft) (module.codeBase + e.nameTable)
            e.thunks.length := hself
        obtain ⟨rs, r1, r2, r3, r4⟩ := bindThunks_static os cb _ l.1 e.thunks fuel _ _ _ _
          hT2 hself2 hb
        refine ⟨l.1, g.1, rs, hz, hg, r1, r2, rfl, ?_, ?_⟩
        · rw [r3, gt, hlt]
          simp only [List.append_assoc, List.singleton_append, appendModule_codeBase,
            appendModule_userdata]
          rfl
        · rw [r4, gm, hlm]

theorem filter_importCall_zipWith (os : Win32) (codeBase ud h : Nat) (ts rs : List Nat) :
    (List.zipWith (fun t r => Event.getProcAddress h (thunkKey os codeBase t) ud r) ts rs).filter
      Event.isImportCall =
    List.zipWith (fun t r => Event.getProcAddress h (thunkKey os codeBase t) ud r) ts rs := by
  rw [List.filter_eq_self]
  intro e he
  rw [List.mem_iff_get] at he
  obtain ⟨i, hi⟩ := he
  rw [← hi]
  simp [Event.isImportCall]

theorem growEvent_not_importCall (os : Win32) (module : MEMORYMODULE) (g : Nat) :
    (growEvent os module g).isImportCall = false := by
  unfold growEvent
  split <;> rfl

/-- The layout assumption `Layout` includes `ReadLayout`. -/
theorem Layout_read (os : Win32) (codeBase : Nat) (es : List ImportEntry) :
    ∀ d, Layout os codeBase d es → ReadLayout os codeBase d es := by
  induction es with
  | nil => intro d _; trivial
  | cons e es ih =>
    intro d h
    simp only [Layout] at h
    obtain ⟨l1, l2, l3, l4⟩ := h
    refine ⟨SlotsClear_of_same_or_apart os _ _ _ ?_, l2, fun e1 he1 => (l3 e1 he1).1, ih _ l4⟩
    rcases l1 with h | h
    · exact Or.inl (by unfold ImportEntry.nt ImportEntry.iat; rw [h])
    · exact Or.inr h

theorem ImportLayout_read (os : Win32) (m : Mem) (module : MEMORYMODULE)
    (es : List ImportEntry) (h : ImportLayout os m module es) :
    ImportReadLayout os m module es :=
  Layout_read os _ es _ h

/-- A successful run of the descriptor loop over descriptors that say `es`,
laid out so that no slot the binder writes is read afterwards: the descriptors
are bound in order, each by one `loadLibrary` call and one `getProcAddress`
call per thunk, and memory afterwards is the initial memory with the address
tables filled in. -/
theorem importLoop_static (os : Win32) (cb : Callbacks) (es : List ImportEntry) :
    ∀ (fuel d : Nat) (module module' : MEMORYMODULE) (s s' : Machine),
    Describes os s.mem module.codeBase d es → ReadLayout os module.codeBase d es →
    importLoop os cb fuel d module s = some (true, module', s') →
    ∃ bs evs, bs.map Binding.entry = es ∧
      (∀ b ∈ bs, b.handle ≠ 0 ∧ b.addrs.length = b.entry.thunks.length ∧
        ∀ r ∈ b.addrs, r ≠ 0 ∧ r < ptrMod os) ∧
      s'.trace = s.trace ++ evs ∧
      evs.filter Event.isImportCall = boundCalls os module.codeBase module.userdata bs ∧
      s'.mem = writeBindings os module.codeBase s.mem bs ∧
      module'.numModules = module.numModules + bs.length ∧
      (module.moduleArr.length = module.numModules →
        module'.moduleArr = module.moduleArr ++ bs.map Binding.handle) ∧
      (bs ≠ [] → module'.modules ≠ 0) ∧ (bs = [] → module' = module) := by
  induction es with
  | nil =>
    intro fuel d module module' s s' hD _ hrun
    cases fuel with
    | zero => simp [importLoop] at hrun
    | succ n =>
      simp only [Describes] at hD
      simp only [importLoop] at hrun
      have hstop : module' = module ∧ s' = s := by
        split at hrun
        · cases hrun; exact ⟨rfl, rfl⟩
        · split at hrun
          · cases hrun; exact ⟨rfl, rfl⟩
          · rename_i h1 h2
            rcases hD with h | h
            · exact absurd h h1
            · exact absurd h h2
      obtain ⟨rfl, rfl⟩ := hstop
      exact ⟨[], [], rfl, by simp, by simp, rfl, rfl, rfl, fun _ => by simp,
        fun h => absurd rfl h, fun _ => rfl⟩
  | cons e es ih =>
    intro fuel d module module' s s' hD hL hrun
    cases fuel with
    | zero => simp [importLoop] at hrun
    | succ n =>
      simp only [Describes] at hD
      obtain ⟨d1, d2, d3, d4, d5, d6, d7⟩ := hD
      simp only [ReadLayout] at hL
      obtain ⟨l1, l2, l3, l4⟩ := hL
      have hname : rd32 s.mem (d + off_Name) ≠ 0 := by rw [d2]; exact d3
      simp only [importLoop, d1, Bool.false_eq_true, if_false, hname] at hrun
      split at hrun
      · cases hrun
      · cases hrun
      · rename_i m1 s1 hd
        obtain ⟨h, g, rs, a1, a2, a3, a4, a5, a6, a7⟩ :=
          importDescriptor_static os cb n d module m1 s s1 e d2 d4 d5 d6 l1 hd
        have hcb : m1.codeBase = module.codeBase := by rw [a5]; rfl
        have hud : m1.userdata = module.userdata := by rw [a5]; rfl
        have hD1 : Describes os s1.mem m1.codeBase (d + sizeofImportDescriptor) es := by
          rw [hcb]
          refine Describes_congr os es s.mem s1.mem _ _ ?_ ?_ d7
          · intro x hx1 hx2
            rw [a7]
            refine writeSlots_outside os rs _ _ x ?_
            rw [a3]
            exact Apart_outside l2 hx1 hx2
          · intro e1 he1 x hx1 hx2
            rw [a7]
            refine writeSlots_outside os rs _ _ x ?_
            rw [a3]
            exact Apart_outside (l3 e1 he1) hx1 hx2
        have hL1 : ReadLayout os m1.codeBase (d + sizeofImportDescriptor) es := by
          rw [hcb]; exact l4
        obtain ⟨bs, evs, b1, b2, b3, b4, b5, b6, b7, b8, b9⟩ := ih n _ m1 module' s1 s' hD1 hL1 hrun
        refine ⟨⟨e, h, rs⟩ :: bs, (Event.loadLibrary (module.codeBase + e.name) module.userdata h ::
          growEvent os module g :: List.zipWith (fun t r =>
            Event.getProcAddress h (thunkKey os module.codeBase t) module.userdata r)
              e.thunks rs) ++ evs, ?_, ?_, ?_, ?_, ?_, ?_, ?_, ?_, ?_⟩
        · simp [b1]
        · intro b hb
          rcases List.mem_cons.mp hb with hb | hb
          · subst hb
            exact ⟨a1, a3, a4⟩
          · exact b2 b hb
        · rw [b3, a6, List.append_assoc]
        · rw [List.filter_append, b4, hcb, hud]
          have hg := growEvent_not_importCall os module g
          have hl : (Event.loadLibrary (module.codeBase + e.name) module.userdata h).isImportCall
              = true := rfl
          simp only [List.filter_cons, hg, hl, if_true, Bool.false_eq_true, if_false,
            filter_importCall_zipWith]
          rfl
        · rw [b5, a7, hcb]
          rfl
        · rw [b6, a5]
          simp only [appendModule, List.length_cons]
          omega
        · intro hlen
          have hs := appendModule_spec module g h hlen
          rw [← a5] at hs
          rw [b7 hs.2.2.2, hs.1]
          simp
        · intro _
          by_cases hbs : bs = []
          · rw [b9 hbs, a5]
            exact a2
          · exact b8 hbs
        · intro hbs
          cases hbs

/-- The same for `BuildImportTable`. -/
theorem BuildImportTable_static (os : Win32) (cb : Callbacks) (fuel : Nat)
    (module module' : MEMORYMODULE) (s s' : Machine) (es : List ImportEntry)
    (hT : ImportTable os s.mem module es) (hL : ImportReadLayout os s.mem module es)
    (hrun : BuildImportTable os cb fuel module s = some (true, module', s')) :
    ∃ bs evs, bs.map Binding.entry = es ∧
      (∀ b ∈ bs, b.handle ≠ 0 ∧ b.addrs.length = b.entry.thunks.length ∧
        ∀ r ∈ b.addrs, r ≠ 0 ∧ r < ptrMod os) ∧
      s'.trace = s.trace ++ evs ∧
      evs.filter Event.isImportCall = boundCalls os module.codeBase module.userdata bs ∧
      s'.mem = writeBindings os module.codeBase s.mem bs ∧
      module'.numModules = module.numModules + bs.length ∧
      (module.moduleArr.length = module.numModules →
        module'.moduleArr = module.moduleArr ++ bs.map Binding.handle) ∧
      (bs ≠ [] → module'.modules ≠ 0) ∧ (bs = [] → module' = module) := by
  unfold BuildImportTable at hrun
  unfold ImportTable at hT
  unfold ImportReadLayout at hL
  dsimp only at hrun
  split at hrun
  · rename_i hsz
    rw [if_pos hsz] at hT
    exact importLoop_static os cb es fuel _ module module' s s' hT hL hrun
  · rename_i hsz
    rw [if_neg hsz] at hT
    cases hrun
    subst hT
    exact ⟨[], [], rfl, by simp, by simp, rfl, rfl, rfl, fun _ => by simp,
      fun h => absurd rfl h, fun _ => rfl⟩

theorem writeBindings_outside (os : Win32) (codeBase : Nat) (bs : List Binding) (m : Mem)
    (x : Nat)
    (h : ∀ b ∈ bs, x < b.entry.iat codeBase ∨
      b.entry.iat codeBase + ptrBytes os * b.addrs.length ≤ x) :
    writeBindings os codeBase m bs x = m x := by
  induction bs generalizing m with
  | nil => rfl
  | cons b bs ih =>
    simp only [writeBindings]
    rw [ih _ (fun b1 h1 => h b1 (List.mem_cons_of_mem _ h1))]
    exact writeSlots_outside os _ _ _ x (h b (List.mem_cons_self _ _))

/-- After the address tables were filled in, and when the slots of different
descriptors do not overlap, slot `i` of a descriptor holds the `i`-th address
bound for it. -/
theorem writeBindings_read (os : Win32) (codeBase : Nat) (bs : List Binding) :
    ∀ (m : Mem) (d : Nat), Layout os codeBase d (bs.map Binding.entry) →
    (∀ b ∈ bs, b.addrs.length = b.entry.thunks.length ∧ ∀ r ∈ b.addrs, r < ptrMod os) →
    ∀ b ∈ bs, ∀ i < b.entry.thunks.length,
      rdPtr os (writeBindings os codeBase m bs) (b.entry.iat codeBase + ptrBytes os * i) =
        b.addrs.getD i 0 := by
  induction bs with
  | nil => intro m d _ _ b hb; cases hb
  | cons b0 bs ih =>
    intro m d hL hwf b hb i hi
    simp only [List.map_cons, Layout] at hL
    obtain ⟨_, _, l3, l4⟩ := hL
    simp only [writeBindings]
    rcases List.mem_cons.mp hb with hb | hb
    · subst hb
      have hlen := (hwf b (List.mem_cons_self _ _)).1
      have hP := ptrBytes_pos os
      unfold rdPtr
      rw [rdN_congr _ _ (writeSlots os m (b.entry.iat codeBase) b.addrs) _ (fun x hx1 hx2 => ?_)]
      · exact writeSlots_read os _ _ _ _ (by omega) (hwf b (List.mem_cons_self _ _)).2
      · refine writeBindings_outside os codeBase bs _ x (fun b1 hb1 => ?_)
        have hap := (l3 b1.entry (List.mem_map_of_mem _ hb1)).2
        have hlen1 := (hwf b1 (List.mem_cons_of_mem _ hb1)).1
        unfold Apart ImportEntry.iatSize at hap
        rw [hlen1]
        have h3 : ptrBytes os * i + ptrBytes os ≤ ptrBytes os * b.entry.thunks.length := by
          rw [← Nat.mul_succ]
          exact Nat.mul_le_mul_left _ hi
        rcases hap with h | h | h | h
        · have := Nat.mul_eq_zero.mp h
          omega
        · rw [h]; omega
        · omega
        · omega
    · exact ih _ _ l4 (fun b1 h1 => hwf b1 (List.mem_cons_of_mem _ h1)) b hb i hi

/-! ## Settled claims about a successful import bind -/

/-- C7 (as amended): if `BuildImportTable` returns 1 for an import directory
whose descriptors, up to the first one that `IsBadReadPtr` reports unreadable
or whose `Name` is 0, say `es`, and if for each descriptor the name table and
the address table are the same array or do not overlap and the address-table
slots written for it overlap neither the descriptors that follow it nor the
name table or address table of a later descriptor, then the host calls made
are those of `boundCalls`: for each descriptor one `loadLibrary` call and one
`getProcAddress` call per thunk, in order; and afterwards, for every
descriptor and every index `i` below the first zero entry of its name table,
slot `i` of the address table at `codeBase + FirstThunk` holds the value that
the `getProcAddress` call for thunk `i` returned, which is not 0. -/
theorem address_table_filled (os : Win32) (cb : Callbacks) (fuel : Nat)
    (module module' : MEMORYMODULE) (s s' : Machine) (es : List ImportEntry)
    (hT : ImportTable os s.mem module es) (hL : ImportLayout os s.mem module es)
    (hrun : BuildImportTable os cb fuel module s = some (true, module', s')) :
    ∃ (bs : List Binding) (evs : List Event), bs.map Binding.entry = es ∧ s'.trace = s.trace ++ evs ∧
      evs.filter Event.isImportCall = boundCalls os module.codeBase module.userdata bs ∧
      ∀ b ∈ bs, b.addrs.length = b.entry.thunks.length ∧
        ∀ i < b.entry.thunks.length,
          rdPtr os s'.mem (module.codeBase + b.entry.ft + ptrBytes os * i) = b.addrs.getD i 0 ∧
          b.addrs.getD i 0 ≠ 0 := by
  obtain ⟨bs, evs, b1, b2, b3, b4, b5, _⟩ :=
    BuildImportTable_static os cb fuel module module' s s' es hT
      (ImportLayout_read os _ _ _ hL) hrun
  refine ⟨bs, evs, b1, b3, b4, fun b hb => ⟨(b2 b hb).2.1, fun i hi => ⟨?_, ?_⟩⟩⟩
  · rw [b5]
    unfold ImportLayout at hL
    rw [← b1] at hL
    exact writeBindings_read os module.codeBase bs s.mem _ hL
      (fun b1 h1 => ⟨(b2 b1 h1).2.1, fun r hr => ((b2 b1 h1).2.2 r hr).2⟩) b hb i hi
  · have hlen := (b2 b hb).2.1
    have hmem : b.addrs.getD i 0 ∈ b.addrs := by
      rw [List.getD_eq_getElem _ _ (by omega)]
      exact List.getElem_mem _
    exact ((b2 b hb).2.2 _ hmem).1

/-- C7 fails as stated.  (1) In `sharedIatImage` the name table and the address
table of each of the two descriptors do not overlap, but both descriptors use
the address table at RVA `0x1A0`: the binder returns 1, the call for thunk 0
of the first descriptor returned `0x811D2`, and the slot holds `0x811E2`, the
value returned for the second descriptor.  (2) With `IsBadReadPtr` reporting
the second descriptor of `twoLibImage` unreadable (its last field lies beyond
the readable range) although its `Name` is not 0, the binder returns 1 without
a call for that descriptor, and slot 0 of its address table still holds the
thunk `0x1E0`. -/
theorem address_table_counterexample :
    (Apart 0x11A0 4 0x1180 8 ∧ Apart 0x11A0 4 0x11B0 8 ∧
      Describes sampleOS sharedIatImage 0x1000 0x1150
        [{ oft := 0x180, name := 0x190, ft := 0x1A0, thunks := [0x1D0] },
         { oft := 0x1B0, name := 0x194, ft := 0x1A0, thunks := [0x1E0] }] ∧
      (BuildImportTable sampleOS echoHost 10 (freshModule 0x1040 0x1000 0xBEEF)
        ⟨sharedIatImage, []⟩).map
        (fun r => (r.1, r.2.2.trace.filter Event.isImportCall, rd32 r.2.2.mem 0x11A0)) =
      some (true,
        [Event.loadLibrary 0x1190 0xBEEF 0x71190,
         Event.getProcAddress 0x71190 0x11D2 0xBEEF 0x811D2,
         Event.loadLibrary 0x1194 0xBEEF 0x71194,
         Event.getProcAddress 0x71194 0x11E2 0xBEEF 0x811E2], 0x811E2)) ∧
    (rd32 twoLibImage (0x1164 + off_Name) = 0x194 ∧
      rd32 twoLibImage (0x1178 + off_Name) = 0 ∧
      (BuildImportTable (limitedOS 0x1174) echoHost 10 (freshModule 0x1040 0x1000 0xBEEF)
        ⟨twoLibImage, []⟩).map
        (fun r => (r.1, r.2.2.trace.filter Event.isImportCall, rd32 r.2.2.mem 0x11C0)) =
      some (true,
        [Event.loadLibrary 0x1190 0xBEEF 0x71190,
         Event.getProcAddress 0x71190 0x11D2 0xBEEF 0x811D2], 0x1E0)) := by
  decide

/-- C7 (as amended), on `twoLibImage`: both address tables are filled in. -/
theorem address_table_filled_witness :
    ∃ out, BuildImportTable sampleOS echoHost 10 (freshModule 0x1040 0x1000 0xBEEF)
        ⟨twoLibImage, []⟩ = some out ∧
      rd32 out.2.2.mem 0x11A0 = 0x811D2 ∧ rd32 out.2.2.mem 0x11C0 = 0x811E2 ∧
      ∃ (bs : List Binding) (evs : List Event), bs.map Binding.entry = twoLibEntries ∧ out.2.2.trace = [] ++ evs ∧
        evs.filter Event.isImportCall = boundCalls sampleOS 0x1000 0xBEEF bs ∧
        ∀ b ∈ bs, b.addrs.length = b.entry.thunks.length ∧
          ∀ i < b.entry.thunks.length,
            rdPtr sampleOS out.2.2.mem (0x1000 + b.entry.ft + ptrBytes sampleOS * i) =
              b.addrs.getD i 0 ∧ b.addrs.getD i 0 ≠ 0 := by
  cases hrun : BuildImportTable sampleOS echoHost 10 (freshModule 0x1040 0x1000 0xBEEF)
      ⟨twoLibImage, []⟩ with
  | none =>
    have : (BuildImportTable sampleOS echoHost 10 (freshModule 0x1040 0x1000 0xBEEF)
      ⟨twoLibImage, []⟩).isSome = true := by decide
    rw [hrun] at this
    cases this
  | some out =>
    obtain ⟨r, m1, s1⟩ := out
    have ht : (BuildImportTable sampleOS echoHost 10 (freshModule 0x1040 0x1000 0xBEEF)
      ⟨twoLibImage, []⟩).map (fun r => (r.1, rd32 r.2.2.mem 0x11A0, rd32 r.2.2.mem 0x11C0)) =
        some (true, 0x811D2, 0x811E2) := by decide
    rw [hrun] at ht
    simp only [Option.map_some', Option.some.injEq, Prod.mk.injEq] at ht
    obtain ⟨h1, h2, h3⟩ := ht
    subst h1
    exact ⟨_, rfl, h2, h3,
      address_table_filled sampleOS echoHost 10 (freshModule 0x1040 0x1000 0xBEEF) m1
        ⟨twoLibImage, []⟩ s1 twoLibEntries (by decide) (by decide) hrun⟩

theorem filter_isLoad_boundCalls (os : Win32) (codeBase ud : Nat) (bs : List Binding) :
    (boundCalls os codeBase ud bs).filter Event.isLoad =
      bs.map fun b => Event.loadLibrary (codeBase + b.entry.name) ud b.handle := by
  induction bs with
  | nil => rfl
  | cons b bs ih =>
    have hz : (List.zipWith (fun t r =>
        Event.getProcAddress b.handle (thunkKey os codeBase t) ud r) b.entry.thunks b.addrs).filter
          Event.isLoad = [] := by
      rw [List.filter_eq_nil_iff]
      intro e he
      rw [List.mem_iff_get] at he
      obtain ⟨i, hi⟩ := he
      rw [← hi]
      simp [Event.isLoad]
    have hl : (Event.loadLibrary (codeBase + b.entry.name) ud b.handle).isLoad = true := rfl
    simp only [boundCalls, Binding.calls, List.cons_append, List.map_cons, List.filter_cons, hl,
      if_true, List.filter_append, hz, ih, List.nil_append]

theorem filter_isLoad_of_importCall (evs : List Event) :
    evs.filter Event.isLoad = (evs.filter Event.isImportCall).filter Event.isLoad := by
  rw [List.filter_filter]
  congr 1
  funext e
  cases e <;> rfl

theorem range_map_getD (l : List Nat) :
    (List.range l.length).map (fun i => l.getD i 0) = l := by
  apply List.ext_getElem
  · simp
  · intro i h1 h2
    simp only [List.getElem_map, List.getElem_range]
    exact List.getD_eq_getElem _ _ h2

/-- C9 (as amended): if `BuildImportTable`, called on the record
`MemoryLoadLibraryEx` has just created (no handle array yet), returns 1 for
an import directory whose descriptors, up to the first one that
`IsBadReadPtr` reports unreadable or whose `Name` is 0, say `es` (none when
the directory's `Size` is 0), and no address-table slot the binder writes
overlaps a descriptor or a name-table entry that is read after the slot is
written (`ImportReadLayout`; address tables may overlap one another, and the
name table and address table of a descriptor may be the same array), then the
`loadLibrary` calls are exactly one per descriptor in array order, the call
for a descriptor having the arguments `codeBase + Name` and `userdata`, also
when names repeat; afterwards `numModules` is the number of those descriptors
and `modules[0 .. numModules)` holds the handles returned, in call order. -/
theorem load_calls_follow_descriptors (os : Win32) (cb : Callbacks) (fuel : Nat)
    (module module' : MEMORYMODULE) (s s' : Machine) (es : List ImportEntry)
    (hT : ImportTable os s.mem module es) (hL : ImportReadLayout os s.mem module es)
    (hfresh : module.modules = 0 ∧ module.numModules = 0 ∧ module.moduleArr = [])
    (hrun : BuildImportTable os cb fuel module s = some (true, module', s')) :
    ∃ (bs : List Binding) (evs : List Event), bs.map Binding.entry = es ∧ s'.trace = s.trace ++ evs ∧
      evs.filter Event.isLoad =
        bs.map (fun b => Event.loadLibrary (module.codeBase + b.entry.name) module.userdata
          b.handle) ∧
      module'.numModules = es.length ∧ dependencies module' = bs.map Binding.handle := by
  obtain ⟨bs, evs, b1, _, b3, b4, _, b6, b7, b8, b9⟩ :=
    BuildImportTable_static os cb fuel module module' s s' es hT hL hrun
  obtain ⟨f1, f2, f3⟩ := hfresh
  refine ⟨bs, evs, b1, b3, ?_, ?_, ?_⟩
  · rw [filter_isLoad_of_importCall, b4, filter_isLoad_boundCalls]
  · rw [b6, f2, ← b1]
    simp
  · by_cases hbs : bs = []
    · rw [b9 hbs]
      simp [dependencies, f1, hbs]
    · have harr := b7 (by rw [f3, f2]; rfl)
      rw [f3, List.nil_append] at harr
      unfold dependencies
      rw [if_neg (b8 hbs), b6, f2, harr, Nat.zero_add]
      have := range_map_getD (bs.map Binding.handle)
      rw [List.length_map] at this
      exact this

/-- C9 fails as stated.  (1) With `IsBadReadPtr` reporting the second
descriptor of `twoLibImage` unreadable (its last field lies beyond the readable
range), the binder returns 1 after a single `loadLibrary` call and `numModules`
is 1, although two descriptors precede the first one whose `Name` is 0.  (2) In
`clobberImage` the address table of the first descriptor lies on the `Name`
field of the second (`0x194` in the image): the second `loadLibrary` call has
the argument `codeBase + 0x811D2`, not `codeBase + 0x194`. -/
theorem load_calls_counterexample :
    (rd32 twoLibImage (0x1150 + off_Name) = 0x190 ∧
      rd32 twoLibImage (0x1164 + off_Name) = 0x194 ∧
      rd32 twoLibImage (0x1178 + off_Name) = 0 ∧
      (BuildImportTable (limitedOS 0x1174) echoHost 10 (freshModule 0x1040 0x1000 0xBEEF)
        ⟨twoLibImage, []⟩).map
        (fun r => (r.1, r.2.2.trace.filter Event.isLoad, r.2.1.numModules)) =
      some (true, [Event.loadLibrary 0x1190 0xBEEF 0x71190], 1)) ∧
    (rd32 clobberImage (0x1150 + off_Name) = 0x190 ∧
      rd32 clobberImage (0x1164 + off_Name) = 0x194 ∧
      rd32 clobberImage (0x1178 + off_Name) = 0 ∧
      (BuildImportTable sampleOS echoHost 10 (freshModule 0x1040 0x1000 0xBEEF)
        ⟨clobberImage, []⟩).map
        (fun r => (r.1, r.2.2.trace.filter Event.isLoad, r.2.1.numModules)) =
      some (true, [Event.loadLibrary 0x1190 0xBEEF 0x71190,
        Event.loadLibrary (0x1000 + 0x811D2) 0xBEEF (0x70000 + 0x1000 + 0x811D2)], 2)) := by
  decide

/-- C9 (as amended), on `sharedIatImage`, whose two descriptors name the same
address table: the layout assumption of C7 fails for it, the one of C9 holds,
and the binder calls `loadLibrary` once for each descriptor, in order. -/
theorem load_calls_follow_descriptors_witness :
    ¬ ImportLayout sampleOS sharedIatImage (freshModule 0x1040 0x1000 0xBEEF) sharedIatEntries ∧
    ∃ out, BuildImportTable sampleOS echoHost 10 (freshModule 0x1040 0x1000 0xBEEF)
        ⟨sharedIatImage, []⟩ = some out ∧
      out.2.2.trace.filter Event.isLoad =
        [Event.loadLibrary 0x1190 0xBEEF 0x71190, Event.loadLibrary 0x1194 0xBEEF 0x71194] ∧
      ∃ (bs : List Binding) (evs : List Event), bs.map Binding.entry = sharedIatEntries ∧ out.2.2.trace = [] ++ evs ∧
        evs.filter Event.isLoad =
          bs.map (fun b => Event.loadLibrary (0x1000 + b.entry.name) 0xBEEF b.handle) ∧
        out.2.1.numModules = sharedIatEntries.length ∧
        dependencies out.2.1 = bs.map Binding.handle := by
  refine ⟨by decide, ?_⟩
  cases hrun : BuildImportTable sampleOS echoHost 10 (freshModule 0x1040 0x1000 0xBEEF)
      ⟨sharedIatImage, []⟩ with
  | none =>
    have : (BuildImportTable sampleOS echoHost 10 (freshModule 0x1040 0x1000 0xBEEF)
      ⟨sharedIatImage, []⟩).isSome = true := by decide
    rw [hrun] at this
    cases this
  | some out =>
    obtain ⟨r, m1, s1⟩ := out
    have ht : (BuildImportTable sampleOS echoHost 10 (freshModule 0x1040 0x1000 0xBEEF)
      ⟨sharedIatImage, []⟩).map (fun r => (r.1, r.2.2.trace.filter Event.isLoad)) =
        some (true, [Event.loadLibrary 0x1190 0xBEEF 0x71190,
          Event.loadLibrary 0x1194 0xBEEF 0x71194]) := by decide
    rw [hrun] at ht
    simp only [Option.map_some', Option.some.injEq, Prod.mk.injEq] at ht
    obtain ⟨h1, h2⟩ := ht
    subst h1
    exact ⟨_, rfl, h2,
      load_calls_follow_descriptors sampleOS echoHost 10 (freshModule 0x1040 0x1000 0xBEEF) m1
        ⟨sharedIatImage, []⟩ s1 sharedIatEntries (by decide) (by decide) ⟨rfl, rfl, rfl⟩ hrun⟩

/-! ## Supporting facts -/

theorem rd16_lt (m : Mem) (a : Nat) : rd16 m a < 65536 := by
  have := rdN_lt 2 m a
  simpa [rd16] using this

/-- The fuel given to the loop of `CopySections` is never used up: more fuel
does not change the result. -/
theorem copySectionsLoop_fuel (os : Win32) (data old_headers : Nat) (module : MEMORYMODULE)
    (fuel i sec : Nat) (s : Machine) (h : 65536 ≤ i + fuel) :
    copySectionsLoop os data old_headers module (fuel + 1) i sec s =
      copySectionsLoop os data old_headers module fuel i sec s := by
  induction fuel generalizing i sec s with
  | zero =>
    have := rd16_lt s.mem (module.headers + off_NumberOfSections)
    simp only [copySectionsLoop]
    rw [if_neg (by omega)]
  | succ n ih =>
    rw [copySectionsLoop]
    conv_rhs => rw [copySectionsLoop]
    split
    · exact ih _ _ _ (by omega)
    · rfl

/-- The fuel given to the loop of `FinalizeSections` is never used up. -/
theorem finalizeSectionsLoop_fuel (module : MEMORYMODULE) (imgOff fuel i sec : Nat)
    (s : Machine) (h : 65536 ≤ i + fuel) :
    finalizeSectionsLoop module imgOff (fuel + 1) i sec s =
      finalizeSectionsLoop module imgOff fuel i sec s := by
  induction fuel generalizing i sec s with
  | zero =>
    have := rd16_lt s.mem (module.headers + off_NumberOfSections)
    simp only [finalizeSectionsLoop]
    rw [if_neg (by omega)]
  | succ n ih =>
    rw [finalizeSectionsLoop]
    conv_rhs => rw [finalizeSectionsLoop]
    split
    · exact ih _ _ _ (by omega)
    · rfl

/-- Every handle the import binder stores in `modules` is non-null: a record
whose dependency list holds non-null handles keeps that property, however
`BuildImportTable` returns. -/
theorem BuildImportTable_dependencies_nonnull (os : Win32) (cb : Callbacks) (fuel : Nat)
    (module module' : MEMORYMODULE) (s s' : Machine) (res : Bool)
    (hlen : module.moduleArr.length = module.numModules)
    (hnz : ∀ d ∈ module.moduleArr, d ≠ 0)
    (h : BuildImportTable os cb fuel module s = some (res, module', s')) :
    ∀ d ∈ dependencies module', d ≠ 0 := by
  have hstep : ∀ (m : MEMORYMODULE) (g hd : Nat), hd ≠ 0 →
      (m.moduleArr.length = m.numModules ∧ ∀ d ∈ m.moduleArr, d ≠ 0) →
      ((appendModule m g hd).moduleArr.length = (appendModule m g hd).numModules ∧
        ∀ d ∈ (appendModule m g hd).moduleArr, d ≠ 0) := by
    intro m g hd hh hm
    obtain ⟨a1, _, _, a4⟩ := appendModule_spec m g hd hm.1
    refine ⟨a4, fun d hd1 => ?_⟩
    rw [a1] at hd1
    rcases List.mem_append.mp hd1 with h1 | h1
    · exact hm.2 d h1
    · simp only [List.mem_singleton] at h1
      rw [h1]; exact hh
  obtain ⟨_, _, key⟩ := BuildImportTable_induction os cb
    (fun _ m m' _ => (m.moduleArr.length = m.numModules ∧ ∀ d ∈ m.moduleArr, d ≠ 0) →
      (m'.moduleArr.length = m'.numModules ∧ ∀ d ∈ m'.moduleArr, d ≠ 0))
    (fun m hm => hm)
    (fun m m1 e1 h1 hm => by
      cases h1 with
      | modNotFound name => exact hm
      | outOfMemory name hd hh => exact hm
      | procNotFound name hd g hh hg syms hs key => exact hstep m g hd hh hm)
    (fun r m m1 m2 e1 e2 h1 h2 hm => by
      cases h1 with
      | bound name hd g hh hg syms hs => exact h2 (hstep m g hd hh hm))
    _ _ _ _ _ _ h
  obtain ⟨k1, k2⟩ := key ⟨hlen, hnz⟩
  intro d hd
  unfold dependencies at hd
  split at hd
  · cases hd
  · simp only [List.mem_map, List.mem_range] at hd
    obtain ⟨i, hi, rfl⟩ := hd
    rw [List.getD_eq_getElem _ _ (by omega)]
    exact k2 _ (List.getElem_mem _)

/-! ## The order of teardown -/

theorem loadReturns_append (a b : List Event) :
    loadReturns (a ++ b) = loadReturns a ++ loadReturns b := by
  simp [loadReturns, List.filterMap_append]

theorem freedHandles_append (a b : List Event) :
    freedHandles (a ++ b) = freedHandles a ++ freedHandles b := by
  simp [freedHandles, List.filterMap_append]

theorem loadReturns_growEvent (os : Win32) (m : MEMORYMODULE) (g : Nat) :
    loadReturns [growEvent os m g] = [] := by
  unfold growEvent
  split <;> rfl

theorem loadReturns_getProcOk (h ud : Nat) (syms : List Event)
    (hs : ∀ e ∈ syms, GetProcOk h ud e) : loadReturns syms = [] := by
  induction syms with
  | nil => rfl
  | cons e syms ih =>
    obtain ⟨key, ret, _, rfl⟩ := hs e (List.mem_cons_self _ _)
    have := ih (fun x hx => hs x (List.mem_cons_of_mem _ hx))
    simpa [loadReturns] using this

theorem freedHandles_releaseLog (mod : Nat) (module : MEMORYMODULE) :
    freedHandles (releaseLog mod module) = [] := by
  unfold releaseLog
  by_cases h1 : module.modules = 0 <;> by_cases h2 : module.codeBase = 0 <;>
    simp [h1, h2, freedHandles]

theorem freedHandles_map_free (ds : List Nat) (ud : Nat) :
    freedHandles (ds.map fun d => Event.freeLibrary d ud) = ds := by
  induction ds with
  | nil => rfl
  | cons d ds ih => simpa [freedHandles] using ih

/-- On a successful bind, the handle array grows by the handles `loadLibrary`
returned, in call order. -/
theorem BuildImportTable_loads (os : Win32) (cb : Callbacks) (fuel : Nat)
    (module module' : MEMORYMODULE) (s s' : Machine)
    (hlen : module.moduleArr.length = module.numModules)
    (h : BuildImportTable os cb fuel module s = some (true, module', s')) :
    ∃ evs, s'.trace = s.trace ++ evs ∧
      module'.moduleArr = module.moduleArr ++ loadReturns evs ∧
      module'.numModules = module'.moduleArr.length ∧
      (loadReturns evs = [] → module' = module) ∧
      (loadReturns evs ≠ [] → module'.modules ≠ 0) := by
  obtain ⟨evs, ht, key⟩ := BuildImportTable_induction os cb
    (fun r m m' evs => r = true → m.moduleArr.length = m.numModules →
      (m'.moduleArr = m.moduleArr ++ loadReturns evs ∧
        m'.numModules = m'.moduleArr.length ∧
        (loadReturns evs = [] → m' = m) ∧ (loadReturns evs ≠ [] → m'.modules ≠ 0)))
    (fun m _ _ => ⟨by simp [loadReturns], by omega, fun _ => rfl, fun h => absurd rfl h⟩)
    (fun m m1 e1 _ hr => by cases hr)
    (fun r m m1 m2 e1 e2 h1 h2 hr hm => by
      cases h1 with
      | bound name hd g hh hg syms hs =>
        obtain ⟨a1, _, a3, a4⟩ := appendModule_spec m g hd hm
        obtain ⟨b1, b2, b3, b4⟩ := h2 hr a4
        have hl : loadReturns (Event.loadLibrary name m.userdata hd :: growEvent os m g :: syms) =
            [hd] := by
          have e1 : Event.loadLibrary name m.userdata hd :: growEvent os m g :: syms =
              [Event.loadLibrary name m.userdata hd] ++ ([growEvent os m g] ++ syms) := rfl
          rw [e1, loadReturns_append, loadReturns_append, loadReturns_growEvent,
            loadReturns_getProcOk hd m.userdata syms hs]
          rfl
        rw [loadReturns_append, hl]
        refine ⟨by rw [b1, a1, List.append_assoc], b2, fun h0 => by simp at h0, fun _ => ?_⟩
        by_cases h0 : loadReturns e2 = []
        · rw [b3 h0, a3]
          exact hg
        · exact b4 h0)
    _ _ _ _ _ _ h
  exact ⟨evs, ht, key rfl hlen⟩

/-- C11 fails: binding `twoLibImage` loads the handles `0x71190` and `0x71194`
in this order, and the teardown of the record then calls `freeLibrary` on
`0x71190` first and on `0x71194` last, the order of acquisition and not its
opposite. -/
theorem teardown_order_counterexample :
    (BuildImportTable sampleOS echoHost 10 (freshModule 0x1040 0x1000 0xBEEF)
      ⟨twoLibImage, []⟩).map
      (fun r => (r.1, loadReturns r.2.2.trace,
        freedHandles ((MemoryFreeLibrary 0x500100 r.2.1 r.2.2).trace.drop r.2.2.trace.length))) =
      some (true, [0x71190, 0x71194], [0x71190, 0x71194]) ∧
    [0x71190, 0x71194] ≠ [0x71190, 0x71194].reverse := by
  decide

/-- C11 (as amended): when `BuildImportTable` has succeeded on the record
`MemoryLoadLibraryEx` creates, `MemoryFreeLibrary` calls `freeLibrary` on
exactly the handles `loadLibrary` returned, in the order in which they were
returned: on the first one first and on the last one last. -/
theorem MemoryFreeLibrary_frees_in_load_order (os : Win32) (cb : Callbacks) (fuel : Nat)
    (headers codeBase userdata mod : Nat) (module' : MEMORYMODULE) (s s' : Machine)
    (hrun : BuildImportTable os cb fuel (freshModule headers codeBase userdata) s =
      some (true, module', s'))
    (hmod : mod ≠ 0) :
    freedHandles ((MemoryFreeLibrary mod module' s').trace.drop s'.trace.length) =
      loadReturns (s'.trace.drop s.trace.length) := by
  obtain ⟨evs, ht, k1, k2, k3, k4⟩ :=
    BuildImportTable_loads os cb fuel _ module' s s' rfl hrun
  have hnz := BuildImportTable_dependencies_nonnull os cb fuel _ module' s s' true rfl
    (by intro d hd; cases hd) hrun
  have hdep : dependencies module' = loadReturns evs := by
    by_cases h0 : loadReturns evs = []
    · rw [k3 h0, h0]
      rfl
    · unfold dependencies
      rw [if_neg (k4 h0), k2]
      have e1 : module'.moduleArr = loadReturns evs := by
        rw [k1]
        rfl
      rw [e1]
      exact range_map_getD _
  rw [MemoryFreeLibrary_trace _ _ _ hmod, List.drop_left, ht, List.drop_left]
  unfold teardownLog
  by_cases hm : module'.modules = 0
  · have : loadReturns evs = [] := by
      by_contra h0
      exact k4 h0 hm
    rw [this]
    by_cases h2 : module'.codeBase = 0 <;> simp [hm, h2, freedHandles]
  · rw [if_pos hm, freeModules_eq_map module' hm hnz, hdep]
    simp only [freedHandles_append, freedHandles_map_free]
    by_cases h2 : module'.codeBase = 0 <;> simp [h2, freedHandles]

/-- C11 (as amended), on `twoLibImage`: the handles are loaded and freed in the
order `0x71190`, `0x71194`. -/
theorem MemoryFreeLibrary_frees_in_load_order_witness :
    ∃ out, BuildImportTable sampleOS echoHost 10 (freshModule 0x1040 0x1000 0xBEEF)
        ⟨twoLibImage, []⟩ = some out ∧
      out.1 = true ∧ loadReturns out.2.2.trace = [0x71190, 0x71194] ∧
      freedHandles ((MemoryFreeLibrary 0x500100 out.2.1 out.2.2).trace.drop
        out.2.2.trace.length) = loadReturns (out.2.2.trace.drop 0) := by
  cases hrun : BuildImportTable sampleOS echoHost 10 (freshModule 0x1040 0x1000 0xBEEF)
      ⟨twoLibImage, []⟩ with
  | none =>
    have : (BuildImportTable sampleOS echoHost 10 (freshModule 0x1040 0x1000 0xBEEF)
      ⟨twoLibImage, []⟩).isSome = true := by decide
    rw [hrun] at this
    cases this
  | some out =>
    obtain ⟨r, m1, s1⟩ := out
    have ht : (BuildImportTable sampleOS echoHost 10 (freshModule 0x1040 0x1000 0xBEEF)
      ⟨twoLibImage, []⟩).map (fun r => (r.1, loadReturns r.2.2.trace)) =
        some (true, [0x71190, 0x71194]) := by decide
    rw [hrun] at ht
    simp only [Option.map_some', Option.some.injEq, Prod.mk.injEq] at ht
    obtain ⟨h1, h2⟩ := ht
    subst h1
    exact ⟨_, rfl, rfl, h2,
      MemoryFreeLibrary_frees_in_load_order sampleOS echoHost 10 0x1040 0x1000 0xBEEF 0x500100
        m1 ⟨twoLibImage, []⟩ s1 hrun (by decide)⟩

/-! ## The protection of sections -/

theorem sectionProtect_eq (ch : Nat) :
    sectionProtect ch =
      if ch &&& IMAGE_SCN_MEM_NOT_CACHED ≠ 0 then accessProtect ch ||| PAGE_NOCACHE
      else accessProtect ch := by
  have key : ∀ x : Nat, (x != 0) = if x = 0 then false else true := by
    intro x
    by_cases h : x = 0
    · simp [h]
    · simp [h]
  unfold sectionProtect accessProtect
  simp only [key]
  split_ifs <;> rfl

theorem finalizeSection_trace (module : MEMORYMODULE) (imgOff sec : Nat) (s : Machine) :
    (finalizeSection module imgOff sec s).trace =
      s.trace ++ sectionCalls module imgOff s.mem sec := by
  unfold finalizeSection sectionCalls claimedProtect
  dsimp only
  split
  · rfl
  · split
    · rw [sectionProtect_eq]; rfl
    · simp

theorem finalizeSectionsLoop_trace (module : MEMORYMODULE) (imgOff : Nat) :
    ∀ (fuel i sec : Nat) (s : Machine),
      rd16 s.mem (module.headers + off_NumberOfSections) ≤ i + fuel →
      (finalizeSectionsLoop module imgOff fuel i sec s).trace =
        s.trace ++ ((List.range (rd16 s.mem (module.headers + off_NumberOfSections) - i)).map
          fun k => sectionCalls module imgOff s.mem (sec + sizeofSectionHeader * k)).flatten := by
  intro fuel
  induction fuel with
  | zero =>
    intro i sec s h
    rw [show rd16 s.mem (module.headers + off_NumberOfSections) - i = 0 by omega]
    simp [finalizeSectionsLoop]
  | succ n ih =>
    intro i sec s h
    simp only [finalizeSectionsLoop]
    split
    · rename_i hi
      have e : (fun k => sectionCalls module imgOff s.mem
            (sec + sizeofSectionHeader + sizeofSectionHeader * k)) =
          (fun k => sectionCalls module imgOff s.mem (sec + sizeofSectionHeader * k)) ∘
            Nat.succ := by
        funext k
        simp only [Function.comp, Nat.mul_succ]
        congr 1
        omega
      rw [ih (i + 1) _ _ (by rw [finalizeSection_mem]; omega), finalizeSection_trace,
        finalizeSection_mem,
        show rd16 s.mem (module.headers + off_NumberOfSections) - i =
          (rd16 s.mem (module.headers + off_NumberOfSections) - (i + 1)) + 1 by omega,
        List.range_succ_eq_map, List.map_cons, List.flatten_cons, List.map_map,
        List.append_assoc, e, Nat.mul_zero]
      rfl
    · rename_i hi
      rw [show rd16 s.mem (module.headers + off_NumberOfSections) - i = 0 by omega]
      simp

/-- C16: the calls `FinalizeSections` makes are those the claim's table gives
for the section headers of the module, in order: for header `i` below
`NumberOfSections`, at `IMAGE_FIRST_SECTION + 40 * i`, a discardable section
gets the decommitting `VirtualFree` and no `VirtualProtect`; any other section
gets one `VirtualProtect` whose protection is the table entry for its bits
executable, readable and writable (`accessProtect`: `NOACCESS`, `READONLY`,
`WRITECOPY`, `READWRITE`, and the four `EXECUTE` values), ORed with
`PAGE_NOCACHE` exactly when `IMAGE_SCN_MEM_NOT_CACHED` is set
(`claimedProtect`), and no call when the size to protect is 0.  Nothing else
is called, and memory is not written. -/
theorem section_protection_from_characteristics (os : Win32) (module : MEMORYMODULE)
    (s : Machine) :
    (FinalizeSections os module s).trace = s.trace ++ finalizeCalls os module s.mem ∧
    (FinalizeSections os module s).mem = s.mem ∧
    (∀ ch, sectionProtect ch = claimedProtect ch) := by
  refine ⟨?_, FinalizeSections_mem os module s, fun ch => sectionProtect_eq ch⟩
  unfold FinalizeSections finalizeCalls
  have hN := rd16_lt s.mem (module.headers + off_NumberOfSections)
  rw [finalizeSectionsLoop_trace module _ 65536 0 _ s (by omega), Nat.sub_zero]

/-! ## Base relocation: what an entry does -/

theorem patchN_outside (n : Nat) (m : Mem) (a d x : Nat) (h : x < a ∨ a + n ≤ x) :
    patchN n m a d x = m x :=
  wrN_outside n m a _ x h

theorem patchN_read (n : Nat) (m : Mem) (a d : Nat) :
    rdN n (patchN n m a d) a = (rdN n m a + d) % 256 ^ n := by
  unfold patchN
  rw [rdN_wrN_same, Nat.mod_mod]

theorem patchEntry_outside (os : Win32) (dest delta e : Nat) (m : Mem) (x : Nat)
    (h : ∀ t, entryTarget os dest e = some t → x < t.1 ∨ t.1 + t.2 ≤ x) :
    patchEntry os dest delta e m x = m x := by
  unfold patchEntry
  cases ht : entryTarget os dest e with
  | none => rfl
  | some t => exact patchN_outside _ _ _ _ _ (h t ht)

/-- The loop body is `patchEntry` at the value of the entry. -/
theorem applyRelocation_mem (os : Win32) (dest delta relInfo : Nat) (s : Machine) :
    (applyRelocation os dest delta relInfo s).mem =
      patchEntry os dest delta (rd16 s.mem relInfo) s.mem := by
  unfold applyRelocation patchEntry entryTarget
  dsimp only
  by_cases h0 : rd16 s.mem relInfo >>> 12 = IMAGE_REL_BASED_ABSOLUTE
  · rw [if_pos h0]
    have h3 : ¬ rd16 s.mem relInfo >>> 12 = IMAGE_REL_BASED_HIGHLOW := by
      rw [h0]; decide
    have h10 : ¬ (os.win64 = true ∧ rd16 s.mem relInfo >>> 12 = IMAGE_REL_BASED_DIR64) := by
      rw [h0]; simp [IMAGE_REL_BASED_ABSOLUTE, IMAGE_REL_BASED_DIR64]
    rw [if_neg h3, if_neg h10]
  · rw [if_neg h0]
    by_cases h3 : rd16 s.mem relInfo >>> 12 = IMAGE_REL_BASED_HIGHLOW
    · rw [if_pos h3, if_pos h3]
      simp only [Machine.setMem_mem, patchN, wr32, rd32]
      rw [show (256 : Nat) ^ 4 = 2 ^ 32 by norm_num, Nat.add_mod_mod]
    · rw [if_neg h3, if_neg h3]
      by_cases h10 : os.win64 = true ∧ rd16 s.mem relInfo >>> 12 = IMAGE_REL_BASED_DIR64
      · rw [if_pos h10, if_pos h10]
        simp only [Machine.setMem_mem, patchN, wr64, rd64]
        rw [show (256 : Nat) ^ 8 = 2 ^ 64 by norm_num, Nat.add_mod_mod]
      · rw [if_neg h10, if_neg h10]

theorem relocEntriesLog_fst (os : Win32) (relocation dest delta fuel i relInfo : Nat)
    (s : Machine) :
    (relocEntriesLog os relocation dest delta fuel i relInfo s).map Prod.fst =
      relocEntries os relocation dest delta fuel i relInfo s := by
  induction fuel generalizing i relInfo s with
  | zero => rfl
  | succ n ih =>
    simp only [relocEntriesLog, relocEntries]
    split
    · rw [← ih, Option.map_map]
      rfl
    · rfl

theorem relocBlocksLog_fst (os : Win32) (module : MEMORYMODULE) (delta fuel relocation : Nat)
    (s : Machine) :
    (relocBlocksLog os module delta fuel relocation s).map Prod.fst =
      relocBlocks os module delta fuel relocation s := by
  induction fuel generalizing relocation s with
  | zero => rfl
  | succ n ih =>
    simp only [relocBlocksLog, relocBlocks]
    split
    · rw [← relocEntriesLog_fst]
      cases h1 : relocEntriesLog os relocation (module.codeBase + rd32 s.mem relocation) delta n 0
          (relocation + IMAGE_SIZEOF_BASE_RELOCATION) s with
      | none => rfl
      | some r1 =>
        simp only [Option.map_some']
        rw [← ih, Option.map_map]
        rfl
    · rfl

/-- The instrumented function computes what `PerformBaseRelocation` computes. -/
theorem PerformBaseRelocationLog_fst (os : Win32) (module : MEMORYMODULE) (delta fuel : Nat)
    (s : Machine) :
    (PerformBaseRelocationLog os module delta fuel s).map Prod.fst =
      PerformBaseRelocation os module delta fuel s := by
  unfold PerformBaseRelocationLog PerformBaseRelocation
  dsimp only
  split
  · exact relocBlocksLog_fst _ _ _ _ _ _
  · rfl

theorem relocEntriesLog_replay (os : Win32) (relocation dest delta fuel i relInfo : Nat)
    (s s' : Machine) (l : List (Nat × Nat))
    (h : relocEntriesLog os relocation dest delta fuel i relInfo s = some (s', l)) :
    s'.mem = l.foldl (fun m en => patchEntry os dest delta en.2 m) s.mem := by
  induction fuel generalizing i relInfo s l with
  | zero => simp [relocEntriesLog] at h
  | succ n ih =>
    simp only [relocEntriesLog] at h
    split at h
    · cases h1 : relocEntriesLog os relocation dest delta n ((i + 1) % 2 ^ 32) (relInfo + 2)
          (applyRelocation os dest delta relInfo s) with
      | none => rw [h1] at h; cases h
      | some r =>
        rw [h1] at h
        simp only [Option.map_some', Option.some.injEq, Prod.mk.injEq] at h
        obtain ⟨h2, h3⟩ := h
        subst h2 h3
        rw [ih _ _ _ _ h1, applyRelocation_mem]
        rfl
    · cases h
      rfl

theorem relocBlocksLog_replay (os : Win32) (module : MEMORYMODULE) (delta fuel relocation : Nat)
    (s s' : Machine) (log : List RelocVisit)
    (h : relocBlocksLog os module delta fuel relocation s = some (s', log)) :
    s'.mem = replay os delta log s.mem := by
  induction fuel generalizing relocation s log with
  | zero => simp [relocBlocksLog] at h
  | succ n ih =>
    simp only [relocBlocksLog] at h
    split at h
    · split at h
      · cases h
      · rename_i r1 h1
        cases h2 : relocBlocksLog os module delta n
            (relocation + rd32 r1.1.mem (relocation + 4)) r1.1 with
        | none => rw [h2] at h; cases h
        | some r =>
          rw [h2] at h
          simp only [Option.map_some', Option.some.injEq, Prod.mk.injEq] at h
          obtain ⟨h3, h4⟩ := h
          subst h3 h4
          rw [ih _ _ _ h2, relocEntriesLog_replay _ _ _ _ _ _ _ _ _ _ h1]
          rfl
    · cases h
      rfl

/-- The effect of `PerformBaseRelocation` is the effect of the entries it has
processed, applied one after the other. -/
theorem PerformBaseRelocationLog_replay (os : Win32) (module : MEMORYMODULE)
    (delta fuel : Nat) (s s' : Machine) (log : List RelocVisit)
    (h : PerformBaseRelocationLog os module delta fuel s = some (s', log)) :
    s'.mem = replay os delta log s.mem := by
  unfold PerformBaseRelocationLog at h
  dsimp only at h
  split at h
  · exact relocBlocksLog_replay _ _ _ _ _ _ _ _ h
  · cases h
    rfl

theorem replay_entries_outside (os : Win32) (dest delta : Nat) (l : List (Nat × Nat))
    (m : Mem) (x : Nat)
    (h : ∀ t ∈ l.filterMap (fun en => entryTarget os dest en.2), x < t.1 ∨ t.1 + t.2 ≤ x) :
    l.foldl (fun m en => patchEntry os dest delta en.2 m) m x = m x := by
  induction l generalizing m with
  | nil => rfl
  | cons en l ih =>
    rw [List.foldl_cons, ih]
    · apply patchEntry_outside
      intro t ht
      exact h t (by simp only [List.filterMap_cons, ht]; exact List.mem_cons_self _ _)
    · intro t ht
      apply h t
      rw [List.filterMap_cons]
      split
      · exact ht
      · exact List.mem_cons_of_mem _ ht

/-- A byte that belongs to no patched word keeps its value. -/
theorem replay_outside (os : Win32) (delta : Nat) (log : List RelocVisit) (m : Mem) (x : Nat)
    (h : Uncovered os log x) : replay os delta log m x = m x := by
  unfold replay
  induction log generalizing m with
  | nil => rfl
  | cons v log ih =>
    rw [List.foldl_cons, ih]
    · exact replay_entries_outside os v.dest delta v.entries m x (h v (List.mem_cons_self _ _))
    · intro w hw
      exact h w (List.mem_cons_of_mem _ hw)

/-- C13: a run of `PerformBaseRelocation` with delta `delta` changes memory by
applying the entries it processes one after the other (`replay`), an entry `e`
of a block with page address `dest = codeBase + VirtualAddress` acting as
follows, with type `e >>> 12` and offset `e &&& 0xfff`: type 3 replaces the
32-bit word at `dest + offset` by `(old + delta) % 2 ^ 32` and changes no other
byte; type 10 on a 64-bit build replaces the 64-bit word there by
`(old + delta) % 2 ^ 64` and changes no other byte; every other entry (type 0
included, and type 10 on a 32-bit build) changes nothing.  A byte that belongs
to no word named by a processed entry of type 3 or 10 has the value it had
before the call. -/
theorem relocation_entry_effect (os : Win32) (module : MEMORYMODULE) (delta fuel : Nat)
    (s s' : Machine) (log : List RelocVisit)
    (hrun : PerformBaseRelocationLog os module delta fuel s = some (s', log)) :
    PerformBaseRelocation os module delta fuel s = some s' ∧
    s'.mem = replay os delta log s.mem ∧
    (∀ dest e m,
      (e >>> 12 = IMAGE_REL_BASED_HIGHLOW →
        patchEntry os dest delta e m =
          wr32 m (dest + (e &&& 0xfff)) ((rd32 m (dest + (e &&& 0xfff)) + delta) % 2 ^ 32) ∧
        rd32 (patchEntry os dest delta e m) (dest + (e &&& 0xfff)) =
          (rd32 m (dest + (e &&& 0xfff)) + delta) % 2 ^ 32 ∧
        ∀ x, x < dest + (e &&& 0xfff) ∨ dest + (e &&& 0xfff) + 4 ≤ x →
          patchEntry os dest delta e m x = m x) ∧
      (os.win64 = true → e >>> 12 = IMAGE_REL_BASED_DIR64 →
        patchEntry os dest delta e m =
          wr64 m (dest + (e &&& 0xfff)) ((rd64 m (dest + (e &&& 0xfff)) + delta) % 2 ^ 64) ∧
        rd64 (patchEntry os dest delta e m) (dest + (e &&& 0xfff)) =
          (rd64 m (dest + (e &&& 0xfff)) + delta) % 2 ^ 64 ∧
        ∀ x, x < dest + (e &&& 0xfff) ∨ dest + (e &&& 0xfff) + 8 ≤ x →
          patchEntry os dest delta e m x = m x) ∧
      (e >>> 12 ≠ IMAGE_REL_BASED_HIGHLOW →
        ¬ (os.win64 = true ∧ e >>> 12 = IMAGE_REL_BASED_DIR64) →
        patchEntry os dest delta e m = m)) ∧
    (∀ x, Uncovered os log x → s'.mem x = s.mem x) := by
  have hmem := PerformBaseRelocationLog_replay os module delta fuel s s' log hrun
  refine ⟨?_, hmem, ?_, ?_⟩
  · rw [← PerformBaseRelocationLog_fst, hrun]
    rfl
  · intro dest e m
    refine ⟨fun h3 => ?_, fun h64 h10 => ?_, fun h3 h10 => ?_⟩
    · have ht : entryTarget os dest e = some (dest + (e &&& 0xfff), 4) := by
        unfold entryTarget
        rw [if_pos h3]
      have hp : patchEntry os dest delta e m = patchN 4 m (dest + (e &&& 0xfff)) delta := by
        unfold patchEntry
        rw [ht]
      rw [hp]
      refine ⟨?_, ?_, fun x hx => patchN_outside _ _ _ _ _ hx⟩
      · unfold patchN wr32 rd32
        rw [show (256 : Nat) ^ 4 = 2 ^ 32 by norm_num]
      · have := patchN_read 4 m (dest + (e &&& 0xfff)) delta
        rw [show (256 : Nat) ^ 4 = 2 ^ 32 by norm_num] at this
        exact this
    · have h3 : ¬ e >>> 12 = IMAGE_REL_BASED_HIGHLOW := by
        rw [h10]; decide
      have ht : entryTarget os dest e = some (dest + (e &&& 0xfff), 8) := by
        unfold entryTarget
        rw [if_neg h3, if_pos ⟨h64, h10⟩]
      have hp : patchEntry os dest delta e m = patchN 8 m (dest + (e &&& 0xfff)) delta := by
        unfold patchEntry
        rw [ht]
      rw [hp]
      refine ⟨?_, ?_, fun x hx => patchN_outside _ _ _ _ _ hx⟩
      · unfold patchN wr64 rd64
        rw [show (256 : Nat) ^ 8 = 2 ^ 64 by norm_num]
      · have := patchN_read 8 m (dest + (e &&& 0xfff)) delta
        rw [show (256 : Nat) ^ 8 = 2 ^ 64 by norm_num] at this
        exact this
    · unfold patchEntry entryTarget
      rw [if_neg h3, if_neg h10]
  · intro x hx
    rw [hmem]
    exact replay_outside os delta log s.mem x hx

/-- C13 on `relocImage`, relocated by `0x0FC00000`: the one block is visited,
its `HIGHLOW` entry turns the word `0x00401234` into `0x10001234`, and its
`ABSOLUTE` entry does nothing. -/
theorem relocation_entry_effect_witness :
    ∃ out, PerformBaseRelocationLog sampleOS (freshModule 0x1040 0x1000 0) 0x0FC00000 10
        ⟨relocImage, []⟩ = some out ∧
      out.2 = [{ block := 0x1300, dest := 0x1400, entries := [(0x1308, 0x3008), (0x130A, 0)] }] ∧
      rd32 out.1.mem 0x1408 = 0x10001234 ∧
      out.1.mem = replay sampleOS 0x0FC00000 out.2 relocImage ∧
      ∀ x, Uncovered sampleOS out.2 x → out.1.mem x = relocImage x := by
  cases hrun : PerformBaseRelocationLog sampleOS (freshModule 0x1040 0x1000 0) 0x0FC00000 10
      ⟨relocImage, []⟩ with
  | none =>
    have : (PerformBaseRelocationLog sampleOS (freshModule 0x1040 0x1000 0) 0x0FC00000 10
      ⟨relocImage, []⟩).isSome = true := by decide
    rw [hrun] at this
    cases this
  | some out =>
    obtain ⟨s1, log⟩ := out
    have ht : (PerformBaseRelocationLog sampleOS (freshModule 0x1040 0x1000 0) 0x0FC00000 10
      ⟨relocImage, []⟩).map (fun r => (r.2, rd32 r.1.mem 0x1408)) =
        some ([{ block := 0x1300, dest := 0x1400, entries := [(0x1308, 0x3008), (0x130A, 0)] }],
          0x10001234) := by decide
    rw [hrun] at ht
    simp only [Option.map_some', Option.some.injEq, Prod.mk.injEq] at ht
    have key := relocation_entry_effect sampleOS (freshModule 0x1040 0x1000 0) 0x0FC00000 10
      ⟨relocImage, []⟩ s1 log hrun
    exact ⟨_, rfl, ht.1, ht.2, key.2.1, key.2.2.2⟩

/-! ## Base relocation on a described directory -/

theorem EntryTable_congr (m1 m2 : Mem) (a : Nat) (es : List Nat)
    (h : ∀ x, a ≤ x → x < a + 2 * es.length → m1 x = m2 x) (h1 : EntryTable m1 a es) :
    EntryTable m2 a es := by
  induction es generalizing a with
  | nil => trivial
  | cons e es ih =>
    simp only [List.length_cons] at h
    refine ⟨?_, ih (a + 2) (fun x hx1 hx2 => h x (by omega) (by omega)) h1.2⟩
    rw [← h1.1]
    exact (rdN_congr 2 m1 m2 a (fun x hx1 hx2 => h x hx1 (by omega))).symm

theorem RelocBlocks_congr (m1 m2 : Mem) (r : Nat) (bs : List RelocBlock)
    (h : ∀ x, r ≤ x → x < r + totalSize bs + 4 → m1 x = m2 x) (h1 : RelocBlocks m1 r bs) :
    RelocBlocks m2 r bs := by
  induction bs generalizing r with
  | nil =>
    simp only [RelocBlocks] at h1 ⊢
    rw [← h1]
    exact (rdN_congr 4 m1 m2 r (fun x hx1 hx2 => h x hx1 (by simp only [totalSize]; omega))).symm
  | cons b bs ih =>
    simp only [totalSize] at h
    obtain ⟨a1, a2, a3, a4, a5, a6, a7⟩ := h1
    refine ⟨?_, a2, ?_, a4, a5, ?_, ?_⟩
    · rw [← a1]
      exact (rdN_congr 4 m1 m2 r (fun x hx1 hx2 => h x hx1 (by omega))).symm
    · rw [← a3]
      exact (rdN_congr 4 m1 m2 (r + 4) (fun x hx1 hx2 => h x (by omega) (by omega))).symm
    · exact EntryTable_congr m1 m2 _ _ (fun x hx1 hx2 => h x (by omega) (by omega)) a6
    · exact ih (r + b.size) (fun x hx1 hx2 => h x (by omega) (by omega)) a7

theorem relocEntryCount_eq (os : Win32) (m : Mem) (relocation : Nat)
    (h8 : 8 ≤ rd32 m (relocation + 4)) :
    relocEntryCount os m relocation = (rd32 m (relocation + 4) - 8) / 2 := by
  unfold relocEntryCount IMAGE_SIZEOF_BASE_RELOCATION
  have h1 : rd32 m (relocation + 4) < 2 ^ 32 := by
    have := rdN_lt 4 m (relocation + 4)
    rw [show (256 : Nat) ^ 4 = 2 ^ 32 by norm_num] at this
    exact this
  have h2 : 2 ^ 32 ≤ ptrMod os := by
    unfold ptrMod
    rcases ptrBytes_cases os with h | h <;> rw [h] <;> norm_num
  have h3 : rd32 m (relocation + 4) + ptrMod os - 8 =
      (rd32 m (relocation + 4) - 8) + ptrMod os := by omega
  rw [h3, Nat.add_mod_right, Nat.mod_eq_of_lt (by omega)]

theorem foldl_patchEntry_outside (os : Win32) (dest delta : Nat) (es : List Nat) (m : Mem)
    (x : Nat) (h : ∀ t ∈ es.filterMap (entryTarget os dest), x < t.1 ∨ t.1 + t.2 ≤ x) :
    es.foldl (fun m e => patchEntry os dest delta e m) m x = m x := by
  induction es generalizing m with
  | nil => rfl
  | cons e es ih =>
    rw [List.foldl_cons, ih]
    · apply patchEntry_outside
      intro t ht
      exact h t (by simp only [List.filterMap_cons, ht]; exact List.mem_cons_self _ _)
    · intro t ht
      apply h t
      rw [List.filterMap_cons]
      split
      · exact ht
      · exact List.mem_cons_of_mem _ ht

/-- The inner loop on a block whose remaining entries are `es`: it processes
exactly these. -/
theorem relocEntriesLog_static (os : Win32) (relocation dest delta lo hi size : Nat)
    (es : List Nat) (fuel i relInfo : Nat) (s : Machine)
    (hsize : rd32 s.mem (relocation + 4) = size) (h8 : 8 ≤ size)
    (hcnt : i + es.length = (size - 8) / 2)
    (hE : EntryTable s.mem relInfo es)
    (hlo : lo ≤ relocation + 4 ∧ lo ≤ relInfo)
    (hhi : relocation + 8 ≤ hi ∧ relInfo + 2 * es.length ≤ hi)
    (hA : ∀ t ∈ es.filterMap (entryTarget os dest), t.1 + t.2 ≤ lo ∨ hi ≤ t.1)
    (hfuel : es.length < fuel) :
    relocEntriesLog os relocation dest delta fuel i relInfo s =
      some (⟨es.foldl (fun m e => patchEntry os dest delta e m) s.mem, s.trace⟩,
        entryLog relInfo es) := by
  induction es generalizing fuel i relInfo s with
  | nil =>
    obtain ⟨n, rfl⟩ : ∃ n, fuel = n + 1 := ⟨fuel - 1, by omega⟩
    simp only [relocEntriesLog]
    rw [relocEntryCount_eq os s.mem relocation (by omega), hsize]
    simp only [List.length_nil, Nat.add_zero] at hcnt
    rw [if_neg (by omega)]
    rfl
  | cons e es ih =>
    obtain ⟨n, rfl⟩ : ∃ n, fuel = n + 1 := ⟨fuel - 1, by omega⟩
    simp only [List.length_cons] at hcnt hhi hfuel
    simp only [relocEntriesLog]
    rw [relocEntryCount_eq os s.mem relocation (by omega), hsize]
    rw [if_pos (by omega)]
    have hlt : size < 2 ^ 32 := by
      rw [← hsize]
      have := rdN_lt 4 s.mem (relocation + 4)
      rw [show (256 : Nat) ^ 4 = 2 ^ 32 by norm_num] at this
      exact this
    have hi1 : (i + 1) % 2 ^ 32 = i + 1 := Nat.mod_eq_of_lt (by omega)
    have hmem : (applyRelocation os dest delta relInfo s).mem =
        patchEntry os dest delta e s.mem := by
      rw [applyRelocation_mem, hE.1]
    have hagree : ∀ x, lo ≤ x → x < hi →
        (applyRelocation os dest delta relInfo s).mem x = s.mem x := by
      intro x hx1 hx2
      rw [hmem]
      apply patchEntry_outside
      intro t ht
      have := hA t (by simp only [List.filterMap_cons, ht]; exact List.mem_cons_self _ _)
      omega
    have hrec := ih n (i + 1) (relInfo + 2) (applyRelocation os dest delta relInfo s)
      (by
        rw [← hsize]
        exact rdN_congr 4 _ _ _ (fun x hx1 hx2 => hagree x (by omega) (by omega)))
      (by omega)
      (EntryTable_congr s.mem _ _ _
        (fun x hx1 hx2 => (hagree x (by omega) (by omega)).symm) hE.2)
      ⟨hlo.1, by omega⟩ ⟨hhi.1, by omega⟩
      (fun t ht => hA t (by
        rw [List.filterMap_cons]
        split
        · exact ht
        · exact List.mem_cons_of_mem _ ht))
      (by omega)
    rw [hi1, hrec, hE.1]
    simp only [Option.map_some', applyRelocation_trace, hmem, List.foldl_cons, entryLog]

theorem relocFuel_pos (bs : List RelocBlock) : 0 < relocFuel bs := by
  cases bs <;> simp [relocFuel]

theorem totalSize_entries (m : Mem) (r : Nat) (b : RelocBlock) (bs : List RelocBlock)
    (h : RelocBlocks m r (b :: bs)) : 8 + 2 * b.entries.length ≤ b.size := by
  obtain ⟨_, _, _, a4, a5, _, _⟩ := h
  rw [a5]
  omega

/-- The outer loop on the blocks `bs`: it visits exactly these, in order, and
stops at the block with `VirtualAddress = 0` that follows them. -/
theorem relocBlocksLog_static (os : Win32) (module : MEMORYMODULE) (delta lo hi : Nat)
    (bs : List RelocBlock) (fuel r : Nat) (s : Machine)
    (hB : RelocBlocks s.mem r bs)
    (hlo : lo ≤ r) (hhi : r + totalSize bs + 4 ≤ hi)
    (hA : ∀ t ∈ relocTargets os module.codeBase bs, t.1 + t.2 ≤ lo ∨ hi ≤ t.1)
    (hfuel : relocFuel bs ≤ fuel) :
    relocBlocksLog os module delta fuel r s =
      some (⟨patchBlocks os module.codeBase delta bs s.mem, s.trace⟩,
        visitsOf module.codeBase r bs) := by
  induction bs generalizing fuel r s with
  | nil =>
    simp only [relocFuel] at hfuel
    obtain ⟨n, rfl⟩ : ∃ n, fuel = n + 1 := ⟨fuel - 1, by omega⟩
    simp only [RelocBlocks] at hB
    simp only [relocBlocksLog, hB]
    rfl
  | cons b bs ih =>
    have hsz := totalSize_entries s.mem r b bs hB
    have hpos := relocFuel_pos bs
    simp only [relocFuel] at hfuel
    simp only [totalSize] at hhi
    obtain ⟨n, rfl⟩ : ∃ n, fuel = n + 1 := ⟨fuel - 1, by omega⟩
    obtain ⟨a1, a2, a3, a4, a5, a6, a7⟩ := hB
    have hAb : ∀ t ∈ b.entries.filterMap (entryTarget os (module.codeBase + b.va)),
        t.1 + t.2 ≤ lo ∨ hi ≤ t.1 := fun t ht =>
      hA t (List.mem_append_left _ ht)
    have hinner := relocEntriesLog_static os r (module.codeBase + b.va) delta lo hi b.size
      b.entries n 0 (r + 8) s a3 a4 (by omega) a6 ⟨by omega, by omega⟩
      ⟨by omega, by omega⟩ hAb (by omega)
    have hagree : ∀ x, lo ≤ x → x < hi →
        patchBlock os module.codeBase delta b s.mem x = s.mem x := by
      intro x hx1 hx2
      apply foldl_patchEntry_outside
      intro t ht
      have := hAb t ht
      omega
    simp only [relocBlocksLog]
    rw [if_pos (by rw [a1]; omega), a1]
    simp only [IMAGE_SIZEOF_BASE_RELOCATION]
    rw [hinner]
    simp only
    have hs1 : rd32 (List.foldl (fun m e => patchEntry os (module.codeBase + b.va) delta e m)
        s.mem b.entries) (r + 4) = b.size := by
      rw [← a3]
      exact rdN_congr 4 _ _ _ (fun x hx1 hx2 => hagree x (by omega) (by omega))
    rw [hs1]
    have hrec := ih n (r + b.size)
      ⟨patchBlock os module.codeBase delta b s.mem, s.trace⟩
      (RelocBlocks_congr s.mem _ _ _
        (fun x hx1 hx2 => (hagree x (by omega) (by omega)).symm) a7)
      (by omega) (by omega)
      (fun t ht => hA t (List.mem_append_right _ ht)) (by omega)
    unfold patchBlock at hrec
    rw [hrec]
    rfl

/-- On a described relocation directory whose patched words do not overlap
it, `PerformBaseRelocation` returns when given `relocFuel bs` trips, having
visited exactly the blocks `bs` and applied their entries in order. -/
theorem PerformBaseRelocationLog_static (os : Win32) (module : MEMORYMODULE) (delta : Nat)
    (bs : List RelocBlock) (fuel : Nat) (s : Machine)
    (hT : RelocTable os s.mem module bs) (hA : RelocApart os s.mem module bs)
    (hfuel : relocFuel bs ≤ fuel) :
    PerformBaseRelocationLog os module delta fuel s =
      some (⟨patchBlocks os module.codeBase delta bs s.mem, s.trace⟩,
        visitsOf module.codeBase (relocBase os s.mem module) bs) := by
  unfold PerformBaseRelocationLog
  unfold RelocTable at hT
  dsimp only
  split
  · rename_i hsz
    rw [if_pos hsz] at hT
    exact relocBlocksLog_static os module delta (relocBase os s.mem module)
      (relocBase os s.mem module + totalSize bs + 4) bs fuel _ s hT (le_refl _) (le_refl _)
      hA hfuel
  · rename_i hsz
    rw [if_neg hsz] at hT
    subst hT
    rfl

theorem PerformBaseRelocation_static (os : Win32) (module : MEMORYMODULE) (delta : Nat)
    (bs : List RelocBlock) (fuel : Nat) (s : Machine)
    (hT : RelocTable os s.mem module bs) (hA : RelocApart os s.mem module bs)
    (hfuel : relocFuel bs ≤ fuel) :
    PerformBaseRelocation os module delta fuel s =
      some ⟨patchBlocks os module.codeBase delta bs s.mem, s.trace⟩ := by
  rw [← PerformBaseRelocationLog_fst,
    PerformBaseRelocationLog_static os module delta bs fuel s hT hA hfuel]
  rfl

theorem patchBlocks_outside (os : Win32) (codeBase delta : Nat) (bs : List RelocBlock)
    (m : Mem) (x : Nat)
    (h : ∀ t ∈ relocTargets os codeBase bs, x < t.1 ∨ t.1 + t.2 ≤ x) :
    patchBlocks os codeBase delta bs m x = m x := by
  unfold patchBlocks
  induction bs generalizing m with
  | nil => rfl
  | cons b bs ih =>
    rw [List.foldl_cons, ih _ (fun t ht => h t (List.mem_append_right _ ht))]
    exact foldl_patchEntry_outside os _ delta b.entries m x
      (fun t ht => h t (List.mem_append_left _ ht))

theorem visitsOf_block (m : Mem) (codeBase r : Nat) (bs : List RelocBlock)
    (hB : RelocBlocks m r bs) :
    ∀ v ∈ visitsOf codeBase r bs, r ≤ v.block ∧ v.block + 8 ≤ r + totalSize bs := by
  induction bs generalizing r with
  | nil => intro v hv; cases hv
  | cons b bs ih =>
    intro v hv
    obtain ⟨_, _, _, a4, _, _, a7⟩ := hB
    simp only [visitsOf, List.mem_cons] at hv
    simp only [totalSize]
    rcases hv with rfl | hv
    · exact ⟨le_refl _, by simp only; omega⟩
    · have := ih (r + b.size) a7 v hv
      omega

theorem entryLog_length (a : Nat) (es : List Nat) : (entryLog a es).length = es.length := by
  induction es generalizing a with
  | nil => rfl
  | cons e es ih => simp [entryLog, ih]

theorem visitsOf_counts (m : Mem) (codeBase r : Nat) (bs : List RelocBlock)
    (hB : RelocBlocks m r bs) :
    (visitsOf codeBase r bs).map (fun v => v.entries.length) =
      bs.map (fun b => (b.size - 8) / 2) := by
  induction bs generalizing r with
  | nil => rfl
  | cons b bs ih =>
    obtain ⟨_, _, _, _, a5, _, a7⟩ := hB
    simp only [visitsOf, List.map_cons, entryLog_length, a5, ih (r + b.size) a7]

/-! ## Termination of the relocation loops -/

theorem stuckImage_zero (x : Nat) (h : 0x1304 ≤ x) : stuckImage x = 0 := by
  unfold stuckImage fieldsMem
  simp only [List.foldl]
  rw [wrN_outside _ _ _ _ _ (by omega), wrN_outside _ _ _ _ _ (by omega),
    wrN_outside _ _ _ _ _ (by omega)]

theorem stuckImage_entry (a : Nat) (h : 0x1304 ≤ a) : rd16 stuckImage a = 0 := by
  simp [rd16, rdN, stuckImage_zero a h, stuckImage_zero (a + 1) (by omega)]

theorem stuckImage_entries (dest delta fuel i relInfo : Nat) (t : List Event)
    (h : 0x1304 ≤ relInfo) :
    relocEntries sampleOS 0x1300 dest delta fuel i relInfo ⟨stuckImage, t⟩ = none ∨
    relocEntries sampleOS 0x1300 dest delta fuel i relInfo ⟨stuckImage, t⟩ =
      some ⟨stuckImage, t⟩ := by
  induction fuel generalizing i relInfo with
  | zero => exact Or.inl rfl
  | succ n ih =>
    simp only [relocEntries]
    split
    · have hb : applyRelocation sampleOS dest delta relInfo ⟨stuckImage, t⟩ =
          ⟨stuckImage, t⟩ := by
        unfold applyRelocation
        simp only [stuckImage_entry relInfo h]
        rfl
      rw [hb]
      exact ih _ _ (by omega)
    · exact Or.inr rfl

/-- The block of `stuckImage` is never left: with any number of trips the
relocation loop runs out of them. -/
theorem stuckImage_loops (module : MEMORYMODULE) (delta fuel : Nat) (t : List Event) :
    relocBlocks sampleOS module delta fuel 0x1300 ⟨stuckImage, t⟩ = none := by
  induction fuel with
  | zero => rfl
  | succ n ih =>
    have h1 : rd32 stuckImage 0x1300 = 0x400 := by decide
    have h2 : rd32 stuckImage (0x1300 + 4) = 0 := by decide
    simp only [relocBlocks, h1]
    rw [if_pos (by omega)]
    rcases stuckImage_entries (module.codeBase + 0x400) delta n 0
      (0x1300 + IMAGE_SIZEOF_BASE_RELOCATION) t (by decide) with h | h
    · rw [h]
    · rw [h]
      simp only [h2]
      exact ih

/-- C19: if following the `SizeOfBlock` offsets from the start of the
relocation directory leads over the blocks `bs`, each with a non-zero
`VirtualAddress` and `SizeOfBlock ≥ 8`, to a block whose `VirtualAddress` is 0
(`RelocTable`), and no patched word overlaps these blocks (`RelocApart`), then
`PerformBaseRelocation` returns whenever it is given at least `relocFuel bs`
loop trips; its visits are exactly the blocks `bs` in order, and the number of
entries processed in a visit is `(SizeOfBlock - 8) / 2`.  The condition
`SizeOfBlock ≥ 8` cannot be dropped: on `stuckImage`, whose first block has a
non-zero `VirtualAddress` and `SizeOfBlock = 0`, the function does not return
with any number of trips. -/
theorem relocation_terminates :
    (∀ (os : Win32) (module : MEMORYMODULE) (delta : Nat) (bs : List RelocBlock) (fuel : Nat)
        (s : Machine),
      RelocTable os s.mem module bs → RelocApart os s.mem module bs → relocFuel bs ≤ fuel →
      PerformBaseRelocation os module delta fuel s =
        some ⟨patchBlocks os module.codeBase delta bs s.mem, s.trace⟩ ∧
      (PerformBaseRelocationLog os module delta fuel s).map Prod.snd =
        some (visitsOf module.codeBase (relocBase os s.mem module) bs) ∧
      (visitsOf module.codeBase (relocBase os s.mem module) bs).map
        (fun v => v.entries.length) = bs.map (fun b => (b.size - 8) / 2)) ∧
    (rd32 stuckImage 0x10E4 > 0 ∧ rd32 stuckImage 0x1300 ≠ 0 ∧ rd32 stuckImage 0x1304 = 0 ∧
      ∀ delta fuel, PerformBaseRelocation sampleOS (freshModule 0x1040 0x1000 0) delta fuel
        ⟨stuckImage, []⟩ = none) := by
  refine ⟨fun os module delta bs fuel s hT hA hfuel => ⟨?_, ?_, ?_⟩,
    by decide, by decide, by decide, fun delta fuel => ?_⟩
  · exact PerformBaseRelocation_static os module delta bs fuel s hT hA hfuel
  · rw [PerformBaseRelocationLog_static os module delta bs fuel s hT hA hfuel]
    rfl
  · unfold RelocTable at hT
    split at hT
    · exact visitsOf_counts s.mem _ _ bs hT
    · subst hT
      rfl
  · unfold PerformBaseRelocation
    have h1 : rd32 stuckImage (GET_HEADER_DICTIONARY sampleOS (freshModule 0x1040 0x1000 0)
        IMAGE_DIRECTORY_ENTRY_BASERELOC + 4) = 12 := by decide
    have h2 : (freshModule 0x1040 0x1000 0).codeBase + rd32 stuckImage
        (GET_HEADER_DICTIONARY sampleOS (freshModule 0x1040 0x1000 0)
          IMAGE_DIRECTORY_ENTRY_BASERELOC) = 0x1300 := by decide
    simp only [h1, h2]
    rw [if_pos (by omega)]
    exact stuckImage_loops _ delta fuel []

/-- C19 on `relocImage`: four trips suffice, and the one visit processes the
two entries of the block. -/
theorem relocation_terminates_witness :
    PerformBaseRelocation sampleOS (freshModule 0x1040 0x1000 0) 0x0FC00000 4
        ⟨relocImage, []⟩ =
      some ⟨patchBlocks sampleOS 0x1000 0x0FC00000 relocImageBlocks relocImage, []⟩ ∧
    (PerformBaseRelocationLog sampleOS (freshModule 0x1040 0x1000 0) 0x0FC00000 4
        ⟨relocImage, []⟩).map Prod.snd =
      some [{ block := 0x1300, dest := 0x1400, entries := [(0x1308, 0x3008), (0x130A, 0)] }] ∧
    (visitsOf 0x1000 0x1300 relocImageBlocks).map (fun v => v.entries.length) = [2] :=
  relocation_terminates.1 sampleOS (freshModule 0x1040 0x1000 0) 0x0FC00000 relocImageBlocks 4
    ⟨relocImage, []⟩ (by decide) (by decide) (by decide)

/-! ## Where the traversal of the relocation blocks ends -/

theorem patchN_agree (n : Nat) (m1 m2 : Mem) (a d x : Nat)
    (h : ∀ y, a ≤ y → y < a + n → m1 y = m2 y) (hx : m1 x = m2 x) :
    patchN n m1 a d x = patchN n m2 a d x := by
  unfold patchN
  by_cases hin : a ≤ x ∧ x < a + n
  · rw [wrN_inside _ _ _ _ _ hin.1 hin.2, wrN_inside _ _ _ _ _ hin.1 hin.2,
      rdN_congr n m1 m2 a h]
  · rw [wrN_outside _ _ _ _ _ (by omega), wrN_outside _ _ _ _ _ (by omega)]
    exact hx

theorem foldl_patchEntry_agree (os : Win32) (dest delta : Nat) (es : List Nat)
    (ts : List (Nat × Nat)) (m1 m2 : Mem)
    (hsub : ∀ t ∈ es.filterMap (entryTarget os dest), t ∈ ts)
    (h : ∀ x, InTargets ts x → m1 x = m2 x) :
    ∀ x, InTargets ts x →
      es.foldl (fun m e => patchEntry os dest delta e m) m1 x =
        es.foldl (fun m e => patchEntry os dest delta e m) m2 x := by
  induction es generalizing m1 m2 with
  | nil => exact h
  | cons e es ih =>
    simp only [List.foldl_cons]
    apply ih
    · intro t ht
      apply hsub t
      rw [List.filterMap_cons]
      split
      · exact ht
      · exact List.mem_cons_of_mem _ ht
    · intro x hx
      unfold patchEntry
      cases ht : entryTarget os dest e with
      | none => exact h x hx
      | some t =>
        have hin : t ∈ ts :=
          hsub t (by simp only [List.filterMap_cons, ht]; exact List.mem_cons_self _ _)
        exact patchN_agree _ _ _ _ _ _
          (fun y hy1 hy2 => h y ⟨t, hin, hy1, hy2⟩) (h x hx)

/-- The patched words after relocation are determined by the blocks and by
the patched words before. -/
theorem patchBlocks_agree (os : Win32) (codeBase delta : Nat) (bs : List RelocBlock)
    (ts : List (Nat × Nat)) (m1 m2 : Mem)
    (hsub : ∀ t ∈ relocTargets os codeBase bs, t ∈ ts)
    (h : ∀ x, InTargets ts x → m1 x = m2 x) :
    ∀ x, InTargets ts x →
      patchBlocks os codeBase delta bs m1 x = patchBlocks os codeBase delta bs m2 x := by
  unfold patchBlocks
  induction bs generalizing m1 m2 with
  | nil => exact h
  | cons b bs ih =>
    simp only [List.foldl_cons]
    apply ih
    · exact fun t ht => hsub t (List.mem_append_right _ ht)
    · exact foldl_patchEntry_agree os _ delta b.entries ts m1 m2
        (fun t ht => hsub t (List.mem_append_left _ ht)) h

/-- Every block the loop has visited had a non-zero `VirtualAddress` when it
was read: its page address lies above `codeBase`. -/
theorem relocBlocksLog_dest (os : Win32) (module : MEMORYMODULE) (delta fuel relocation : Nat)
    (s s' : Machine) (log : List RelocVisit)
    (h : relocBlocksLog os module delta fuel relocation s = some (s', log)) :
    ∀ v ∈ log, module.codeBase < v.dest := by
  induction fuel generalizing relocation s log with
  | zero => simp [relocBlocksLog] at h
  | succ n ih =>
    simp only [relocBlocksLog] at h
    split at h
    · rename_i hva
      split at h
      · cases h
      · rename_i r1 h1
        cases h2 : relocBlocksLog os module delta n
            (relocation + rd32 r1.1.mem (relocation + 4)) r1.1 with
        | none => rw [h2] at h; cases h
        | some r =>
          rw [h2] at h
          simp only [Option.map_some', Option.some.injEq, Prod.mk.injEq] at h
          obtain ⟨h3, h4⟩ := h
          subst h3 h4
          intro v hv
          rcases List.mem_cons.mp hv with rfl | hv
          · simp only
            omega
          · exact ih _ _ _ h2 v hv
    · cases h
      intro v hv
      cases hv

theorem PerformBaseRelocationLog_dest (os : Win32) (module : MEMORYMODULE) (delta fuel : Nat)
    (s s' : Machine) (log : List RelocVisit)
    (h : PerformBaseRelocationLog os module delta fuel s = some (s', log)) :
    ∀ v ∈ log, module.codeBase < v.dest := by
  unfold PerformBaseRelocationLog at h
  dsimp only at h
  split at h
  · exact relocBlocksLog_dest _ _ _ _ _ _ _ _ h
  · cases h
    intro v hv
    cases hv

/-- C15 fails as stated: in `selfPatchImage` the first block whose
`VirtualAddress` field is 0 is the second one, at `0x130A`, but the entry of the
first block adds the delta to that very field before it is read, so the block
is visited and its entry applied: the word at `0x11008` is changed.  The memory
after the call depends on that block: in `selfPatchVariant`, which differs
only in its entry, the word at `0x11008` keeps its value. -/
theorem zero_block_applied_counterexample :
    (relocBase sampleOS selfPatchImage (freshModule 0x1040 0x1000 0) = 0x1300 ∧
      rd32 selfPatchImage 0x1300 = 0x300 ∧ rd32 selfPatchImage (0x1300 + 4) = 10 ∧
      rd16 selfPatchImage (0x1300 + 8) = 0x300A ∧
      rd32 selfPatchImage (0x1300 + 10) = 0 ∧ rd32 selfPatchImage (0x1300 + 10 + 4) = 10 ∧
      rd16 selfPatchImage (0x1300 + 10 + 8) = 0x3008 ∧
      rd32 selfPatchImage 0x11008 = 0x00401234) ∧
    (PerformBaseRelocationLog sampleOS (freshModule 0x1040 0x1000 0) 0x10000 10
      ⟨selfPatchImage, []⟩).map (fun r => r.2.map RelocVisit.block) =
      some [0x1300, 0x130A] ∧
    (PerformBaseRelocation sampleOS (freshModule 0x1040 0x1000 0) 0x10000 10
      ⟨selfPatchImage, []⟩).map (fun r => rd32 r.mem 0x11008) = some 0x00411234 ∧
    (PerformBaseRelocation sampleOS (freshModule 0x1040 0x1000 0) 0x10000 10
      ⟨selfPatchVariant, []⟩).map (fun r => rd32 r.mem 0x11008) = some 0x00401234 := by
  decide

/-- C15 (as amended): a block whose `VirtualAddress` is 0 when it is read ends
the traversal at once, whatever its `SizeOfBlock` and the bytes behind it are:
the loop returns with the state unchanged.  If the blocks that precede the
first block whose `VirtualAddress` field is 0 are `bs`, each with `SizeOfBlock
≥ 8` (`RelocTable`; the declared `Size` only matters in being 0 or not, and
with `Size = 0` there are no blocks), and no patched word overlaps them or
that `VirtualAddress` field (`RelocApart`), then `PerformBaseRelocation`
returns, the blocks it visits are exactly `bs`, and the memory it returns is
the one in which exactly the entries of `bs` have been applied: bytes outside
the words they name are unchanged, and two memories that have the same blocks
`bs` and the same content in these words end with the same content in these
words, whatever else they differ in. -/
theorem relocation_stops_at_zero_block (os : Win32) (module : MEMORYMODULE) (delta : Nat)
    (bs : List RelocBlock) (fuel : Nat) (s : Machine)
    (hT : RelocTable os s.mem module bs) (hA : RelocApart os s.mem module bs)
    (hfuel : relocFuel bs ≤ fuel) :
    (∀ n relocation (s0 : Machine), rd32 s0.mem relocation = 0 →
      relocBlocks os module delta (n + 1) relocation s0 = some s0 ∧
      relocBlocksLog os module delta (n + 1) relocation s0 = some (s0, [])) ∧
    (∀ n (s0 s1 : Machine) (log : List RelocVisit),
      PerformBaseRelocationLog os module delta n s0 = some (s1, log) →
      ∀ v ∈ log, v.dest ≠ module.codeBase) ∧
    ∃ s', PerformBaseRelocation os module delta fuel s = some s' ∧
      (PerformBaseRelocationLog os module delta fuel s).map Prod.snd =
        some (visitsOf module.codeBase (relocBase os s.mem module) bs) ∧
      s'.mem = patchBlocks os module.codeBase delta bs s.mem ∧
      (∀ x, ¬ InTargets (relocTargets os module.codeBase bs) x → s'.mem x = s.mem x) ∧
      ∀ s2 : Machine, RelocTable os s2.mem module bs → RelocApart os s2.mem module bs →
        (∀ x, InTargets (relocTargets os module.codeBase bs) x → s2.mem x = s.mem x) →
        ∃ s2', PerformBaseRelocation os module delta fuel s2 = some s2' ∧
          ∀ x, InTargets (relocTargets os module.codeBase bs) x → s2'.mem x = s'.mem x := by
  refine ⟨fun n relocation s0 h0 => ?_,
    fun n s0 s1 log h v hv =>
      Nat.ne_of_gt (PerformBaseRelocationLog_dest os module delta n s0 s1 log h v hv), _,
    PerformBaseRelocation_static os module delta bs fuel s hT hA hfuel, ?_, rfl, ?_, ?_⟩
  · simp only [relocBlocks, relocBlocksLog, h0]
    exact ⟨rfl, rfl⟩
  · rw [PerformBaseRelocationLog_static os module delta bs fuel s hT hA hfuel]
    rfl
  · intro x hx
    apply patchBlocks_outside
    intro t ht
    by_contra hc
    exact hx ⟨t, ht, by omega, by omega⟩
  · intro s2 hT2 hA2 hagree
    exact ⟨_, PerformBaseRelocation_static os module delta bs fuel s2 hT2 hA2 hfuel,
      patchBlocks_agree os module.codeBase delta bs _ s2.mem s.mem (fun t ht => ht) hagree⟩

/-- C15 (as amended) on `relocImage` and on `relocVariant`, which differs
from it in the declared `Size` and in the block whose `VirtualAddress` is 0:
both runs return, and the patched word is the same. -/
theorem relocation_stops_at_zero_block_witness :
    ∃ s' s2', PerformBaseRelocation sampleOS (freshModule 0x1040 0x1000 0) 0x0FC00000 4
        ⟨relocImage, []⟩ = some s' ∧
      PerformBaseRelocation sampleOS (freshModule 0x1040 0x1000 0) 0x0FC00000 4
        ⟨relocVariant, []⟩ = some s2' ∧
      ∀ x, InTargets [(0x1408, 4)] x → s2'.mem x = s'.mem x := by
  obtain ⟨_, _, s', h1, _, _, _, h4⟩ := relocation_stops_at_zero_block sampleOS
    (freshModule 0x1040 0x1000 0) 0x0FC00000 relocImageBlocks 4 ⟨relocImage, []⟩
    (by decide) (by decide) (by decide)
  obtain ⟨s2', h5, h6⟩ := h4 ⟨relocVariant, []⟩ (by decide) (by decide) (by
    intro x hx
    obtain ⟨t, ht, hx1, hx2⟩ := hx
    have ht2 : t = (0x1408, 4) := by
      simpa [relocTargets, blockTargets, relocImageBlocks, entryTarget,
        IMAGE_REL_BASED_HIGHLOW, IMAGE_REL_BASED_DIR64, freshModule] using ht
    subst ht2
    simp only at hx1 hx2
    show relocVariant x = relocImage x
    unfold relocVariant
    rw [wrN_outside _ _ _ _ _ (by omega), wrN_outside _ _ _ _ _ (by omega),
      wrN_outside _ _ _ _ _ (by omega)])
  exact ⟨s', s2', h1, h5, h6⟩

theorem RelocBlocks_end (m : Mem) (r : Nat) (bs : List RelocBlock) (hB : RelocBlocks m r bs) :
    rd32 m (r + totalSize bs) = 0 := by
  induction bs generalizing r with
  | nil => exact hB
  | cons b bs ih =>
    have := ih (r + b.size) hB.2.2.2.2.2.2
    simp only [totalSize]
    rw [← Nat.add_assoc]
    exact this

/-- C14 fails: in `overrunImage` the one block of the relocation directory
(`VirtualAddress = 0x400 ≠ 0`, `SizeOfBlock = 12`) exactly fills the declared
`Size = 12`, yet the traversal goes on with the block at `0x130C`, the address
`VirtualAddress + Size` of the directory's end, and applies its entry: the word
at `0x1410`, named by no entry inside the directory, is changed. -/
theorem relocation_overrun_counterexample :
    relocSize sampleOS overrunImage (freshModule 0x1040 0x1000 0) = 12 ∧
    relocBase sampleOS overrunImage (freshModule 0x1040 0x1000 0) = 0x1300 ∧
    rd32 overrunImage 0x1300 = 0x400 ∧ rd32 overrunImage 0x1304 = 12 ∧
    rd32 overrunImage 0x1410 = 0x00405678 ∧
    (PerformBaseRelocationLog sampleOS (freshModule 0x1040 0x1000 0) 0x0FC00000 10
      ⟨overrunImage, []⟩).map
      (fun r => (r.2.map RelocVisit.block, rd32 r.1.mem 0x1408, rd32 r.1.mem 0x1410)) =
      some ([0x1300, 0x130C], 0x10001234, 0x10005678) := by
  decide

/-- C14 (as amended): if the blocks `bs` of the relocation directory, each
with a non-zero `VirtualAddress` and `SizeOfBlock ≥ 8`, exactly fill the declared
`Size`, the four bytes behind them are zero (`RelocTable`), and no patched word
overlaps the blocks or these four bytes, then `PerformBaseRelocation` returns,
every block it has visited begins inside the declared directory, the
`VirtualAddress` it stops at is the one at the end of the declared directory,
and no byte outside the words named by the entries of `bs` is changed. -/
theorem relocation_stays_in_directory (os : Win32) (module : MEMORYMODULE) (delta : Nat)
    (bs : List RelocBlock) (fuel : Nat) (s : Machine)
    (hT : RelocTable os s.mem module bs)
    (hfill : totalSize bs = relocSize os s.mem module)
    (hA : RelocApart os s.mem module bs)
    (hfuel : relocFuel bs ≤ fuel) :
    ∃ s' log, PerformBaseRelocationLog os module delta fuel s = some (s', log) ∧
      PerformBaseRelocation os module delta fuel s = some s' ∧
      (∀ v ∈ log, relocBase os s.mem module ≤ v.block ∧
        v.block < relocBase os s.mem module + relocSize os s.mem module) ∧
      (0 < relocSize os s.mem module →
        rd32 s.mem (relocBase os s.mem module + relocSize os s.mem module) = 0) ∧
      (∀ x, ¬ InTargets (relocTargets os module.codeBase bs) x → s'.mem x = s.mem x) := by
  refine ⟨_, _, PerformBaseRelocationLog_static os module delta bs fuel s hT hA hfuel,
    PerformBaseRelocation_static os module delta bs fuel s hT hA hfuel, ?_, ?_, ?_⟩
  · intro v hv
    unfold RelocTable at hT
    split at hT
    · have := visitsOf_block s.mem module.codeBase _ bs hT v hv
      omega
    · subst hT
      cases hv
  · intro hpos
    unfold RelocTable at hT
    unfold relocSize at hpos
    rw [if_pos hpos] at hT
    rw [← hfill]
    exact RelocBlocks_end s.mem _ bs hT
  · intro x hx
    apply patchBlocks_outside
    intro t ht
    by_contra hc
    exact hx ⟨t, ht, by omega, by omega⟩

/-- C14 (as amended) on `relocImage`, whose one block fills the declared
`Size = 12` and is followed by four zero bytes. -/
theorem relocation_stays_in_directory_witness :
    ∃ s' log, PerformBaseRelocationLog sampleOS (freshModule 0x1040 0x1000 0) 0x0FC00000 4
        ⟨relocImage, []⟩ = some (s', log) ∧
      PerformBaseRelocation sampleOS (freshModule 0x1040 0x1000 0) 0x0FC00000 4
        ⟨relocImage, []⟩ = some s' ∧
      (∀ v ∈ log, 0x1300 ≤ v.block ∧ v.block < 0x1300 + 12) ∧
      (0 < 12 → rd32 relocImage (0x1300 + 12) = 0) ∧
      (∀ x, ¬ InTargets [(0x1408, 4)] x → s'.mem x = relocImage x) :=
  relocation_stays_in_directory sampleOS (freshModule 0x1040 0x1000 0) 0x0FC00000
    relocImageBlocks 4 ⟨relocImage, []⟩ (by decide) (by decide) (by decide) (by decide)

/-! ## Base relocation is additive in the delta -/

theorem patchN_add (n : Nat) (m : Mem) (a d1 d2 : Nat) :
    patchN n (patchN n m a d1) a d2 = patchN n m a (d1 + d2) := by
  funext x
  by_cases hin : a ≤ x ∧ x < a + n
  · unfold patchN
    rw [wrN_inside _ _ _ _ _ hin.1 hin.2, wrN_inside _ _ _ _ _ hin.1 hin.2, rdN_wrN_same,
      Nat.mod_mod, Nat.mod_add_mod, Nat.add_assoc]
  · rw [patchN_outside _ _ _ _ _ (by omega), patchN_outside _ _ _ _ _ (by omega),
      patchN_outside _ _ _ _ _ (by omega)]

theorem patchN_comm (n k : Nat) (m : Mem) (a b d e : Nat) (h : a + n ≤ b ∨ b + k ≤ a) :
    patchN n (patchN k m b e) a d = patchN k (patchN n m a d) b e := by
  have h1 : rdN n (patchN k m b e) a = rdN n m a := rdN_wrN_disjoint n k m b _ a (by omega)
  have h2 : rdN k (patchN n m a d) b = rdN k m b := rdN_wrN_disjoint k n m a _ b (by omega)
  funext x
  by_cases ha : a ≤ x ∧ x < a + n
  · rw [patchN_outside k _ b e x (by omega)]
    unfold patchN at h1 ⊢
    rw [wrN_inside _ _ _ _ _ ha.1 ha.2, wrN_inside _ _ _ _ _ ha.1 ha.2, h1]
  · rw [patchN_outside n _ a d x (by omega)]
    by_cases hb : b ≤ x ∧ x < b + k
    · unfold patchN at h2 ⊢
      rw [wrN_inside _ _ _ _ _ hb.1 hb.2, wrN_inside _ _ _ _ _ hb.1 hb.2, h2]
    · rw [patchN_outside k _ b e x (by omega), patchN_outside k _ b e x (by omega),
        patchN_outside n _ a d x (by omega)]

theorem patchN_mod (n : Nat) (m : Mem) (a d K : Nat) (h : 256 ^ n ∣ K) :
    patchN n m a (d % K) = patchN n m a d := by
  unfold patchN
  rw [Nat.add_mod, Nat.mod_mod_of_dvd _ h, ← Nat.add_mod]

theorem patchTargets_cons (d : Nat) (t : Nat × Nat) (ts : List (Nat × Nat)) (m : Mem) :
    patchTargets d (t :: ts) m = patchTargets d ts (patchN t.2 m t.1 d) := rfl

/-- A patch of a word commutes with the patches of words that are the same
or do not overlap it. -/
theorem patchTargets_comm (d1 d2 : Nat) (t : Nat × Nat) (ts : List (Nat × Nat)) (m : Mem)
    (h : ∀ u ∈ ts, t = u ∨ t.1 + t.2 ≤ u.1 ∨ u.1 + u.2 ≤ t.1) :
    patchN t.2 (patchTargets d1 ts m) t.1 d2 = patchTargets d1 ts (patchN t.2 m t.1 d2) := by
  induction ts generalizing m with
  | nil => rfl
  | cons u ts ih =>
    rw [patchTargets_cons, patchTargets_cons, ih _ (fun v hv => h v (List.mem_cons_of_mem _ hv))]
    rcases h u (List.mem_cons_self _ _) with rfl | hap
    · rw [patchN_add, patchN_add, Nat.add_comm]
    · rw [patchN_comm _ _ _ _ _ _ _ hap]

/-- Patching compatible words by `d1` and then by `d2` is patching them by
`d1 + d2`. -/
theorem patchTargets_add (d1 d2 : Nat) (ts : List (Nat × Nat)) (m : Mem)
    (h : TargetsCompatible ts) :
    patchTargets d2 ts (patchTargets d1 ts m) = patchTargets (d1 + d2) ts m := by
  induction ts generalizing m with
  | nil => rfl
  | cons t ts ih =>
    have hts : TargetsCompatible ts := fun a ha b hb =>
      h a (List.mem_cons_of_mem _ ha) b (List.mem_cons_of_mem _ hb)
    rw [patchTargets_cons, patchTargets_cons, patchTargets_cons,
      patchTargets_comm d1 d2 t ts _
        (fun u hu => h t (List.mem_cons_self _ _) u (List.mem_cons_of_mem _ hu)),
      patchN_add, ih _ hts]

theorem rdN_digit (n : Nat) (m : Mem) (a j : Nat) (h : j < n) :
    rdN n m a / 256 ^ j % 256 = m (a + j) % 256 := by
  induction n generalizing a j with
  | zero => omega
  | succ k ih =>
    simp only [rdN]
    cases j with
    | zero =>
      simp only [pow_zero, Nat.div_one, Nat.add_zero]
      omega
    | succ i =>
      rw [pow_succ, show 256 ^ i * 256 = 256 * 256 ^ i from Nat.mul_comm _ _,
        ← Nat.div_div_eq_div_mul]
      have h1 : (m a % 256 + 256 * rdN k m (a + 1)) / 256 = rdN k m (a + 1) := by omega
      rw [h1, ih (a + 1) i (by omega)]
      congr 2
      omega

/-- Adding 0 to a word leaves every byte as it is. -/
theorem patchN_zero (n : Nat) (m : Mem) (a x : Nat) : patchN n m a 0 x % 256 = m x % 256 := by
  by_cases hin : a ≤ x ∧ x < a + n
  · unfold patchN
    rw [wrN_inside _ _ _ _ _ hin.1 hin.2, Nat.add_zero, Nat.mod_eq_of_lt (rdN_lt n m a),
      rdN_digit n m a (x - a) (by omega), Nat.mod_mod]
    congr 2
    omega
  · rw [patchN_outside _ _ _ _ _ (by omega)]

theorem patchTargets_zero (ts : List (Nat × Nat)) (m : Mem) (x : Nat) :
    patchTargets 0 ts m x % 256 = m x % 256 := by
  induction ts generalizing m with
  | nil => rfl
  | cons t ts ih => rw [patchTargets_cons, ih, patchN_zero]

theorem foldl_patchEntry_eq (os : Win32) (dest d : Nat) (es : List Nat) (m : Mem) :
    es.foldl (fun m e => patchEntry os dest d e m) m =
      patchTargets d (es.filterMap (entryTarget os dest)) m := by
  induction es generalizing m with
  | nil => rfl
  | cons e es ih =>
    rw [List.foldl_cons, ih, List.filterMap_cons]
    unfold patchEntry
    cases entryTarget os dest e with
    | none => rfl
    | some t => rfl

theorem patchTargets_append (d : Nat) (a b : List (Nat × Nat)) (m : Mem) :
    patchTargets d (a ++ b) m = patchTargets d b (patchTargets d a m) := by
  unfold patchTargets
  rw [List.foldl_append]

/-- The effect of the blocks is the effect of patching the words they name. -/
theorem patchBlocks_eq (os : Win32) (codeBase d : Nat) (bs : List RelocBlock) (m : Mem) :
    patchBlocks os codeBase d bs m = patchTargets d (relocTargets os codeBase bs) m := by
  induction bs generalizing m with
  | nil => rfl
  | cons b bs ih =>
    have h1 : patchBlocks os codeBase d (b :: bs) m =
        patchBlocks os codeBase d bs (patchBlock os codeBase d b m) := rfl
    rw [h1, ih]
    simp only [relocTargets]
    rw [patchTargets_append]
    unfold patchBlock blockTargets
    rw [foldl_patchEntry_eq]

theorem entryTarget_dvd (os : Win32) (dest e : Nat) (t : Nat × Nat)
    (h : entryTarget os dest e = some t) : 256 ^ t.2 ∣ ptrMod os := by
  unfold entryTarget at h
  unfold ptrMod ptrBytes
  split at h
  · cases h
    split <;> norm_num
  · split at h
    · rename_i h64
      cases h
      rw [if_pos h64.1]
    · cases h

theorem relocTargets_dvd (os : Win32) (codeBase : Nat) (bs : List RelocBlock) :
    ∀ t ∈ relocTargets os codeBase bs, 256 ^ t.2 ∣ ptrMod os := by
  induction bs with
  | nil => intro t ht; cases ht
  | cons b bs ih =>
    intro t ht
    simp only [relocTargets, List.mem_append] at ht
    rcases ht with ht | ht
    · unfold blockTargets at ht
      rw [List.mem_filterMap] at ht
      obtain ⟨e, _, he⟩ := ht
      exact entryTarget_dvd os _ e t he
    · exact ih t ht

theorem patchTargets_mod (d K : Nat) (ts : List (Nat × Nat)) (m : Mem)
    (h : ∀ t ∈ ts, 256 ^ t.2 ∣ K) : patchTargets (d % K) ts m = patchTargets d ts m := by
  induction ts generalizing m with
  | nil => rfl
  | cons t ts ih =>
    rw [patchTargets_cons, patchTargets_cons, patchN_mod _ _ _ _ _ (h t (List.mem_cons_self _ _)),
      ih _ (fun u hu => h u (List.mem_cons_of_mem _ hu))]

/-- The description of the relocation directory only depends on its entry in
the header and on the bytes of the blocks. -/
theorem RelocTable_congr (os : Win32) (m1 m2 : Mem) (module : MEMORYMODULE)
    (bs : List RelocBlock)
    (hdir : ∀ x, GET_HEADER_DICTIONARY os module IMAGE_DIRECTORY_ENTRY_BASERELOC ≤ x →
      x < GET_HEADER_DICTIONARY os module IMAGE_DIRECTORY_ENTRY_BASERELOC + 8 → m1 x = m2 x)
    (hblk : ∀ x, relocBase os m1 module ≤ x →
      x < relocBase os m1 module + totalSize bs + 4 → m1 x = m2 x)
    (h : RelocTable os m1 module bs) :
    relocBase os m2 module = relocBase os m1 module ∧ RelocTable os m2 module bs := by
  have hb : relocBase os m2 module = relocBase os m1 module := by
    unfold relocBase
    congr 1
    exact (rdN_congr 4 m1 m2 _ (fun x hx1 hx2 => hdir x hx1 (by omega))).symm
  have hs : rd32 m2 (GET_HEADER_DICTIONARY os module IMAGE_DIRECTORY_ENTRY_BASERELOC + 4) =
      rd32 m1 (GET_HEADER_DICTIONARY os module IMAGE_DIRECTORY_ENTRY_BASERELOC + 4) :=
    (rdN_congr 4 m1 m2 _ (fun x hx1 hx2 => hdir x (by omega) (by omega))).symm
  refine ⟨hb, ?_⟩
  unfold RelocTable at h ⊢
  rw [hs, hb]
  split
  · rename_i hpos
    rw [if_pos hpos] at h
    exact RelocBlocks_congr m1 m2 _ bs hblk h
  · rename_i hpos
    rw [if_neg hpos] at h
    exact h

/-- C20 fails as stated.  (1) In `overlapImage` two entries name words that
overlap in two bytes, and no patched word overlaps the relocation blocks:
relocating by 1 and then by `0xFFFF0000` leaves `0xFFFF0000` in the word at
`0x1402`, relocating once by `0xFFFF0001` leaves 0 there.  (2) In
`headerPatchImage` the one entry names the field `VirtualAddress` of the
relocation directory in the header, again not overlapping the blocks: after
relocating by `0x100` the field holds `0x400`, so the second call finds no
block, whereas one call with `0x200` leaves `0x500`. -/
theorem relocation_additive_counterexample :
    (RelocTable sampleOS overlapImage (freshModule 0x1040 0x1000 0) overlapBlocks ∧
      RelocApart sampleOS overlapImage (freshModule 0x1040 0x1000 0) overlapBlocks ∧
      ((PerformBaseRelocation sampleOS (freshModule 0x1040 0x1000 0) 1 10
          ⟨overlapImage, []⟩).bind
        (fun s1 => PerformBaseRelocation sampleOS (freshModule 0x1040 0x1000 0) 0xFFFF0000 10
          s1)).map (fun s => rd32 s.mem 0x1402) = some 0xFFFF0000 ∧
      (PerformBaseRelocation sampleOS (freshModule 0x1040 0x1000 0) ((1 + 0xFFFF0000) % 2 ^ 32)
        10 ⟨overlapImage, []⟩).map (fun s => rd32 s.mem 0x1402) = some 0) ∧
    (RelocTable sampleOS headerPatchImage (freshModule 0x1040 0x1000 0) headerPatchBlocks ∧
      RelocApart sampleOS headerPatchImage (freshModule 0x1040 0x1000 0) headerPatchBlocks ∧
      ((PerformBaseRelocation sampleOS (freshModule 0x1040 0x1000 0) 0x100 10
          ⟨headerPatchImage, []⟩).bind
        (fun s1 => PerformBaseRelocation sampleOS (freshModule 0x1040 0x1000 0) 0x100 10
          s1)).map (fun s => rd32 s.mem 0x10E0) = some 0x400 ∧
      (PerformBaseRelocation sampleOS (freshModule 0x1040 0x1000 0) ((0x100 + 0x100) % 2 ^ 32)
        10 ⟨headerPatchImage, []⟩).map (fun s => rd32 s.mem 0x10E0) = some 0x500) := by
  decide

/-- C20 (as amended): let the relocation directory consist of the blocks `bs`
followed by a block whose `VirtualAddress` is 0, let no patched word overlap
these blocks or the entry of the directory in the header, and let any two
patched words be the same word or not overlap.  Then relocating by `d1` and
then by `d2` gives the same memory as relocating once by `d1 + d2` modulo the
pointer width; if `d1 + d2` is 0 modulo the pointer width, every byte is back
at its original value; and relocating by 0 leaves every byte as it is. -/
theorem relocation_additive (os : Win32) (module : MEMORYMODULE) (d1 d2 : Nat)
    (bs : List RelocBlock) (fuel : Nat) (s : Machine)
    (hT : RelocTable os s.mem module bs) (hA : RelocApart os s.mem module bs)
    (hH : RelocHeaderApart os module bs)
    (hC : TargetsCompatible (relocTargets os module.codeBase bs))
    (hfuel : relocFuel bs ≤ fuel) :
    ∃ s1 s2 s3, PerformBaseRelocation os module d1 fuel s = some s1 ∧
      PerformBaseRelocation os module d2 fuel s1 = some s2 ∧
      PerformBaseRelocation os module ((d1 + d2) % ptrMod os) fuel s = some s3 ∧
      s2.mem = s3.mem ∧
      ((d1 + d2) % ptrMod os = 0 → ∀ x, s2.mem x % 256 = s.mem x % 256) ∧
      ∃ s0, PerformBaseRelocation os module 0 fuel s = some s0 ∧
        ∀ x, s0.mem x % 256 = s.mem x % 256 := by
  have hout : ∀ x, (∀ t ∈ relocTargets os module.codeBase bs, x < t.1 ∨ t.1 + t.2 ≤ x) →
      patchBlocks os module.codeBase d1 bs s.mem x = s.mem x :=
    fun x hx => patchBlocks_outside os module.codeBase d1 bs s.mem x hx
  obtain ⟨hb1, hT1⟩ := RelocTable_congr os s.mem (patchBlocks os module.codeBase d1 bs s.mem)
    module bs
    (fun x hx1 hx2 => (hout x (fun t ht => by have := hH t ht; omega)).symm)
    (fun x hx1 hx2 => (hout x (fun t ht => by have := hA t ht; omega)).symm) hT
  have hA1 : RelocApart os (patchBlocks os module.codeBase d1 bs s.mem) module bs := by
    unfold RelocApart
    rw [hb1]
    exact hA
  have r1 := PerformBaseRelocation_static os module d1 bs fuel s hT hA hfuel
  have r2 := PerformBaseRelocation_static os module d2 bs fuel
    ⟨patchBlocks os module.codeBase d1 bs s.mem, s.trace⟩ hT1 hA1 hfuel
  have r3 := PerformBaseRelocation_static os module ((d1 + d2) % ptrMod os) bs fuel s hT hA hfuel
  have r0 := PerformBaseRelocation_static os module 0 bs fuel s hT hA hfuel
  have hsum : patchBlocks os module.codeBase d2 bs (patchBlocks os module.codeBase d1 bs s.mem) =
      patchBlocks os module.codeBase ((d1 + d2) % ptrMod os) bs s.mem := by
    rw [patchBlocks_eq, patchBlocks_eq, patchBlocks_eq, patchTargets_add d1 d2 _ _ hC,
      patchTargets_mod _ _ _ _ (relocTargets_dvd os module.codeBase bs)]
  refine ⟨_, _, _, r1, r2, r3, hsum, ?_, _, r0, ?_⟩
  · intro h0 x
    show patchBlocks os module.codeBase d2 bs (patchBlocks os module.codeBase d1 bs s.mem) x % 256 =
      s.mem x % 256
    rw [hsum, h0, patchBlocks_eq]
    exact patchTargets_zero _ _ x
  · intro x
    show patchBlocks os module.codeBase 0 bs s.mem x % 256 = s.mem x % 256
    rw [patchBlocks_eq]
    exact patchTargets_zero _ _ x

/-- C20 (as amended) on `relocImage`: relocating by `0x0FC00000` and then by
`0xF0400000` (its negative modulo `2 ^ 32`) puts back the word `0x00401234`. -/
theorem relocation_additive_witness :
    ∃ s1 s2 s3, PerformBaseRelocation sampleOS (freshModule 0x1040 0x1000 0) 0x0FC00000 4
        ⟨relocImage, []⟩ = some s1 ∧
      PerformBaseRelocation sampleOS (freshModule 0x1040 0x1000 0) 0xF0400000 4 s1 = some s2 ∧
      PerformBaseRelocation sampleOS (freshModule 0x1040 0x1000 0)
        ((0x0FC00000 + 0xF0400000) % ptrMod sampleOS) 4 ⟨relocImage, []⟩ = some s3 ∧
      s2.mem = s3.mem ∧ rd32 s1.mem 0x1408 = 0x10001234 ∧
      ∀ x, s2.mem x % 256 = relocImage x % 256 := by
  obtain ⟨s1, s2, s3, h1, h2, h3, h4, h5, _⟩ := relocation_additive sampleOS
    (freshModule 0x1040 0x1000 0) 0x0FC00000 0xF0400000 relocImageBlocks 4 ⟨relocImage, []⟩
    (by decide) (by decide) (by decide) (by decide) (by decide)
  have hv : (PerformBaseRelocation sampleOS (freshModule 0x1040 0x1000 0) 0x0FC00000 4
      ⟨relocImage, []⟩).map (fun s => rd32 s.mem 0x1408) = some 0x10001234 := by decide
  rw [h1] at hv
  simp only [Option.map_some', Option.some.injEq] at hv
  exact ⟨s1, s2, s3, h1, h2, h3, h4, hv, h5 (by decide)⟩

/-! ## The address `FinalizeSections` reconstructs on a 64-bit host -/

/-- C17 fails on a 64-bit host when the image region spans a 4 GiB boundary.
Loading `wideImage`, the region is reserved at `0xFFFF0000`; `CopySections`
commits the section at `codeBase + VirtualAddress = 0x100000000` and stores the
low 32 bits, 0, in `Misc.PhysicalAddress`; the `ImageBase` field of the copied
header holds `0xFFFF0000`, whose high 32 bits are 0; so `FinalizeSections`
calls `VirtualProtect` on the address `0 | 0 = 0` and not on `0x100000000`. -/
theorem finalize_address_wrong_across_4GiB :
    (MemoryLoadLibraryEx sampleOS64 (sampleHost 0 0) 10 0x1000 0 ⟨wideImage, []⟩).map
      (fun r => (r.2.trace, rd32 r.2.mem (0xFFFF0148 + off_PhysicalAddress),
        rd64 r.2.mem (0xFFFF0040 + off_ImageBase sampleOS64))) =
      some ([Event.virtualAlloc 0xFFFF0000 0x20000 (MEM_RESERVE ||| MEM_COMMIT) PAGE_READWRITE
          0xFFFF0000,
        Event.heapAlloc 64 0x500100,
        Event.virtualAlloc 0xFFFF0000 0x200 MEM_COMMIT PAGE_READWRITE 0xFFFF0000,
        Event.virtualAlloc 0x100000000 0x10 MEM_COMMIT PAGE_READWRITE 0x100000000,
        Event.virtualProtect 0 0x10 PAGE_EXECUTE_READ,
        Event.virtualFree 0xFFFF0000 0 MEM_RELEASE,
        Event.heapFree 0x500100], 0, 0xFFFF0000) := by
  decide

/-! ## `CopySections` on a described section table -/

theorem memcpy_outside (m : Mem) (dest src n x : Nat) (h : x < dest ∨ dest + n ≤ x) :
    memcpy m dest src n x = m x := by
  unfold memcpy
  rw [if_neg (by omega)]

theorem memcpy_inside (m : Mem) (dest src n j : Nat) (h : j < n) :
    memcpy m dest src n (dest + j) = m (src + j) := by
  unfold memcpy
  rw [if_pos ⟨by omega, by omega⟩]
  congr 2
  omega

theorem memset_outside (m : Mem) (dest c n x : Nat) (h : x < dest ∨ dest + n ≤ x) :
    memset m dest c n x = m x := by
  unfold memset
  rw [if_neg (by omega)]

theorem memset_inside (m : Mem) (dest c n j : Nat) (h : j < n) :
    memset m dest c n (dest + j) = c % 256 := by
  unfold memset
  rw [if_pos ⟨by omega, by omega⟩]

/-- The loop body of `CopySections` on a described header, when `VirtualAlloc`
returns the address it is asked to commit. -/
theorem copySection_static (os : Win32) (data old_headers : Nat) (module : MEMORYMODULE)
    (align sec : Nat) (e : SectionEntry) (s : Machine)
    (hal : rd32 s.mem (old_headers + off_SectionAlignment) = align)
    (hT : SectionTable s.mem sec [e])
    (hOS : ∀ size, os.virtualAlloc s.trace (module.codeBase + e.va) size MEM_COMMIT
      PAGE_READWRITE = module.codeBase + e.va)
    (hptr : module.codeBase + e.va < ptrMod os) :
    (copySection os data old_headers module sec s).mem =
      writeSection module.codeBase data align sec e s.mem := by
  obtain ⟨t1, t2, t3, _⟩ := hT
  have hret : ∀ size, (callVirtualAlloc os (module.codeBase + e.va) size MEM_COMMIT
      PAGE_READWRITE s).1 = module.codeBase + e.va := by
    intro size
    unfold callVirtualAlloc
    simp only
    rw [hOS, Nat.mod_eq_of_lt hptr]
  have hmem : ∀ size, (callVirtualAlloc os (module.codeBase + e.va) size MEM_COMMIT
      PAGE_READWRITE s).2.mem = s.mem := fun _ => rfl
  unfold copySection writeSection
  rw [t2, hal, t1]
  by_cases h0 : e.rawSize = 0
  · rw [if_pos h0, if_pos h0]
    by_cases ha : 0 < align ∧ align < 2 ^ 31
    · rw [if_pos ha, if_pos ha]
      simp only [Machine.setMem_mem, hret, hmem]
    · rw [if_neg ha, if_neg ha]
  · rw [if_neg h0, if_neg h0]
    simp only [Machine.setMem_mem, hret, hmem, t2, t3]

theorem writeSection_outside (codeBase data align sec : Nat) (e : SectionEntry) (m : Mem)
    (x : Nat)
    (h : ∀ w ∈ sectionWrites codeBase align sec [e], x < w.1 ∨ w.1 + w.2 ≤ x) :
    writeSection codeBase data align sec e m x = m x := by
  have h1 := h _ (List.mem_cons_self _ _)
  have h2 := h _ (List.mem_cons_of_mem _ (List.mem_cons_self _ _))
  simp only [SectionEntry.size] at h1 h2
  unfold writeSection
  by_cases h0 : e.rawSize = 0
  · by_cases ha : 0 < align ∧ align < 2 ^ 31
    · simp only [if_pos h0, if_pos ha] at h1 h2 ⊢
      rw [if_neg (by omega)] at h2
      rw [memset_outside _ _ _ _ _ h1]
      exact wrN_outside 4 _ _ _ _ h2
    · simp only [if_pos h0, if_neg ha]
  · simp only [if_neg h0] at h1 h2 ⊢
    unfold wr32
    rw [wrN_outside 4 _ _ _ _ h2, memcpy_outside _ _ _ _ _ h1]

/-- What `writeSection` leaves for its own section. -/
theorem writeSection_copied (codeBase data align sec : Nat) (e : SectionEntry) (m : Mem)
    (hA : Apart (codeBase + e.va) (e.size align) (sec + off_PhysicalAddress) 4) :
    (e.rawSize ≠ 0 → ∀ j, j < e.rawSize →
      writeSection codeBase data align sec e m (codeBase + e.va + j) =
        m (data + e.rawPtr + j)) ∧
    (e.rawSize = 0 → 0 < align ∧ align < 2 ^ 31 →
      ∀ j, j < align → writeSection codeBase data align sec e m (codeBase + e.va + j) = 0) ∧
    (e.size align ≠ 0 →
      rd32 (writeSection codeBase data align sec e m) (sec + off_PhysicalAddress) =
        (codeBase + e.va) % 2 ^ 32) := by
  have hlow : (codeBase + e.va) % 2 ^ 32 % 256 ^ 4 = (codeBase + e.va) % 2 ^ 32 := by
    rw [show (256 : Nat) ^ 4 = 2 ^ 32 by norm_num, Nat.mod_mod]
  unfold Apart at hA
  simp only [SectionEntry.size] at hA ⊢
  refine ⟨fun h0 j hj => ?_, fun h0 ha j hj => ?_, fun hsz => ?_⟩
  · rw [if_neg h0] at hA
    unfold writeSection wr32
    rw [if_neg h0, wrN_outside 4 _ _ _ _ (by omega), memcpy_inside _ _ _ _ _ hj]
  · rw [if_pos h0, if_pos ha] at hA
    unfold writeSection
    rw [if_pos h0, if_pos ha, memset_inside _ _ _ _ _ hj]
  · unfold writeSection
    by_cases h0 : e.rawSize = 0
    · rw [if_pos h0] at hA hsz ⊢
      by_cases ha : 0 < align ∧ align < 2 ^ 31
      · rw [if_pos ha] at hA ⊢
        have : rd32 (memset (wr32 m (sec + off_PhysicalAddress) ((codeBase + e.va) % 2 ^ 32))
            (codeBase + e.va) 0 align) (sec + off_PhysicalAddress) =
            rd32 (wr32 m (sec + off_PhysicalAddress) ((codeBase + e.va) % 2 ^ 32))
              (sec + off_PhysicalAddress) :=
          rdN_congr 4 _ _ _ (fun x hx1 hx2 => memset_outside _ _ _ _ _ (by omega))
        rw [this]
        unfold rd32 wr32
        rw [rdN_wrN_same, hlow]
      · rw [if_neg ha] at hsz
        exact absurd rfl hsz
    · rw [if_neg h0]
      unfold rd32 wr32
      rw [rdN_wrN_same, hlow]

theorem SectionTable_congr (data : Nat) (m1 m2 : Mem) (sec : Nat) (es : List SectionEntry)
    (h : ∀ r ∈ sectionReads data sec es, ∀ x, r.1 ≤ x → x < r.1 + r.2 → m2 x = m1 x)
    (hT : SectionTable m1 sec es) : SectionTable m2 sec es := by
  induction es generalizing sec with
  | nil => trivial
  | cons e es ih =>
    obtain ⟨t1, t2, t3, t4⟩ := hT
    have hf : ∀ x, sec + off_VirtualAddress ≤ x → x < sec + off_VirtualAddress + 12 →
        m2 x = m1 x := h (sec + off_VirtualAddress, 12) (List.mem_cons_self _ _)
    have o1 : off_VirtualAddress = 12 := rfl
    have o2 : off_SizeOfRawData = 16 := rfl
    have o3 : off_PointerToRawData = 20 := rfl
    refine ⟨?_, ?_, ?_, ih _ (fun r hr => h r
      (List.mem_cons_of_mem _ (List.mem_cons_of_mem _ hr))) t4⟩
    · rw [← t1]
      exact rdN_congr 4 _ _ _ (fun x hx1 hx2 => hf x (by omega) (by omega))
    · rw [← t2]
      exact rdN_congr 4 _ _ _ (fun x hx1 hx2 => hf x (by omega) (by omega))
    · rw [← t3]
      exact rdN_congr 4 _ _ _ (fun x hx1 hx2 => hf x (by omega) (by omega))

theorem Copied_congr_src (codeBase data align : Nat) (m0 m1 m2 : Mem) (sec : Nat)
    (es : List SectionEntry)
    (h : ∀ r ∈ sectionReads data sec es, ∀ x, r.1 ≤ x → x < r.1 + r.2 → m1 x = m0 x)
    (hC : Copied codeBase data align m1 m2 sec es) : Copied codeBase data align m0 m2 sec es := by
  induction es generalizing sec with
  | nil => trivial
  | cons e es ih =>
    obtain ⟨c1, c2, c3, c4⟩ := hC
    refine ⟨fun h0 j hj => ?_, c2, c3, ih _ (fun r hr => h r
      (List.mem_cons_of_mem _ (List.mem_cons_of_mem _ hr))) c4⟩
    rw [c1 h0 j hj]
    exact h (data + e.rawPtr, e.rawSize) (List.mem_cons_of_mem _ (List.mem_cons_self _ _)) _
      (by simp only; omega) (by simp only; omega)

/-- The loop of `CopySections` on a described section table. -/
theorem copySectionsLoop_static (os : Win32) (data old_headers : Nat) (module : MEMORYMODULE)
    (align : Nat) (es : List SectionEntry) (fuel i sec : Nat) (s : Machine)
    (hN : rd16 s.mem (module.headers + off_NumberOfSections) = i + es.length)
    (hal : rd32 s.mem (old_headers + off_SectionAlignment) = align)
    (hT : SectionTable s.mem sec es)
    (hOS : ∀ t size, ∀ e ∈ es, os.virtualAlloc t (module.codeBase + e.va) size MEM_COMMIT
      PAGE_READWRITE = module.codeBase + e.va)
    (hptr : ∀ e ∈ es, module.codeBase + e.va < ptrMod os)
    (hL : SectionLayout module.codeBase data align (module.headers + off_NumberOfSections)
      (old_headers + off_SectionAlignment) sec es)
    (hfuel : es.length < fuel) :
    (∀ x, (∀ w ∈ sectionWrites module.codeBase align sec es, x < w.1 ∨ w.1 + w.2 ≤ x) →
      (copySectionsLoop os data old_headers module fuel i sec s).mem x = s.mem x) ∧
    Copied module.codeBase data align s.mem
      (copySectionsLoop os data old_headers module fuel i sec s).mem sec es := by
  induction es generalizing fuel i sec s with
  | nil =>
    obtain ⟨n, rfl⟩ : ∃ n, fuel = n + 1 := ⟨fuel - 1, by simp at hfuel; omega⟩
    simp only [List.length_nil, Nat.add_zero] at hN
    simp only [copySectionsLoop]
    rw [if_neg (by omega)]
    exact ⟨fun _ _ => rfl, trivial⟩
  | cons e es ih =>
    obtain ⟨n, rfl⟩ : ∃ n, fuel = n + 1 := ⟨fuel - 1, by omega⟩
    simp only [List.length_cons] at hN hfuel
    obtain ⟨l1, l2, l3⟩ := hL
    simp only [copySectionsLoop]
    rw [if_pos (by omega)]
    have hbody := copySection_static os data old_headers module align sec e s hal
      ⟨hT.1, hT.2.1, hT.2.2.1, trivial⟩
      (fun size => hOS s.trace size e (List.mem_cons_self _ _))
      (hptr e (List.mem_cons_self _ _))
    generalize copySection os data old_headers module sec s = s1 at hbody ⊢
    -- what the body has not touched
    have hkeep : ∀ b k : Nat, (∀ w ∈ sectionWrites module.codeBase align sec [e],
        Apart w.1 w.2 b k) → ∀ x, b ≤ x → x < b + k → s1.mem x = s.mem x := by
      intro b k hw x hx1 hx2
      rw [hbody]
      exact writeSection_outside _ _ _ _ _ _ _ (fun w hw1 => Apart_outside (hw w hw1) hx1 hx2)
    have hN1 : rd16 s1.mem (module.headers + off_NumberOfSections) = (i + 1) + es.length := by
      rw [← show i + (es.length + 1) = (i + 1) + es.length by omega, ← hN]
      exact rdN_congr 2 _ _ _ (hkeep _ 2 (fun w hw => (l1 w hw).1))
    have hal1 : rd32 s1.mem (old_headers + off_SectionAlignment) = align := by
      rw [← hal]
      exact rdN_congr 4 _ _ _ (hkeep _ 4 (fun w hw => (l1 w hw).2.1))
    have hreads : ∀ r ∈ sectionReads data (sec + sizeofSectionHeader) es,
        ∀ x, r.1 ≤ x → x < r.1 + r.2 → s1.mem x = s.mem x :=
      fun r hr => hkeep r.1 r.2 (fun w hw => (l1 w hw).2.2.1 r hr)
    have hT1 : SectionTable s1.mem (sec + sizeofSectionHeader) es :=
      SectionTable_congr data s.mem s1.mem _ es hreads hT.2.2.2
    obtain ⟨f1, f2⟩ := ih n (i + 1) (sec + sizeofSectionHeader) s1 hN1 hal1 hT1
      (fun t size e1 he1 => hOS t size e1 (List.mem_cons_of_mem _ he1))
      (fun e1 he1 => hptr e1 (List.mem_cons_of_mem _ he1)) l3 (by omega)
    generalize copySectionsLoop os data old_headers module n (i + 1)
      (sec + sizeofSectionHeader) s1 = s2 at f1 f2 ⊢
    -- what the rest of the loop has not touched
    have hhead : ∀ w ∈ sectionWrites module.codeBase align sec [e],
        ∀ x, w.1 ≤ x → x < w.1 + w.2 → s2.mem x = s1.mem x := by
      intro w hw x hx1 hx2
      apply f1
      intro v hv
      have := (l1 w hw).2.2.2 v hv
      unfold Apart at this
      omega
    have hw1 : (module.codeBase + e.va, e.size align) ∈
        sectionWrites module.codeBase align sec [e] := List.mem_cons_self _ _
    have hw2 : (sec + off_PhysicalAddress, if e.size align = 0 then 0 else 4) ∈
        sectionWrites module.codeBase align sec [e] :=
      List.mem_cons_of_mem _ (List.mem_cons_self _ _)
    obtain ⟨c1, c2, c3⟩ := writeSection_copied module.codeBase data align sec e s.mem l2
    rw [← hbody] at c1 c2 c3
    refine ⟨?_, ?_, ?_, ?_, Copied_congr_src _ _ _ _ _ _ _ _ hreads f2⟩
    · intro x hx
      rw [f1 x (fun w hw => hx w (List.mem_cons_of_mem _ (List.mem_cons_of_mem _ hw))), hbody]
      exact writeSection_outside _ _ _ _ _ _ _ (fun w hw => by
        simp only [sectionWrites, List.mem_cons, List.mem_singleton, List.not_mem_nil,
          or_false] at hw
        rcases hw with rfl | rfl
        · exact hx _ (List.mem_cons_self _ _)
        · exact hx _ (List.mem_cons_of_mem _ (List.mem_cons_self _ _)))
    · intro h0 j hj
      rw [hhead _ hw1 _ (by simp only; omega)
        (by simp only [SectionEntry.size, if_neg h0]; omega)]
      exact c1 h0 j hj
    · intro h0 ha j hj
      rw [hhead _ hw1 _ (by simp only; omega)
        (by simp only [SectionEntry.size, if_pos h0, if_pos ha]; omega)]
      exact c2 h0 ha j hj
    · intro hsz
      rw [← c3 hsz]
      exact rdN_congr 4 _ _ _ (fun x hx1 hx2 => hhead _ hw2 x hx1
        (by simp only [if_neg hsz]; omega))

/-- C18, where the code misses the address it asks for: on `pageOS`, where
committing returns the base of the page as Windows does, `CopySections` asks
`VirtualAlloc` for `codeBase + VirtualAddress = 0x401200` for the one section of
`unalignedImage` (`SectionAlignment = 0x200`, `VirtualAddress = 0x1200`, 8 bytes
of raw data, disjoint from the header region), but copies the raw data to the
address returned, `0x401000`, and records that address: afterwards the bytes
at `codeBase + VirtualAddress` are zero, not the raw data, and
`Misc.PhysicalAddress` holds `0x401000`, not `0x401200`. -/
theorem CopySections_misplaces_unaligned_section :
    rd32 unalignedImage (0x1040 + off_SectionAlignment) = 0x200 ∧
    rd32 unalignedImage (0x1138 + off_VirtualAddress) = 0x1200 ∧
    rd32 unalignedImage (0x1138 + off_SizeOfRawData) = 8 ∧
    rd32 unalignedImage (0x1138 + off_PointerToRawData) = 0x300 ∧
    rd64 unalignedImage (0x1000 + 0x300) = 0x1122334455667788 ∧
    (afterHeaders pageOS unalignedImage).1.codeBase = 0x400000 ∧
    (CopySections pageOS 0x1000 0x1040 (afterHeaders pageOS unalignedImage).1
      (afterHeaders pageOS unalignedImage).2).trace.drop 1 =
      [Event.virtualAlloc 0x401200 8 MEM_COMMIT PAGE_READWRITE 0x401000] ∧
    rd64 (CopySections pageOS 0x1000 0x1040 (afterHeaders pageOS unalignedImage).1
      (afterHeaders pageOS unalignedImage).2).mem (0x400000 + 0x1200) = 0 ∧
    rd64 (CopySections pageOS 0x1000 0x1040 (afterHeaders pageOS unalignedImage).1
      (afterHeaders pageOS unalignedImage).2).mem 0x401000 = 0x1122334455667788 ∧
    rd32 (CopySections pageOS 0x1000 0x1040 (afterHeaders pageOS unalignedImage).1
      (afterHeaders pageOS unalignedImage).2).mem (0x400138 + off_PhysicalAddress) =
      0x401000 := by
  decide

/-- For `hugeAlignImage`, whose `SectionAlignment` is `0x80000000` (negative as
the `int size` of line 96), the section without raw data is skipped: nothing
is committed and `Misc.PhysicalAddress` still holds `0x1234`. -/
theorem CopySections_skips_huge_alignment :
    rd32 hugeAlignImage (0x1040 + off_SectionAlignment) = 0x80000000 ∧
    (CopySections sampleOS 0x1000 0x1040 (afterHeaders sampleOS hugeAlignImage).1
      (afterHeaders sampleOS hugeAlignImage).2).trace.drop 1 = [] ∧
    rd32 (CopySections sampleOS 0x1000 0x1040 (afterHeaders sampleOS hugeAlignImage).1
      (afterHeaders sampleOS hugeAlignImage).2).mem (0x400138 + off_PhysicalAddress) =
      0x1234 := by
  decide

/-- Where `CopySections` does what it is meant to: let the section headers of
the mapped image say `es` and `NumberOfSections` be their number, let every
committing `VirtualAlloc` return the address it is asked for (as it does for
page-aligned section addresses), and let the layout assumption `SectionLayout`
hold (what is written for a section overlaps neither the header fields and raw
data still to be read nor what is written for another section).  Then after
`CopySections`, for every section: if `SizeOfRawData ≠ 0`, the `SizeOfRawData`
bytes at `codeBase + VirtualAddress` are the input bytes from `PointerToRawData`
on; if `SizeOfRawData = 0` and `0 < SectionAlignment < 2 ^ 31`, the
`SectionAlignment` bytes there are zero; in both cases `Misc.PhysicalAddress`
holds the low 32 bits of `codeBase + VirtualAddress`; and every byte outside
these ranges and fields is unchanged. -/
theorem CopySections_copies (os : Win32) (data old_headers : Nat) (module : MEMORYMODULE)
    (align : Nat) (es : List SectionEntry) (s : Machine)
    (hN : rd16 s.mem (module.headers + off_NumberOfSections) = es.length)
    (hal : rd32 s.mem (old_headers + off_SectionAlignment) = align)
    (hT : SectionTable s.mem (IMAGE_FIRST_SECTION s.mem module.headers) es)
    (hOS : ∀ t size, ∀ e ∈ es, os.virtualAlloc t (module.codeBase + e.va) size MEM_COMMIT
      PAGE_READWRITE = module.codeBase + e.va)
    (hptr : ∀ e ∈ es, module.codeBase + e.va < ptrMod os)
    (hL : SectionLayout module.codeBase data align (module.headers + off_NumberOfSections)
      (old_headers + off_SectionAlignment) (IMAGE_FIRST_SECTION s.mem module.headers) es) :
    Copied module.codeBase data align s.mem (CopySections os data old_headers module s).mem
      (IMAGE_FIRST_SECTION s.mem module.headers) es ∧
    ∀ x, (∀ w ∈ sectionWrites module.codeBase align
        (IMAGE_FIRST_SECTION s.mem module.headers) es, x < w.1 ∨ w.1 + w.2 ≤ x) →
      (CopySections os data old_headers module s).mem x = s.mem x := by
  have hlen : es.length < 65536 := by
    rw [← hN]
    exact rd16_lt _ _
  obtain ⟨h1, h2⟩ := copySectionsLoop_static os data old_headers module align es 65536 0
    (IMAGE_FIRST_SECTION s.mem module.headers) s (by rw [hN]; omega) hal hT hOS hptr hL hlen
  exact ⟨h2, h1⟩

/-- The same on `twoSecImage`, mapped at `0x400000` on `sampleOS`. -/
theorem CopySections_copies_witness :
    (Copied 0x400000 0x1000 0x1000 (afterHeaders sampleOS twoSecImage).2.mem
      (CopySections sampleOS 0x1000 0x1040 (afterHeaders sampleOS twoSecImage).1
        (afterHeaders sampleOS twoSecImage).2).mem 0x400138 twoSecEntries ∧
    ∀ x, (∀ w ∈ sectionWrites 0x400000 0x1000 0x400138 twoSecEntries,
        x < w.1 ∨ w.1 + w.2 ≤ x) →
      (CopySections sampleOS 0x1000 0x1040 (afterHeaders sampleOS twoSecImage).1
        (afterHeaders sampleOS twoSecImage).2).mem x =
        (afterHeaders sampleOS twoSecImage).2.mem x) ∧
    rd64 (CopySections sampleOS 0x1000 0x1040 (afterHeaders sampleOS twoSecImage).1
      (afterHeaders sampleOS twoSecImage).2).mem 0x401000 = 0x1122334455667788 :=
  ⟨CopySections_copies sampleOS 0x1000 0x1040 (afterHeaders sampleOS twoSecImage).1 0x1000
    twoSecEntries (afterHeaders sampleOS twoSecImage).2 (by decide) (by decide) (by decide)
    (by
      intro t size e he
      have hva : 0x400000 + e.va ≠ 0 := by omega
      show (if 0x400000 + e.va = 0 then 0x10000000 else 0x400000 + e.va) = 0x400000 + e.va
      rw [if_neg hva])
    (by decide) (by decide), by decide⟩

/-! ## What stays of the header copy -/

theorem copySection_frame (os : Win32) (data old_headers : Nat) (module : MEMORYMODULE)
    (sec : Nat) (s : Machine) (x : Nat)
    (h : ∀ w ∈ copySectionWrites os old_headers module sec s, x < w.1 ∨ w.1 + w.2 ≤ x) :
    (copySection os data old_headers module sec s).mem x = s.mem x := by
  unfold copySectionWrites at h
  unfold copySection
  by_cases h0 : rd32 s.mem (sec + off_SizeOfRawData) = 0
  · simp only [if_pos h0] at h ⊢
    by_cases ha : 0 < rd32 s.mem (old_headers + off_SectionAlignment) ∧
        rd32 s.mem (old_headers + off_SectionAlignment) < 2 ^ 31
    · simp only [if_pos ha] at h ⊢
      have h1 := h _ (List.mem_cons_self _ _)
      have h2 := h _ (List.mem_cons_of_mem _ (List.mem_cons_self _ _))
      simp only [Machine.setMem_mem]
      rw [memset_outside _ _ _ _ _ h2]
      exact wrN_outside 4 _ _ _ _ h1
    · simp only [if_neg ha]
  · simp only [if_neg h0] at h ⊢
    have h1 := h _ (List.mem_cons_self _ _)
    have h2 := h _ (List.mem_cons_of_mem _ (List.mem_cons_self _ _))
    simp only [Machine.setMem_mem]
    unfold wr32
    rw [wrN_outside 4 _ _ _ _ h2]
    exact memcpy_outside _ _ _ _ _ h1

theorem copySectionsLoop_frame (os : Win32) (data old_headers : Nat) (module : MEMORYMODULE)
    (fuel i sec : Nat) (s : Machine) (x : Nat)
    (h : ∀ w ∈ copySectionsWrites os data old_headers module fuel i sec s,
      x < w.1 ∨ w.1 + w.2 ≤ x) :
    (copySectionsLoop os data old_headers module fuel i sec s).mem x = s.mem x := by
  induction fuel generalizing i sec s with
  | zero => rfl
  | succ n ih =>
    simp only [copySectionsWrites] at h
    simp only [copySectionsLoop]
    split
    · rename_i hi
      rw [if_pos hi] at h
      rw [ih _ _ _ (fun w hw => h w (List.mem_append_right _ hw))]
      exact copySection_frame os data old_headers module sec s x
        (fun w hw => h w (List.mem_append_left _ hw))
    · rfl

theorem bindThunks_frame (os : Win32) (cb : Callbacks) (module : MEMORYMODULE)
    (handle fuel thunkRef funcRef : Nat) (s s' : Machine) (r : Bool) (x : Nat)
    (hrun : bindThunks os cb module handle fuel thunkRef funcRef s = some (r, s'))
    (h : ∀ w ∈ bindThunksWrites os cb module handle fuel thunkRef funcRef s,
      x < w.1 ∨ w.1 + w.2 ≤ x) :
    s'.mem x = s.mem x := by
  induction fuel generalizing thunkRef funcRef s with
  | zero => simp [bindThunks] at hrun
  | succ n ih =>
    simp only [bindThunks] at hrun
    simp only [bindThunksWrites] at h
    split at hrun
    · cases hrun
      rfl
    · rename_i hz
      rw [if_neg hz] at h
      have hb : (bindThunk os cb module handle (rdPtr os s.mem thunkRef) funcRef s).mem x =
          s.mem x := by
        unfold bindThunk
        simp only [Machine.setMem_mem]
        unfold wrPtr
        rw [wrN_outside _ _ _ _ _ (h _ (List.mem_cons_self _ _))]
        rfl
      split at hrun
      · cases hrun
        exact hb
      · rename_i hnz
        rw [if_neg hnz] at h
        rw [ih _ _ _ hrun (fun w hw => h w (List.mem_cons_of_mem _ hw))]
        exact hb

theorem growModules_mem (os : Win32) (module : MEMORYMODULE) (s : Machine) :
    (growModules os module s).2.mem = s.mem := by
  unfold growModules
  split <;> rfl

theorem importDescriptor_frame (os : Win32) (cb : Callbacks) (fuel importDesc : Nat)
    (module module1 : MEMORYMODULE) (s s1 : Machine) (r : Bool) (x : Nat)
    (hrun : importDescriptor os cb fuel importDesc module s = some (r, module1, s1))
    (h : ∀ w ∈ importDescriptorWrites os cb fuel importDesc module s,
      x < w.1 ∨ w.1 + w.2 ≤ x) :
    s1.mem x = s.mem x := by
  unfold importDescriptor at hrun
  unfold importDescriptorWrites at h
  dsimp only at hrun h
  have hl := callLoadLibrary_mem os cb
    (module.codeBase + rd32 s.mem (importDesc + off_Name)) module.userdata s
  generalize callLoadLibrary os cb (module.codeBase + rd32 s.mem (importDesc + off_Name))
    module.userdata s = l at hrun h hl
  have hg := growModules_mem os module l.2
  generalize growModules os module l.2 = g at hrun h hg
  split at hrun
  · cases hrun
    simp only [Machine.log_mem, hl]
  · rename_i hh
    rw [if_neg hh] at h
    split at hrun
    · cases hrun
      simp only [Machine.log_mem, hg, hl]
    · rename_i hgz
      rw [if_neg hgz] at h
      split at hrun
      · cases hrun
      · rename_i s3 hb
        cases hrun
        simp only [Machine.log_mem]
        rw [bindThunks_frame _ _ _ _ _ _ _ _ _ _ x hb h, hg, hl]
      · rename_i s3 hb
        cases hrun
        rw [bindThunks_frame _ _ _ _ _ _ _ _ _ _ x hb h, hg, hl]

theorem importLoop_frame (os : Win32) (cb : Callbacks) (fuel importDesc : Nat)
    (module module1 : MEMORYMODULE) (s s1 : Machine) (r : Bool) (x : Nat)
    (hrun : importLoop os cb fuel importDesc module s = some (r, module1, s1))
    (h : ∀ w ∈ importLoopWrites os cb fuel importDesc module s, x < w.1 ∨ w.1 + w.2 ≤ x) :
    s1.mem x = s.mem x := by
  induction fuel generalizing importDesc module s with
  | zero => simp [importLoop] at hrun
  | succ n ih =>
    simp only [importLoop] at hrun
    simp only [importLoopWrites] at h
    split at hrun
    · cases hrun
      rfl
    · rename_i hbad
      rw [if_neg hbad] at h
      split at hrun
      · cases hrun
        rfl
      · rename_i hname
        rw [if_neg hname] at h
        split at hrun
        · cases hrun
        · rename_i m1 s2 hd
          cases hrun
          exact importDescriptor_frame os cb n importDesc module _ s _ false x hd
            (fun w hw => h w (List.mem_append_left _ hw))
        · rename_i m1 s2 hd
          rw [hd] at h
          rw [ih _ _ _ hrun (fun w hw => h w (List.mem_append_right _ hw))]
          exact importDescriptor_frame os cb n importDesc module _ s _ true x hd
            (fun w hw => h w (List.mem_append_left _ hw))

theorem BuildImportTable_frame (os : Win32) (cb : Callbacks) (fuel : Nat)
    (module module1 : MEMORYMODULE) (s s1 : Machine) (r : Bool) (x : Nat)
    (hrun : BuildImportTable os cb fuel module s = some (r, module1, s1))
    (h : ∀ w ∈ BuildImportTableWrites os cb fuel module s, x < w.1 ∨ w.1 + w.2 ≤ x) :
    s1.mem x = s.mem x := by
  unfold BuildImportTable at hrun
  unfold BuildImportTableWrites at h
  dsimp only at hrun
  split at hrun
  · rename_i hsz
    rw [if_pos hsz] at h
    exact importLoop_frame os cb fuel _ module module1 s s1 r x hrun h
  · cases hrun
    rfl

theorem PerformBaseRelocation_frame (os : Win32) (module : MEMORYMODULE) (delta fuel : Nat)
    (s s' : Machine) (x : Nat)
    (hrun : PerformBaseRelocation os module delta fuel s = some s')
    (h : ∀ w ∈ relocationWrites os module delta fuel s, x < w.1 ∨ w.1 + w.2 ≤ x) :
    s'.mem x = s.mem x := by
  rw [← PerformBaseRelocationLog_fst] at hrun
  unfold relocationWrites at h
  cases hl : PerformBaseRelocationLog os module delta fuel s with
  | none => rw [hl] at hrun; cases hrun
  | some r =>
    rw [hl] at hrun h
    simp only [Option.map_some', Option.some.injEq] at hrun
    subst hrun
    rw [PerformBaseRelocationLog_replay os module delta fuel s r.1 r.2 hl]
    apply replay_outside
    intro v hv t ht
    exact h t (List.mem_flatten.mpr ⟨_, List.mem_map_of_mem _ hv, ht⟩)

theorem placeImage_frame (os : Win32) (cb : Callbacks) (fuel data old_header : Nat)
    (module : MEMORYMODULE) (s s1 : Machine) (x : Nat)
    (hrun : placeImage os fuel data old_header module s = some s1)
    (h : ∀ w ∈ loaderWrites os cb fuel data old_header module s, x < w.1 ∨ w.1 + w.2 ≤ x) :
    s1.mem x = s.mem x := by
  have hc : (CopySections os data old_header module s).mem x = s.mem x :=
    copySectionsLoop_frame os data old_header module _ _ _ s x
      (fun w hw => h w (List.mem_append_left _ (List.mem_append_left _ hw)))
  unfold placeImage at hrun
  dsimp only at hrun
  split at hrun
  · rename_i hd
    rw [PerformBaseRelocation_frame os module _ fuel _ s1 x hrun (fun w hw => h w (by
      unfold loaderWrites
      rw [if_pos hd]
      exact List.mem_append_left _ (List.mem_append_right _ hw)))]
    exact hc
  · cases hrun
    exact hc

/-- C12 fails as stated: `iatOnBaseImage` has no sections and (loaded at its
preferred base, with an empty relocation directory) no relocation targets, but
the address table of its import descriptor lies on the field `ImageBase` of
the copied headers.  `BuildImportTable` succeeds and stores the address
`0x7100` of the imported symbol in that field, so when the entry point is
called (at `0x400200`) the field does not hold `codeBase = 0x400000`. -/
theorem header_field_counterexample :
    rd16 iatOnBaseImage (0x1040 + off_NumberOfSections) = 0 ∧
    rd32 iatOnBaseImage (0x1040 + off_DataDirectory sampleOS +
      8 * IMAGE_DIRECTORY_ENTRY_BASERELOC + 4) = 0 ∧
    (loadAndBind sampleOS (sampleHost 0x7100 0x7200) 10 0x1000 0xBEEF
      ⟨iatOnBaseImage, []⟩).map
      (fun r => match r with
        | Sum.inr (_, b, module, s2) =>
          some (b, module.codeBase, imageBaseField sampleOS module,
            rdPtr sampleOS (FinalizeSections sampleOS module s2).mem
              (imageBaseField sampleOS module))
        | Sum.inl _ => none) =
      some (some (true, 0x400000, 0x400074, 0x7100)) ∧
    (MemoryLoadLibraryEx sampleOS (sampleHost 0x7100 0x7200) 10 0x1000 0xBEEF
      ⟨iatOnBaseImage, []⟩).map (fun r => r.2.trace.filter Event.isEntry) =
      some [Event.dllEntry 0x400200 0xBEEF] := by
  decide

/-- C12 (as amended): let the `VirtualAlloc` that commits the headers return
`code`, the address it is asked for.  After the header copy (lines 418-429)
the first `SizeOfHeaders` bytes at `code` are those of the input, except for
the bytes of the field `ImageBase` of the copied NT headers, which holds
`code`; the input buffer `[data, data + len)` is unchanged if it overlaps
neither the copy nor that field; and if nothing the loader writes afterwards
(section data and the fields `Misc.PhysicalAddress` in `CopySections`, the words
patched by `PerformBaseRelocation`, the address-table slots of
`BuildImportTable`) overlaps the field, it still holds `code` in the memory in
which the entry point is called, that is after `FinalizeSections`. -/
theorem header_copy_effect (os : Win32) (cb : Callbacks)
    (fuel data old_header code userdata len : Nat) (s : Machine)
    (hOS : os.virtualAlloc s.trace code (rd32 s.mem (old_header + off_SizeOfHeaders)) MEM_COMMIT
      PAGE_READWRITE = code)
    (hcode : code < ptrMod os)
    (hin1 : Apart data len code (rd32 s.mem (old_header + off_SizeOfHeaders)))
    (hin2 : Apart data len
      (imageBaseField os (copyHeaders os data old_header code userdata s).1) (ptrBytes os)) :
    (∀ j, j < rd32 s.mem (old_header + off_SizeOfHeaders) →
      (code + j < imageBaseField os (copyHeaders os data old_header code userdata s).1 ∨
        imageBaseField os (copyHeaders os data old_header code userdata s).1 + ptrBytes os ≤
          code + j) →
      (copyHeaders os data old_header code userdata s).2.mem (code + j) = s.mem (data + j)) ∧
    rdPtr os (copyHeaders os data old_header code userdata s).2.mem
      (imageBaseField os (copyHeaders os data old_header code userdata s).1) = code ∧
    (∀ x, data ≤ x → x < data + len →
      (copyHeaders os data old_header code userdata s).2.mem x = s.mem x) ∧
    (∀ s2 r module1 s3,
      placeImage os fuel data old_header (copyHeaders os data old_header code userdata s).1
        (copyHeaders os data old_header code userdata s).2 = some s2 →
      BuildImportTable os cb fuel (copyHeaders os data old_header code userdata s).1 s2 =
        some (r, module1, s3) →
      (∀ w ∈ loaderWrites os cb fuel data old_header
          (copyHeaders os data old_header code userdata s).1
          (copyHeaders os data old_header code userdata s).2,
        Apart w.1 w.2 (imageBaseField os (copyHeaders os data old_header code userdata s).1)
          (ptrBytes os)) →
      module1.codeBase = code ∧
      rdPtr os (FinalizeSections os module1 s3).mem (imageBaseField os module1) = code) := by
  have hret : (callVirtualAlloc os code (rd32 s.mem (old_header + off_SizeOfHeaders)) MEM_COMMIT
      PAGE_READWRITE s).1 = code := by
    unfold callVirtualAlloc
    simp only
    rw [hOS, Nat.mod_eq_of_lt hcode]
  have hm : (copyHeaders os data old_header code userdata s).2.mem =
      wrPtr os (memcpy s.mem code data (rd32 s.mem (old_header + off_SizeOfHeaders)))
        (imageBaseField os (copyHeaders os data old_header code userdata s).1) code := by
    unfold copyHeaders imageBaseField
    simp only [Machine.setMem_mem, hret]
    rfl
  obtain ⟨field, hfld⟩ : ∃ f, f = imageBaseField os
      (copyHeaders os data old_header code userdata s).1 := ⟨_, rfl⟩
  rw [← hfld] at hin2 hm ⊢
  have hfield : rdPtr os (copyHeaders os data old_header code userdata s).2.mem field = code := by
    rw [hm]
    unfold rdPtr wrPtr
    rw [rdN_wrN_same]
    exact Nat.mod_eq_of_lt hcode
  refine ⟨fun j hj hout => ?_, hfield, fun x hx1 hx2 => ?_, ?_⟩
  · rw [hm]
    unfold wrPtr
    rw [wrN_outside _ _ _ _ _ hout]
    exact memcpy_inside _ _ _ _ _ hj
  · rw [hm]
    unfold wrPtr
    have h2 : x < field ∨ field + ptrBytes os ≤ x := by
      unfold Apart at hin2
      have := ptrBytes_pos os
      omega
    rw [wrN_outside _ _ _ _ _ h2]
    apply memcpy_outside
    unfold Apart at hin1
    omega
  · intro s2 r module1 s3 hp hb hw
    obtain ⟨c1, c2, _⟩ := BuildImportTable_fields os cb fuel _ module1 s2 s3 r hb
    have hfm : imageBaseField os module1 = field := by
      rw [hfld]
      unfold imageBaseField
      rw [c2]
    have hframe : ∀ x, field ≤ x → x < field + ptrBytes os →
        s3.mem x = (copyHeaders os data old_header code userdata s).2.mem x := by
      intro x hx1 hx2
      have hout : ∀ w ∈ loaderWrites os cb fuel data old_header
          (copyHeaders os data old_header code userdata s).1
          (copyHeaders os data old_header code userdata s).2, x < w.1 ∨ w.1 + w.2 ≤ x :=
        fun w hw1 => Apart_outside (hw w hw1) hx1 hx2
      rw [BuildImportTable_frame os cb fuel _ module1 s2 s3 r x hb (fun w hw1 => hout w (by
          unfold loaderWrites
          simp only [hp]
          exact List.mem_append_right _ hw1)),
        placeImage_frame os cb fuel data old_header _ _ s2 x hp hout]
    refine ⟨c1, ?_⟩
    rw [FinalizeSections_mem, hfm, ← hfield]
    exact rdN_congr _ _ _ _ hframe

/-- C12 (as amended) on `sampleImage`, copied from the buffer at `0x1000` to
`0x400000`: the field `ImageBase` of the copy (at `0x400074`) holds `0x400000`
after the header copy, the input is unchanged, and the field still holds
`0x400000` after the import table has been bound. -/
theorem header_copy_effect_witness :
    rdPtr sampleOS (copyHeaders sampleOS 0x1000 0x1040 0x400000 0xBEEF ⟨sampleImage, []⟩).2.mem
      0x400074 = 0x400000 ∧
    (∀ x, 0x1000 ≤ x → x < 0x1000 + 0x400 →
      (copyHeaders sampleOS 0x1000 0x1040 0x400000 0xBEEF ⟨sampleImage, []⟩).2.mem x =
        sampleImage x) ∧
    ∃ s2 out,
      placeImage sampleOS 10 0x1000 0x1040
        (copyHeaders sampleOS 0x1000 0x1040 0x400000 0xBEEF ⟨sampleImage, []⟩).1
        (copyHeaders sampleOS 0x1000 0x1040 0x400000 0xBEEF ⟨sampleImage, []⟩).2 = some s2 ∧
      BuildImportTable sampleOS (sampleHost 0x7100 0x7200) 10
        (copyHeaders sampleOS 0x1000 0x1040 0x400000 0xBEEF ⟨sampleImage, []⟩).1 s2 = some out ∧
      out.2.1.codeBase = 0x400000 ∧
      rdPtr sampleOS (FinalizeSections sampleOS out.2.1 out.2.2).mem
        (imageBaseField sampleOS out.2.1) = 0x400000 := by
  have key := header_copy_effect sampleOS (sampleHost 0x7100 0x7200) 10 0x1000 0x1040 0x400000
    0xBEEF 0x400 ⟨sampleImage, []⟩ (by decide) (by decide) (by decide) (by decide)
  refine ⟨key.2.1, key.2.2.1, ?_⟩
  cases hp : placeImage sampleOS 10 0x1000 0x1040
      (copyHeaders sampleOS 0x1000 0x1040 0x400000 0xBEEF ⟨sampleImage, []⟩).1
      (copyHeaders sampleOS 0x1000 0x1040 0x400000 0xBEEF ⟨sampleImage, []⟩).2 with
  | none =>
    have : (placeImage sampleOS 10 0x1000 0x1040
      (copyHeaders sampleOS 0x1000 0x1040 0x400000 0xBEEF ⟨sampleImage, []⟩).1
      (copyHeaders sampleOS 0x1000 0x1040 0x400000 0xBEEF ⟨sampleImage, []⟩).2).isSome =
        true := by decide
    rw [hp] at this
    cases this
  | some s2 =>
    cases hb : BuildImportTable sampleOS (sampleHost 0x7100 0x7200) 10
        (copyHeaders sampleOS 0x1000 0x1040 0x400000 0xBEEF ⟨sampleImage, []⟩).1 s2 with
    | none =>
      have : ((placeImage sampleOS 10 0x1000 0x1040
        (copyHeaders sampleOS 0x1000 0x1040 0x400000 0xBEEF ⟨sampleImage, []⟩).1
        (copyHeaders sampleOS 0x1000 0x1040 0x400000 0xBEEF ⟨sampleImage, []⟩).2).bind
        (fun s2 => BuildImportTable sampleOS (sampleHost 0x7100 0x7200) 10
          (copyHeaders sampleOS 0x1000 0x1040 0x400000 0xBEEF ⟨sampleImage, []⟩).1 s2)).isSome =
          true := by decide
      rw [hp] at this
      simp only [Option.some_bind] at this
      rw [hb] at this
      cases this
    | some out =>
      obtain ⟨r, m1, s3⟩ := out
      obtain ⟨k1, k2⟩ := key.2.2.2 s2 r m1 s3 hp hb (by decide)
      exact ⟨s2, (r, m1, s3), rfl, hb, k1, k2⟩

/-- C16 on `fourSecImage`, in the state in which `MemoryLoadLibraryEx` calls
`FinalizeSections`: the code section is protected `PAGE_EXECUTE_READ`, the
uncached data section `PAGE_READWRITE | PAGE_NOCACHE` over
`SizeOfUninitializedData` bytes, the discardable section is decommitted and
not protected, and the empty section gets no call; and the nine entries of the
table at concrete characteristics. -/
theorem section_protection_from_characteristics_witness :
    (FinalizeSections sampleOS (afterHeaders sampleOS fourSecImage).1 beforeFinalize).trace =
      beforeFinalize.trace ++
        [Event.virtualProtect 0x401000 8 PAGE_EXECUTE_READ,
         Event.virtualProtect 0x402000 0x300 (PAGE_READWRITE ||| PAGE_NOCACHE),
         Event.virtualFree 0x403000 8 MEM_DECOMMIT] ∧
    (sectionProtect 0 = PAGE_NOACCESS ∧ sectionProtect 0x40000000 = PAGE_READONLY ∧
      sectionProtect 0x80000000 = PAGE_WRITECOPY ∧ sectionProtect 0xC0000000 = PAGE_READWRITE ∧
      sectionProtect 0x20000000 = PAGE_EXECUTE ∧ sectionProtect 0x60000000 = PAGE_EXECUTE_READ ∧
      sectionProtect 0xA0000000 = PAGE_EXECUTE_WRITECOPY ∧
      sectionProtect 0xE0000000 = PAGE_EXECUTE_READWRITE ∧
      sectionProtect 0xC4000000 = PAGE_READWRITE ||| PAGE_NOCACHE) := by
  have key := section_protection_from_characteristics sampleOS
    (afterHeaders sampleOS fourSecImage).1 beforeFinalize
  refine ⟨key.1.trans ?_, ?_⟩
  · have h : finalizeCalls sampleOS (afterHeaders sampleOS fourSecImage).1 beforeFinalize.mem =
        [Event.virtualProtect 0x401000 8 PAGE_EXECUTE_READ,
         Event.virtualProtect 0x402000 0x300 (PAGE_READWRITE ||| PAGE_NOCACHE),
         Event.virtualFree 0x403000 8 MEM_DECOMMIT] := by decide
    rw [h]
  · simp only [key.2.2]
    decide

end MemoryModule
